import Mathlib

set_option maxHeartbeats 1000000
set_option maxRecDepth 100000

/-!
Verification of the document-intake orchestration core of
`temporal-llm-orchestrator`: the strict JSON normalizer
(`internal/openai/prompts.go`), the rule validator
(`internal/domain/models.go`), the activity layer and the workflow state
machine (`internal/temporal/signals.go`, `internal/temporal/workflows.go`),
over an in-memory model of the Postgres store
(`internal/storage`, `PostgresStore`) and the MinIO blob store.

Go `float64` values are modelled as decimal literals (`JNum`): a mantissa,
a fraction-digit count and a decimal exponent, compared through their
rational value.  Go byte slices and strings are modelled as Lean `String`
(`[]byte(nil)` as `""`).  Database rows live in association lists keyed by
`document_id`.
-/

namespace TemporalLLM

/-! ### Characters and digit strings -/

/-- The decimal digit character for `d < 10` (`'0'` + d). -/
def digitChar (d : ℕ) : Char := Char.ofNat (48 + d)

/-- Digit value of a character (partial inverse of `digitChar`). -/
def digitVal (c : Char) : ℕ := c.toNat - 48

/-- Digit recursion with explicit fuel (so that the kernel can evaluate
it); one unit of fuel per digit. -/
def natDigitsAux : ℕ → ℕ → List Char
  | 0, _ => []
  | fuel + 1, n =>
    if n < 10 then [digitChar n]
    else natDigitsAux fuel (n / 10) ++ [digitChar (n % 10)]

/-- Decimal digits of `n`, most significant first, no leading zeros
(`natDigits 0 = ['0']`). -/
def natDigits (n : ℕ) : List Char := natDigitsAux (n + 1) n

/-- Exactly `k` decimal digits of `r` (mod `10^k`), zero-padded on the left. -/
def padDigits : ℕ → ℕ → List Char
  | 0, _ => []
  | k + 1, r => padDigits k (r / 10) ++ [digitChar (r % 10)]

/-- Value of a digit string, most significant first. -/
def digitsToNat (ds : List Char) : ℕ := ds.foldl (fun a c => 10 * a + digitVal c) 0

/-- Split a character list at the first non-digit. -/
def takeDigits : List Char → List Char × List Char
  | [] => ([], [])
  | c :: cs =>
    if c.isDigit then
      let p := takeDigits cs
      (c :: p.1, p.2)
    else ([], c :: cs)

/-! ### JSON numbers

A Go `float64` as it appears in a JSON text: `m / 10^scale * 10^ex`.
`encoding/json` re-serializes numbers from the parsed `float64`; the model
keeps the decimal spelling, which refines the Go behaviour (two spellings
of the same value stay distinct). -/

structure JNum where
  m : ℤ
  scale : ℕ
  ex : ℤ
  deriving DecidableEq, Repr

/-- The rational value of a JSON number literal. -/
def JNum.toRat (n : JNum) : ℚ := (n.m : ℚ) / (10 : ℚ) ^ n.scale * (10 : ℚ) ^ n.ex

/-- The zero value of a Go `float64`. -/
def JNum.zero : JNum := ⟨0, 0, 0⟩

/-- `fromInt k` is the literal `k` (used for concrete inputs). -/
def JNum.fromInt (k : ℤ) : JNum := ⟨k, 0, 0⟩

/-- The literal `1`. -/
def JNum.one : JNum := ⟨1, 0, 0⟩

/-- The literal `0.75`, the workflow's confidence threshold. -/
def JNum.threshold075 : JNum := ⟨75, 2, 0⟩

/-- Cross-multiplied integer comparison keys for two number literals: the
numbers are brought to a common power-of-ten denominator, so comparing the
keys compares the rational values exactly (float64 comparison is modelled
as exact rational comparison). -/
def jnumKey (a b : JNum) : ℤ × ℤ :=
  let k : ℤ := max (-a.ex) (max (-b.ex) 0)
  (a.m * 10 ^ ((a.ex + k).toNat + b.scale), b.m * 10 ^ ((b.ex + k).toNat + a.scale))

/-- `a < b` on modelled float64 values (exact rational comparison,
kernel-computable). -/
def JNum.blt (a b : JNum) : Bool := decide ((jnumKey a b).1 < (jnumKey a b).2)

/-- `a ≤ b` on modelled float64 values. -/
def JNum.ble (a b : JNum) : Bool := decide ((jnumKey a b).1 ≤ (jnumKey a b).2)

/-- Serialization of a number literal, in the decimal style `encoding/json`
uses for ordinary `float64` values (sign, integer part, fraction, optional
exponent). -/
def printNum (n : JNum) : List Char :=
  let a := n.m.natAbs
  let base :=
    if n.scale = 0 then natDigits a
    else natDigits (a / 10 ^ n.scale) ++ '.' :: padDigits n.scale (a % 10 ^ n.scale)
  let e :=
    if n.ex = 0 then []
    else 'e' :: (if n.ex < 0 then '-' :: natDigits n.ex.natAbs else natDigits n.ex.natAbs)
  (if n.m < 0 then ['-'] else []) ++ base ++ e

/-- Integer part of a JSON number: `0`, or a nonzero-leading digit run
(leading zeros are a syntax error in JSON, as in Go's scanner). -/
def parseIntPart : List Char → Option (List Char × List Char)
  | [] => none
  | c :: rest =>
    if c = '0' then some (['0'], rest)
    else if c.isDigit then
      let p := takeDigits rest
      some (c :: p.1, p.2)
    else none

/-- Optional fraction part; a bare `.` with no digit fails. -/
def parseFracPart : List Char → Option (List Char × List Char)
  | [] => some ([], [])
  | c :: rest =>
    if c = '.' then
      let p := takeDigits rest
      if p.1 = [] then none else some p
    else some ([], c :: rest)

/-- Exponent digits with optional sign. -/
def parseExpSigned : List Char → Option (ℤ × List Char)
  | [] => none
  | c :: rest =>
    if c = '-' then
      let p := takeDigits rest
      if p.1 = [] then none else some (-(digitsToNat p.1 : ℤ), p.2)
    else if c = '+' then
      let p := takeDigits rest
      if p.1 = [] then none else some ((digitsToNat p.1 : ℤ), p.2)
    else
      let p := takeDigits (c :: rest)
      if p.1 = [] then none else some ((digitsToNat p.1 : ℤ), p.2)

/-- Optional exponent part. -/
def parseExpPart : List Char → Option (ℤ × List Char)
  | [] => some (0, [])
  | c :: rest =>
    if c = 'e' ∨ c = 'E' then parseExpSigned rest
    else some (0, c :: rest)

/-- The unsigned part of a number literal: integer, fraction, exponent. -/
def parseNumBody (neg : Bool) (cs : List Char) : Option (JNum × List Char) :=
  (parseIntPart cs).bind fun p1 =>
    (parseFracPart p1.2).bind fun p2 =>
      (parseExpPart p2.2).map fun p3 =>
        let a := digitsToNat (p1.1 ++ p2.1)
        (⟨if neg then -(a : ℤ) else (a : ℤ), p2.1.length, p3.1⟩, p3.2)

/-- Parse a JSON number literal (RFC 8259 grammar, as Go's scanner accepts
it), returning the literal and the unconsumed remainder. -/
def parseNumber (cs : List Char) : Option (JNum × List Char) :=
  match cs with
  | [] => none
  | c :: rest => if c = '-' then parseNumBody true rest else parseNumBody false (c :: rest)

/-- A remainder that cannot be confused with the continuation of a number
literal (in a serialized object the next character is `,` or `}`). -/
def NumBoundary : List Char → Prop
  | [] => True
  | c :: _ => c.isDigit = false ∧ c ≠ '.' ∧ c ≠ 'e' ∧ c ≠ 'E'

/-- A remainder whose head is not a digit. -/
def HeadNotDigit : List Char → Prop
  | [] => True
  | c :: _ => c.isDigit = false

/-- A remainder whose head is not `.`. -/
def HeadNotDot : List Char → Prop
  | [] => True
  | c :: _ => c ≠ '.'

/-- A remainder whose head is neither `e` nor `E`. -/
def HeadNotE : List Char → Prop
  | [] => True
  | c :: _ => c ≠ 'e' ∧ c ≠ 'E'

/-! ### JSON strings

`encoding/json` escapes `"` `\` and control characters, and (HTML escaping
being on by default in `json.Marshal`) also `<` `>` `&` and U+2028/U+2029;
everything else is written literally.  The scanner rejects unescaped control
characters and maps invalid surrogate escapes to U+FFFD. -/

/-- Lowercase hexadecimal digit for `d < 16`. -/
def hexDigitChar (d : ℕ) : Char := if d < 10 then digitChar d else Char.ofNat (87 + d)

/-- The four hex digits of `n < 0x10000`. -/
def printHex4 (n : ℕ) : List Char :=
  [hexDigitChar (n / 4096 % 16), hexDigitChar (n / 256 % 16),
   hexDigitChar (n / 16 % 16), hexDigitChar (n % 16)]

/-- Hexadecimal value of one character. -/
def hexVal (c : Char) : Option ℕ :=
  if '0' ≤ c ∧ c ≤ '9' then some (c.toNat - 48)
  else if 'a' ≤ c ∧ c ≤ 'f' then some (c.toNat - 87)
  else if 'A' ≤ c ∧ c ≤ 'F' then some (c.toNat - 55)
  else none

/-- Value of a 4-digit hex escape. -/
def hex4 (a b c d : Char) : Option ℕ :=
  match hexVal a, hexVal b, hexVal c, hexVal d with
  | some x1, some x2, some x3, some x4 => some (4096 * x1 + 256 * x2 + 16 * x3 + x4)
  | _, _, _, _ => none

def isHighSurrogate (n : ℕ) : Bool := decide (55296 ≤ n ∧ n ≤ 56319)

def isLowSurrogate (n : ℕ) : Bool := decide (56320 ≤ n ∧ n ≤ 57343)

/-- U+FFFD, written for invalid surrogate escapes as Go's decoder does. -/
def replacementChar : Char := Char.ofNat 65533

/-- The characters `json.Marshal` writes for one rune. -/
def escapeChar (c : Char) : List Char :=
  if c = '"' then ['\\', '"']
  else if c = '\\' then ['\\', '\\']
  else if c = '\n' then ['\\', 'n']
  else if c = '\r' then ['\\', 'r']
  else if c = '\t' then ['\\', 't']
  else if c.toNat < 32 ∨ c = '<' ∨ c = '>' ∨ c = '&' ∨ c.toNat = 8232 ∨ c.toNat = 8233 then
    '\\' :: 'u' :: printHex4 c.toNat
  else [c]

/-- Serialization of the body of a string literal. -/
def printStringBody : List Char → List Char
  | [] => []
  | c :: cs => escapeChar c ++ printStringBody cs

/-- Serialization of a string literal, quotes included. -/
def printString (s : String) : List Char := '"' :: (printStringBody s.data ++ ['"'])

/-- Decode one `\uXXXX` escape (the `u` already consumed), with Go's
surrogate-pair rules: a valid high+low pair combines; an invalid pair or a
lone surrogate yields U+FFFD without consuming the second escape. -/
def unescapeU : List Char → Option (Char × List Char)
  | h1 :: h2 :: h3 :: h4 :: rest3 =>
    match hex4 h1 h2 h3 h4 with
    | none => none
    | some n =>
      if isHighSurrogate n then
        match rest3 with
        | '\\' :: 'u' :: g1 :: g2 :: g3 :: g4 :: rest4 =>
          match hex4 g1 g2 g3 g4 with
          | none => some (replacementChar, '\\' :: 'u' :: g1 :: g2 :: g3 :: g4 :: rest4)
          | some n2 =>
            if isLowSurrogate n2 then
              some (Char.ofNat (65536 + (n - 55296) * 1024 + (n2 - 56320)), rest4)
            else some (replacementChar, '\\' :: 'u' :: g1 :: g2 :: g3 :: g4 :: rest4)
        | _ => some (replacementChar, rest3)
      else if isLowSurrogate n then some (replacementChar, rest3)
      else some (Char.ofNat n, rest3)
  | _ => none

/-- Parse the body of a string literal after the opening quote, returning the
unescaped content and the remainder after the closing quote (Go's scanner
rejects unescaped control characters and unknown escapes).  Fuel-indexed;
one unit of fuel per produced character, so any fuel above the input length
is sufficient. -/
def parseStringBody : ℕ → List Char → Option (List Char × List Char)
  | 0, _ => none
  | fuel + 1, cs =>
    match cs with
    | [] => none
    | c :: rest =>
      if c = '"' then some ([], rest)
      else if c = '\\' then
        match rest with
        | [] => none
        | e :: rest2 =>
          if e = '"' then (parseStringBody fuel rest2).map fun p => ('"' :: p.1, p.2)
          else if e = '\\' then (parseStringBody fuel rest2).map fun p => ('\\' :: p.1, p.2)
          else if e = '/' then (parseStringBody fuel rest2).map fun p => ('/' :: p.1, p.2)
          else if e = 'b' then (parseStringBody fuel rest2).map fun p => (Char.ofNat 8 :: p.1, p.2)
          else if e = 'f' then (parseStringBody fuel rest2).map fun p => (Char.ofNat 12 :: p.1, p.2)
          else if e = 'n' then (parseStringBody fuel rest2).map fun p => ('\n' :: p.1, p.2)
          else if e = 'r' then (parseStringBody fuel rest2).map fun p => ('\r' :: p.1, p.2)
          else if e = 't' then (parseStringBody fuel rest2).map fun p => ('\t' :: p.1, p.2)
          else if e = 'u' then
            match unescapeU rest2 with
            | none => none
            | some (ch, rest3) => (parseStringBody fuel rest3).map fun p => (ch :: p.1, p.2)
          else none
      else if c.toNat < 32 then none
      else (parseStringBody fuel rest).map fun p => (c :: p.1, p.2)

/-! ### JSON values and the document parser

Go's `encoding/json` scanner: whitespace between tokens is space, tab,
newline, carriage return; objects keep their fields in input order
(`map[string]json.RawMessage` deduplicates, struct decoding is last-wins —
the model keeps the field list and folds over it). -/

inductive Json where
  | null
  | bool (b : Bool)
  | num (n : JNum)
  | str (s : String)
  | arr (elems : List Json)
  | obj (fields : List (String × Json))

def isJsonWs (c : Char) : Bool := c = ' ' || c = '\t' || c = '\n' || c = '\x0d'

def skipWs (cs : List Char) : List Char := cs.dropWhile isJsonWs

/-- The whitespace class of Go's `strings.TrimSpace` (`unicode.IsSpace`),
restricted to its Latin-1 fast path. -/
def isGoSpace (c : Char) : Bool :=
  c = '\t' || c = '\n' || c = '\x0b' || c = '\x0c' || c = '\x0d' || c = ' ' ||
    c.toNat = 133 || c.toNat = 160

def goTrimSpace (cs : List Char) : List Char :=
  ((cs.dropWhile isGoSpace).reverse.dropWhile isGoSpace).reverse

mutual

/-- Parse one JSON value (fuel-indexed; the fuel bounds nesting and member
counts and is always sufficient when instantiated with the input length). -/
def parseValue : ℕ → List Char → Option (Json × List Char)
  | 0, _ => none
  | fuel + 1, cs =>
    match skipWs cs with
    | [] => none
    | c :: rest =>
      if c = 'n' then
        match rest with
        | 'u' :: 'l' :: 'l' :: r => some (.null, r)
        | _ => none
      else if c = 't' then
        match rest with
        | 'r' :: 'u' :: 'e' :: r => some (.bool true, r)
        | _ => none
      else if c = 'f' then
        match rest with
        | 'a' :: 'l' :: 's' :: 'e' :: r => some (.bool false, r)
        | _ => none
      else if c = '"' then
        (parseStringBody (rest.length + 1) rest).map fun p => (.str (String.mk p.1), p.2)
      else if c = '[' then
        match skipWs rest with
        | [] => none
        | c2 :: r2 => if c2 = ']' then some (.arr [], r2) else parseElems fuel rest []
      else if c = '{' then
        match skipWs rest with
        | [] => none
        | c2 :: r2 => if c2 = '}' then some (.obj [], r2) else parseMembers fuel rest []
      else
        (parseNumber (c :: rest)).map fun p => (.num p.1, p.2)

/-- Parse the elements of a non-empty array. -/
def parseElems : ℕ → List Char → List Json → Option (Json × List Char)
  | 0, _, _ => none
  | fuel + 1, cs, acc =>
    match parseValue fuel cs with
    | none => none
    | some (v, r1) =>
      match skipWs r1 with
      | [] => none
      | c2 :: r2 =>
        if c2 = ',' then parseElems fuel r2 (acc ++ [v])
        else if c2 = ']' then some (.arr (acc ++ [v]), r2)
        else none

/-- Parse the members of a non-empty object. -/
def parseMembers : ℕ → List Char → List (String × Json) → Option (Json × List Char)
  | 0, _, _ => none
  | fuel + 1, cs, acc =>
    match skipWs cs with
    | [] => none
    | c :: r0 =>
      if c = '"' then
        match parseStringBody (r0.length + 1) r0 with
        | none => none
        | some (k, r1) =>
          match skipWs r1 with
          | [] => none
          | c1 :: r2 =>
            if c1 = ':' then
              match parseValue fuel r2 with
              | none => none
              | some (v, r3) =>
                match skipWs r3 with
                | [] => none
                | c2 :: r4 =>
                  if c2 = ',' then parseMembers fuel r4 (acc ++ [(String.mk k, v)])
                  else if c2 = '}' then some (.obj (acc ++ [(String.mk k, v)]), r4)
                  else none
            else none
      else none

end

/-- `json.Unmarshal`: one value, then only whitespace may remain. -/
def jsonUnmarshal (cs : List Char) : Option Json :=
  match parseValue (cs.length + 1) cs with
  | none => none
  | some (v, rest) => if skipWs rest = [] then some v else none

/-! ### Serialization of the extraction structs (`json.Marshal`) -/

/-- One scalar value as `json.Marshal` writes it (the extraction structs
only ever contain null, numbers and strings). -/
def printScalar : Json → List Char
  | .null => ['n', 'u', 'l', 'l']
  | .bool b => if b then ['t', 'r', 'u', 'e'] else ['f', 'a', 'l', 's', 'e']
  | .num n => printNum n
  | .str s => printString s
  | .arr _ => []
  | .obj _ => []

/-- The members of an object, comma-separated, as `json.Marshal` writes
them. -/
def printFields : List (String × Json) → List Char
  | [] => []
  | [(k, v)] => printString k ++ ':' :: printScalar v
  | (k, v) :: rest => printString k ++ ':' :: printScalar v ++ ',' :: printFields rest

/-- Scalar JSON values (all an extraction struct ever serializes). -/
def IsScalar : Json → Prop
  | .null => True
  | .bool _ => True
  | .num _ => True
  | .str _ => True
  | .arr _ => False
  | .obj _ => False

/-- A remainder beginning with a member separator (or nothing). -/
def SepRest : List Char → Prop
  | [] => True
  | c :: _ => c = ',' ∨ c = '}'

/-! ### Domain model (`internal/domain/models.go`) -/

inductive DocType where
  | payslip
  | invoice
  | unknown
  deriving DecidableEq, Repr

def DocType.str : DocType → String
  | .payslip => "payslip"
  | .invoice => "invoice"
  | .unknown => "unknown"

/-- `PayslipExtraction`; field names are the JSON tags of the Go struct,
in declaration order. -/
structure PayslipExtraction where
  employee_name : Option String
  employer_name : Option String
  pay_period_start : Option String
  pay_period_end : Option String
  gross_pay : JNum
  net_pay : JNum
  tax_withheld : JNum
  superannuation : Option JNum
  confidence : JNum
  deriving DecidableEq, Repr

/-- `InvoiceExtraction`. -/
structure InvoiceExtraction where
  supplier_name : Option String
  invoice_number : Option String
  invoice_date : Option String
  due_date : Option String
  total_amount : JNum
  gst_amount : Option JNum
  confidence : JNum
  deriving DecidableEq, Repr

/-- The zero value of `PayslipExtraction` (`var v domain.PayslipExtraction`). -/
def PayslipExtraction.zero : PayslipExtraction :=
  ⟨none, none, none, none, JNum.zero, JNum.zero, JNum.zero, none, JNum.zero⟩

def InvoiceExtraction.zero : InvoiceExtraction :=
  ⟨none, none, none, none, JNum.zero, none, JNum.zero⟩

structure ValidationResult where
  failedRules : List String
  confidence : JNum
  deriving DecidableEq, Repr

/-! #### Dates (`time.Parse("2006-01-02", ...)`) -/

structure GoDate where
  y : ℕ
  mo : ℕ
  d : ℕ
  deriving DecidableEq, Repr

def isLeapYear (y : ℕ) : Bool := y % 4 = 0 && (y % 100 ≠ 0 || y % 400 = 0)

def daysInMonth (y mo : ℕ) : ℕ :=
  if mo = 2 then (if isLeapYear y then 29 else 28)
  else if mo = 4 ∨ mo = 6 ∨ mo = 9 ∨ mo = 11 then 30
  else 31

/-- `parseISODate` (`models.go`): a null string errors; otherwise
`time.Parse` with layout `2006-01-02` demands exactly 4-2-2 zero-padded
digits, dashes in place, in-range month and day (leap years counted), and
no extra text.  `none` is the error case. -/
def parseISODate (v : Option String) : Option GoDate :=
  match v with
  | none => none
  | some s =>
    match s.data with
    | [a, b, c, d, s1, e, f, s2, g, h] =>
      if s1 = '-' ∧ s2 = '-' ∧ a.isDigit ∧ b.isDigit ∧ c.isDigit ∧ d.isDigit ∧
          e.isDigit ∧ f.isDigit ∧ g.isDigit ∧ h.isDigit then
        let yy := digitsToNat [a, b, c, d]
        let mm := digitsToNat [e, f]
        let dd := digitsToNat [g, h]
        if 1 ≤ mm ∧ mm ≤ 12 ∧ 1 ≤ dd ∧ dd ≤ daysInMonth yy mm then some ⟨yy, mm, dd⟩
        else none
      else none
    | _ => none

/-- `start.After(end)`: strict lexicographic comparison of dates. -/
def dateAfter (x y : GoDate) : Bool :=
  decide (y.y < x.y ∨ (y.y = x.y ∧ (y.mo < x.mo ∨ (y.mo = x.mo ∧ y.d < x.d))))

/-! #### Rule validators -/

/-- `ValidatePayslip`: the failed-rule identifiers appended in source
order. -/
def ValidatePayslip (v : PayslipExtraction) : ValidationResult :=
  let f1 := if v.gross_pay.blt JNum.zero || v.net_pay.blt JNum.zero ||
      v.tax_withheld.blt JNum.zero then
    ["payslip.amounts_non_negative"] else []
  let f2 := match v.superannuation with
    | some su => if su.blt JNum.zero then ["payslip.superannuation_non_negative"] else []
    | none => []
  let f3 := if v.gross_pay.blt v.net_pay then ["payslip.gross_pay_gte_net_pay"]
    else []
  let f4 := match parseISODate v.pay_period_start, parseISODate v.pay_period_end with
    | some s, some e => if dateAfter s e then ["payslip.pay_period_start_lte_end"] else []
    | _, _ => ["payslip.pay_period_dates_parseable"]
  let f5 := if v.confidence.blt JNum.zero || JNum.one.blt v.confidence then
    ["payslip.confidence_range"] else []
  ⟨f1 ++ f2 ++ f3 ++ f4 ++ f5, v.confidence⟩

/-- `ValidateInvoice`. -/
def ValidateInvoice (v : InvoiceExtraction) : ValidationResult :=
  let f1 := if v.total_amount.ble JNum.zero then ["invoice.total_amount_gt_zero"] else []
  let f2 := if v.total_amount.blt JNum.zero then ["invoice.amounts_non_negative"] else []
  let f3 := match v.gst_amount with
    | some g => if g.blt JNum.zero then ["invoice.gst_non_negative"] else []
    | none => []
  let f4 := match parseISODate v.invoice_date with
    | some _ => []
    | none => ["invoice.invoice_date_parseable"]
  let f5 := match v.due_date with
    | some dd => match parseISODate (some dd) with
      | some _ => []
      | none => ["invoice.due_date_parseable"]
    | none => []
  let f6 := if v.confidence.blt JNum.zero || JNum.one.blt v.confidence then
    ["invoice.confidence_range"] else []
  ⟨f1 ++ f2 ++ f3 ++ f4 ++ f5 ++ f6, v.confidence⟩

/-- `ValidationPassed`. -/
def ValidationPassed (r : ValidationResult) : Bool := r.failedRules.isEmpty

/-! ### Strict JSON normalizer (`internal/openai/prompts.go`) -/

inductive NormError where
  | emptyOutput
  | syntaxError
  | typeUnmarshalMap
  | unknownKey (k : String) (allowed : List String)
  | missingKey (k : String)
  | typeMismatch (field : String)
  | unknownField (k : String)
  | typeUnmarshalStruct
  | unsupportedDocType (dt : String)
  deriving DecidableEq, Repr

/-- Allowed keys (`payslipAllowedKeys`), in source order. -/
def payslipAllowedKeys : List String :=
  ["employee_name", "employer_name", "pay_period_start", "pay_period_end",
   "gross_pay", "net_pay", "tax_withheld", "superannuation", "confidence"]

/-- The required list passed to `validateKeys` for payslips. -/
def payslipRequiredKeys : List String :=
  ["employee_name", "employer_name", "pay_period_start", "pay_period_end",
   "gross_pay", "net_pay", "tax_withheld", "confidence"]

def invoiceAllowedKeys : List String :=
  ["supplier_name", "invoice_number", "invoice_date", "due_date",
   "total_amount", "gst_amount", "confidence"]

def invoiceRequiredKeys : List String :=
  ["supplier_name", "invoice_number", "invoice_date", "total_amount", "confidence"]

def insertSorted (x : String) : List String → List String
  | [] => [x]
  | y :: ys => if x ≤ y then x :: y :: ys else y :: insertSorted x ys

/-- `sortedKeys`: the allowed-key set in sorted order, as carried in the
unknown-key error. -/
def sortedKeys : List String → List String
  | [] => []
  | x :: xs => insertSorted x (sortedKeys xs)

/-- `json.Unmarshal` into `map[string]json.RawMessage`: the document must be
an object (or `null`, which leaves the map nil and hence empty). -/
def objFieldsForMap : Json → Except NormError (List (String × Json))
  | .obj fs => .ok fs
  | .null => .ok []
  | _ => .error .typeUnmarshalMap

def findUnknownKey (allowed : List String) : List (String × Json) → Option String
  | [] => none
  | (k, _) :: rest => if allowed.contains k then findUnknownKey allowed rest else some k

def hasKey (fs : List (String × Json)) (k : String) : Bool := fs.any fun p => p.1 = k

def findMissingKey (fs : List (String × Json)) : List String → Option String
  | [] => none
  | r :: rs => if hasKey fs r then findMissingKey fs rs else some r

/-- `validateKeys` (`prompts.go`): unmarshal into a raw map, reject unknown
top-level keys (carrying the sorted allowed set), then require every
required key. -/
def validateKeys (v : Json) (allowed : List String) (required : List String) :
    Except NormError Unit :=
  match objFieldsForMap v with
  | .error e => .error e
  | .ok fs =>
    match findUnknownKey allowed fs with
    | some k => .error (.unknownKey k (sortedKeys allowed))
    | none =>
      match findMissingKey fs required with
      | some k => .error (.missingKey k)
      | none => .ok ()

/-! #### Struct decoding (`strictDecode` with `DisallowUnknownFields`)

`encoding/json` semantics for the field kinds that occur here: JSON `null`
sets a pointer field to nil and is a no-op for a plain `float64`; a value
of the wrong type is an error; unknown fields are errors under
`DisallowUnknownFields`; a repeated key decodes last-wins. -/

def decodeStrPtr (field : String) : Json → Except NormError (Option String)
  | .null => .ok none
  | .str s => .ok (some s)
  | _ => .error (.typeMismatch field)

def decodeFloatPtr (field : String) : Json → Except NormError (Option JNum)
  | .null => .ok none
  | .num n => .ok (some n)
  | _ => .error (.typeMismatch field)

def decodeFloat (field : String) (cur : JNum) : Json → Except NormError JNum
  | .null => .ok cur
  | .num n => .ok n
  | _ => .error (.typeMismatch field)

def decodePayslipField (acc : PayslipExtraction) (k : String) (v : Json) :
    Except NormError PayslipExtraction :=
  if k = "employee_name" then
    (decodeStrPtr k v).map fun s => { acc with employee_name := s }
  else if k = "employer_name" then
    (decodeStrPtr k v).map fun s => { acc with employer_name := s }
  else if k = "pay_period_start" then
    (decodeStrPtr k v).map fun s => { acc with pay_period_start := s }
  else if k = "pay_period_end" then
    (decodeStrPtr k v).map fun s => { acc with pay_period_end := s }
  else if k = "gross_pay" then
    (decodeFloat k acc.gross_pay v).map fun n => { acc with gross_pay := n }
  else if k = "net_pay" then
    (decodeFloat k acc.net_pay v).map fun n => { acc with net_pay := n }
  else if k = "tax_withheld" then
    (decodeFloat k acc.tax_withheld v).map fun n => { acc with tax_withheld := n }
  else if k = "superannuation" then
    (decodeFloatPtr k v).map fun n => { acc with superannuation := n }
  else if k = "confidence" then
    (decodeFloat k acc.confidence v).map fun n => { acc with confidence := n }
  else .error (.unknownField k)

def decodePayslipFields : PayslipExtraction → List (String × Json) →
    Except NormError PayslipExtraction
  | acc, [] => .ok acc
  | acc, (k, v) :: rest =>
    match decodePayslipField acc k v with
    | .error e => .error e
    | .ok acc2 => decodePayslipFields acc2 rest

/-- `strictDecode` into `PayslipExtraction` from a parsed value. -/
def strictDecodePayslipJson : Json → Except NormError PayslipExtraction
  | .obj fs => decodePayslipFields PayslipExtraction.zero fs
  | .null => .ok PayslipExtraction.zero
  | _ => .error .typeUnmarshalStruct

def decodeInvoiceField (acc : InvoiceExtraction) (k : String) (v : Json) :
    Except NormError InvoiceExtraction :=
  if k = "supplier_name" then
    (decodeStrPtr k v).map fun s => { acc with supplier_name := s }
  else if k = "invoice_number" then
    (decodeStrPtr k v).map fun s => { acc with invoice_number := s }
  else if k = "invoice_date" then
    (decodeStrPtr k v).map fun s => { acc with invoice_date := s }
  else if k = "due_date" then
    (decodeStrPtr k v).map fun s => { acc with due_date := s }
  else if k = "total_amount" then
    (decodeFloat k acc.total_amount v).map fun n => { acc with total_amount := n }
  else if k = "gst_amount" then
    (decodeFloatPtr k v).map fun n => { acc with gst_amount := n }
  else if k = "confidence" then
    (decodeFloat k acc.confidence v).map fun n => { acc with confidence := n }
  else .error (.unknownField k)

def decodeInvoiceFields : InvoiceExtraction → List (String × Json) →
    Except NormError InvoiceExtraction
  | acc, [] => .ok acc
  | acc, (k, v) :: rest =>
    match decodeInvoiceField acc k v with
    | .error e => .error e
    | .ok acc2 => decodeInvoiceFields acc2 rest

def strictDecodeInvoiceJson : Json → Except NormError InvoiceExtraction
  | .obj fs => decodeInvoiceFields InvoiceExtraction.zero fs
  | .null => .ok InvoiceExtraction.zero
  | _ => .error .typeUnmarshalStruct

/-! #### Marshalling (`json.Marshal` of the structs) -/

def jsonStrPtr : Option String → Json
  | none => .null
  | some s => .str s

/-- The fields `json.Marshal` writes for a payslip, in struct order;
`superannuation` carries `omitempty`. -/
def payslipFields (v : PayslipExtraction) : List (String × Json) :=
  [("employee_name", jsonStrPtr v.employee_name),
   ("employer_name", jsonStrPtr v.employer_name),
   ("pay_period_start", jsonStrPtr v.pay_period_start),
   ("pay_period_end", jsonStrPtr v.pay_period_end),
   ("gross_pay", .num v.gross_pay),
   ("net_pay", .num v.net_pay),
   ("tax_withheld", .num v.tax_withheld)] ++
  (match v.superannuation with
   | none => []
   | some n => [("superannuation", .num n)]) ++
  [("confidence", .num v.confidence)]

/-- The fields for an invoice; `due_date` and `gst_amount` carry
`omitempty`. -/
def invoiceFields (v : InvoiceExtraction) : List (String × Json) :=
  [("supplier_name", jsonStrPtr v.supplier_name),
   ("invoice_number", jsonStrPtr v.invoice_number),
   ("invoice_date", jsonStrPtr v.invoice_date)] ++
  (match v.due_date with
   | none => []
   | some s => [("due_date", .str s)]) ++
  [("total_amount", .num v.total_amount)] ++
  (match v.gst_amount with
   | none => []
   | some n => [("gst_amount", .num n)]) ++
  [("confidence", .num v.confidence)]

def marshalPayslip (v : PayslipExtraction) : String :=
  String.mk ('{' :: printFields (payslipFields v) ++ ['}'])

def marshalInvoice (v : InvoiceExtraction) : String :=
  String.mk ('{' :: printFields (invoiceFields v) ++ ['}'])

/-- `ParseAndNormalize` (`prompts.go`): trim, reject empty output, check
keys against the per-type allowed/required sets, strict-decode, and
re-serialize canonically, returning the canonical bytes and the parsed
confidence.  The Go code parses the same trimmed text twice (once into a
raw map inside `validateKeys`, once inside `strictDecode`); the model
parses once and applies both checks to the same parse tree, which Go's
deterministic grammar makes equivalent.  Trailing data after the JSON
value already fails the `json.Unmarshal` inside `validateKeys`. -/
def ParseAndNormalize (docType : DocType) (raw : String) :
    Except NormError (String × JNum) :=
  let trimmed := goTrimSpace raw.data
  if trimmed = [] then .error .emptyOutput
  else
    match docType with
    | .payslip =>
      match jsonUnmarshal trimmed with
      | none => .error .syntaxError
      | some j =>
        match validateKeys j payslipAllowedKeys payslipRequiredKeys with
        | .error e => .error e
        | .ok _ =>
          match strictDecodePayslipJson j with
          | .error e => .error e
          | .ok v => .ok (marshalPayslip v, v.confidence)
    | .invoice =>
      match jsonUnmarshal trimmed with
      | none => .error .syntaxError
      | some j =>
        match validateKeys j invoiceAllowedKeys invoiceRequiredKeys with
        | .error e => .error e
        | .ok _ =>
          match strictDecodeInvoiceJson j with
          | .error e => .error e
          | .ok v => .ok (marshalInvoice v, v.confidence)
    | .unknown => .error (.unsupportedDocType "unknown")

/-- `ValidateByRules` (`prompts.go`): strict-decode the canonical payload
and run the per-type rule validator. -/
def ValidateByRules (docType : DocType) (payload : String) :
    Except NormError ValidationResult :=
  match docType with
  | .payslip =>
    match jsonUnmarshal payload.data with
    | none => .error .syntaxError
    | some j =>
      match strictDecodePayslipJson j with
      | .error e => .error e
      | .ok v => .ok (ValidatePayslip v)
  | .invoice =>
    match jsonUnmarshal payload.data with
    | none => .error .syntaxError
    | some j =>
      match strictDecodeInvoiceJson j with
      | .error e => .error e
      | .ok v => .ok (ValidateInvoice v)
  | .unknown => .error (.unsupportedDocType "unknown")

/-! ### The persistent stores (`internal/storage`)

An in-memory model of the Postgres tables and the MinIO bucket.  Rows of
`documents` and `review_queue` live in association lists keyed by
`document_id` (both tables have that primary/unique key);
`extraction_attempts` and `audit_log` are append-only row lists. -/

/-- `domain.DocumentStatus` (`internal/domain/state.go`). -/
inductive DocumentStatus where
  | received
  | stored
  | classified
  | extracted
  | needsReview
  | rejected
  | completed
  | failed
  deriving DecidableEq, Repr

/-- `domain.AuditState`. -/
inductive AuditState where
  | stored
  | classified
  | extracted
  | needsReview
  | completed
  | rejected
  deriving DecidableEq, Repr

/-- A row of `documents` (`domain.DocumentRecord` as `GetDocument` scans
it: `COALESCE` maps NULL `object_key`/`raw_text` to `""` and NULL
`confidence` to `0`; `doc_type` is the raw string of `domain.DocType`;
nil byte slices are `""`). -/
structure DocumentRecord where
  id : String
  filename : String
  objectKey : String
  rawText : String
  docType : String
  status : DocumentStatus
  currentJson : String
  finalJson : String
  confidence : JNum
  rejectedReason : Option String
  deriving DecidableEq

/-- A row of `review_queue` (keyed by `document_id` in the store map). -/
structure ReviewItem where
  failedRules : List String
  currentJson : String
  status : String
  deriving DecidableEq

/-- The Postgres tables used by the activity layer. -/
structure StoreState where
  docs : List (String × DocumentRecord)
  attempts : List (String × String × String)
  auditLog : List (String × AuditState × Json)
  reviews : List (String × ReviewItem)

/-- Row lookup by key. -/
def lookupRow {α : Type} : List (String × α) → String → Option α
  | [], _ => none
  | (k, v) :: rest, id => if k = id then some v else lookupRow rest id

/-- SQL `UPDATE ... WHERE id = $1` on a keyed row list: rewrite the row in
place; a missing row is a no-op. -/
def updateRow {α : Type} : List (String × α) → String → (α → α) → List (String × α)
  | [], _, _ => []
  | (k, v) :: rest, id, f =>
    if k = id then (k, f v) :: rest else (k, v) :: updateRow rest id f

/-- `PostgresStore.GetDocument` (`sql.ErrNoRows` becomes `none`). -/
def StoreState.getDocument (s : StoreState) (documentID : String) :
    Option DocumentRecord :=
  lookupRow s.docs documentID

/-- `PostgresStore.UpsertDocument`: insert the six listed columns, or on
conflict keep a non-empty `object_key`/`raw_text` and a non-`unknown`
`doc_type`, overwrite `filename` and `status`. -/
def StoreState.upsertDocument (s : StoreState) (rec : DocumentRecord) : StoreState :=
  match lookupRow s.docs rec.id with
  | none =>
    { s with docs := s.docs ++ [(rec.id,
        { rec with currentJson := "", finalJson := "",
                   confidence := JNum.zero, rejectedReason := none })] }
  | some old =>
    { s with docs := updateRow s.docs rec.id fun _ =>
        { old with
          filename := rec.filename,
          objectKey := if old.objectKey = "" then rec.objectKey else old.objectKey,
          rawText := if old.rawText = "" then rec.rawText else old.rawText,
          docType := if old.docType = "unknown" then rec.docType else old.docType,
          status := rec.status } }

/-- `PostgresStore.UpdateDocumentClassification`. -/
def StoreState.updateDocumentClassification (s : StoreState)
    (documentID docType : String) : StoreState :=
  { s with docs := updateRow s.docs documentID fun d =>
      { d with docType := docType, status := .classified } }

/-- `PostgresStore.InsertAudit`: an unconditional append to `audit_log`. -/
def StoreState.insertAudit (s : StoreState) (documentID : String)
    (state : AuditState) (detail : Json) : StoreState :=
  { s with auditLog := s.auditLog ++ [(documentID, state, detail)] }

/-- `PostgresStore.SaveModelOutput`: an unconditional append to
`extraction_attempts`. -/
def StoreState.saveModelOutput (s : StoreState) (documentID phase output : String) :
    StoreState :=
  { s with attempts := s.attempts ++ [(documentID, phase, output)] }

/-- `PostgresStore.SaveCurrentExtraction`. -/
def StoreState.saveCurrentExtraction (s : StoreState) (documentID payload : String)
    (confidence : JNum) : StoreState :=
  { s with docs := updateRow s.docs documentID fun d =>
      { d with currentJson := payload, confidence := confidence, status := .extracted } }

/-- `PostgresStore.GetCurrentExtraction`. -/
def StoreState.getCurrentExtraction (s : StoreState) (documentID : String) :
    Option (String × JNum) :=
  match lookupRow s.docs documentID with
  | none => none
  | some d => some (d.currentJson, d.confidence)

/-- `PostgresStore.QueueReview`: in one transaction, upsert the review
item to `PENDING` and set the document status to `NEEDS_REVIEW`. -/
def StoreState.queueReview (s : StoreState) (documentID : String)
    (failedRules : List String) (currentJSON : String) : StoreState :=
  let s1 :=
    match lookupRow s.reviews documentID with
    | none =>
      { s with reviews := s.reviews ++
          [(documentID, (⟨failedRules, currentJSON, "PENDING"⟩ : ReviewItem))] }
    | some _ =>
      { s with reviews := updateRow s.reviews documentID fun _ =>
          ⟨failedRules, currentJSON, "PENDING"⟩ }
  { s1 with docs := updateRow s1.docs documentID fun d =>
      { d with status := .needsReview } }

/-- `PostgresStore.ResolveReview`: set the review status to the decision
tag (no-op on a missing item). -/
def StoreState.resolveReview (s : StoreState) (documentID decision : String) :
    StoreState :=
  { s with reviews := updateRow s.reviews documentID fun r =>
      { r with status := decision } }

/-- `PostgresStore.SaveFinalResult`: `final_json` is kept when the payload
is empty (`CASE WHEN $2 = '' THEN final_json ELSE $2 END`). -/
def StoreState.saveFinalResult (s : StoreState) (documentID payload : String)
    (confidence : JNum) (status : DocumentStatus)
    (rejectedReason : Option String) : StoreState :=
  { s with docs := updateRow s.docs documentID fun d =>
      { d with
        finalJson := if payload = "" then d.finalJson else payload,
        confidence := confidence,
        status := status,
        rejectedReason := rejectedReason } }

/-! ### The LLM transport and the world

Activities are functions `World → result × World`.  The LLM is an oracle
list consumed one entry per `CompleteJSON` transport attempt (`none` is a
transport error); `llmRequests` records one entry per logical LLM request
(`callOpenAIWithRetry` invocation) with the prompt it was built from;
`blobPuts` records every `MinioStore.PutDocument` call. -/

/-- One LLM request as built by the prompt constructors of
`internal/openai/prompts.go` (`BuildBaseUserPrompt`,
`BuildRepairUserPrompt`, `BuildCorrectUserPrompt`; the schema is a
function of the doc type). -/
inductive Prompt where
  | base (docType documentText : String)
  | repair (rawOutput : String)
  | correct (docType documentText currentJson : String) (failedRules : List String)
  deriving DecidableEq

/-- Activity errors distinguished by the workflow model. -/
inductive GoError where
  | openaiRetryExhausted
  | ladderExhausted (e : NormError)
  | norm (e : NormError)
  deriving DecidableEq

/-- The mutable world an activity runs against. -/
structure World where
  store : StoreState
  blobPuts : List (String × String × String)
  llm : List (Option String)
  llmRequests : List Prompt
  maxRetry : ℤ

/-- One `CompleteJSON` transport attempt: consume the next oracle entry. -/
def completeJSON (w : World) : Option String × World :=
  match w.llm with
  | [] => (none, w)
  | r :: rest => (r, { w with llm := rest })

/-- The retry loop of `callOpenAIWithRetry`, indexed by attempts left. -/
def retryLoop : World → ℕ → Except GoError String × World
  | w, 0 => (.error .openaiRetryExhausted, w)
  | w, n + 1 =>
    match completeJSON w with
    | (some out, w1) => (.ok out, w1)
    | (none, w1) => retryLoop w1 n

/-- `Activities.callOpenAIWithRetry`: up to `maxRetry` transport attempts
(defaulting to 3 when the configured value is `<= 0`), returning the
first success; the prompt is recorded once per logical request. -/
def callOpenAIWithRetry (w : World) (p : Prompt) : Except GoError String × World :=
  retryLoop { w with llmRequests := w.llmRequests ++ [p] }
    (if w.maxRetry ≤ 0 then 3 else w.maxRetry).toNat

/-- `openai.ParseAndNormalize` on the raw `domain.DocType` string
(`DocType` is a string type; the switch falls through to an unsupported
error for any other value). -/
def parseAndNormalizeStr (docType raw : String) : Except NormError (String × JNum) :=
  if goTrimSpace raw.data = [] then .error .emptyOutput
  else if docType = "payslip" then ParseAndNormalize .payslip raw
  else if docType = "invoice" then ParseAndNormalize .invoice raw
  else .error (.unsupportedDocType docType)

/-- `openai.ValidateByRules` on the raw `domain.DocType` string. -/
def validateByRulesStr (docType payload : String) : Except NormError ValidationResult :=
  if docType = "payslip" then ValidateByRules .payslip payload
  else if docType = "invoice" then ValidateByRules .invoice payload
  else .error (.unsupportedDocType docType)

/-! ### The activity layer (`internal/temporal/signals.go`) -/

/-- Lowercasing on the ASCII range (`strings.ToLower`, restricted to the
characters the doc-type heuristic searches for). -/
def toLowerStr (s : String) : String := String.mk (s.data.map Char.toLower)

/-- Substring search (`strings.Contains`). -/
def containsSub (needle : List Char) : List Char → Bool
  | [] => needle.isPrefixOf []
  | c :: rest => needle.isPrefixOf (c :: rest) || containsSub needle rest

def strContains (hay needle : String) : Bool := containsSub needle.data hay.data

/-- `detectDocType` (`signals.go`): keyword heuristic over the lowercased
text and filename, defaulting to invoice. -/
def detectDocType (documentText filename : String) : String :=
  let norm := toLowerStr (documentText ++ " " ++ filename)
  if strContains norm "gross pay" || strContains norm "net pay" ||
      strContains norm "pay period" || strContains norm "payslip" then "payslip"
  else if strContains norm "invoice" || strContains norm "total amount" ||
      strContains norm "supplier" then "invoice"
  else "invoice"

structure StoreDocumentInput where
  documentID : String
  filename : String
  content : String
  deriving DecidableEq

structure StoreDocumentOutput where
  objectKey : String
  documentText : String
  deriving DecidableEq

structure DetectDocTypeInput where
  documentID : String
  filename : String
  documentText : String
  deriving DecidableEq

structure DetectDocTypeOutput where
  docType : String
  deriving DecidableEq

structure ExtractFieldsInput where
  documentID : String
  docType : String
  documentText : String
  deriving DecidableEq

structure ExtractFieldsOutput where
  extractionJson : String
  confidence : JNum
  deriving DecidableEq

structure ValidateFieldsInput where
  docType : String
  extractionJson : String
  deriving DecidableEq

structure ValidateFieldsOutput where
  failedRules : List String
  confidence : JNum
  deriving DecidableEq

structure CorrectFieldsInput where
  documentID : String
  docType : String
  documentText : String
  currentJson : String
  failedRules : List String
  deriving DecidableEq

structure CorrectFieldsOutput where
  correctedJson : String
  confidence : JNum
  deriving DecidableEq

structure QueueReviewInput where
  documentID : String
  failedRules : List String
  currentJson : String
  deriving DecidableEq

structure ResolveReviewInput where
  documentID : String
  decision : String
  deriving DecidableEq

structure ApplyReviewerCorrectionInput where
  documentID : String
  docType : String
  corrections : String
  deriving DecidableEq

structure ApplyReviewerCorrectionOutput where
  correctedJson : String
  confidence : JNum
  failedRules : List String
  deriving DecidableEq

structure PersistResultInput where
  documentID : String
  finalJson : String
  confidence : JNum
  deriving DecidableEq

structure RejectDocumentInput where
  documentID : String
  reason : String
  deriving DecidableEq

/-- `StoreDocumentActivity`: short-circuit when the record already has an
object key and raw text; otherwise put the blob under
`documentID/filename`, upsert the document as `STORED` with
`doc_type = unknown`, and append audit `STORED`. -/
def StoreDocumentActivity (w : World) (input : StoreDocumentInput) :
    Except GoError StoreDocumentOutput × World :=
  let proceed : Except GoError StoreDocumentOutput × World :=
    let objectKey := input.documentID ++ "/" ++ input.filename
    let w1 := { w with blobPuts := w.blobPuts ++
        [(input.documentID, input.filename, input.content)] }
    let w2 := { w1 with store := (w1.store.upsertDocument
        ⟨input.documentID, input.filename, objectKey, input.content,
         "unknown", .stored, "", "", JNum.zero, none⟩) }
    let w3 := { w2 with store := (w2.store.insertAudit input.documentID .stored
        (.obj [("object_key", .str objectKey)])) }
    (.ok ⟨objectKey, input.content⟩, w3)
  match w.store.getDocument input.documentID with
  | some existing =>
    if existing.objectKey ≠ "" ∧ existing.rawText ≠ "" then
      (.ok ⟨existing.objectKey, existing.rawText⟩, w)
    else proceed
  | none => proceed

/-- `DetectDocTypeActivity`: short-circuit when already classified
non-unknown; otherwise classify, update and audit `CLASSIFIED`. -/
def DetectDocTypeActivity (w : World) (input : DetectDocTypeInput) :
    Except GoError DetectDocTypeOutput × World :=
  let proceed : Except GoError DetectDocTypeOutput × World :=
    let docType := detectDocType input.documentText input.filename
    let w1 := { w with store :=
        (w.store.updateDocumentClassification input.documentID docType) }
    let w2 := { w1 with store := (w1.store.insertAudit input.documentID .classified
        (.obj [("doc_type", .str docType)])) }
    (.ok ⟨docType⟩, w2)
  match w.store.getDocument input.documentID with
  | some existing =>
    if existing.docType ≠ "" ∧ existing.docType ≠ "unknown" then
      (.ok ⟨existing.docType⟩, w)
    else proceed
  | none => proceed

/-- The base1 / repair1 / base2 extraction ladder — the body of
`ExtractFieldsWithOpenAIActivity` after its short-circuit check.  Each raw
model output is saved under its phase tag before normalization is
attempted. -/
def extractLadder (w : World) (input : ExtractFieldsInput) :
    Except GoError ExtractFieldsOutput × World :=
    match callOpenAIWithRetry w (.base input.docType input.documentText) with
    | (.error e, w1) => (.error e, w1)
    | (.ok base1, w1) =>
      let w2 := { w1 with store :=
          (w1.store.saveModelOutput input.documentID "BASE_ATTEMPT_1" base1) }
      match parseAndNormalizeStr input.docType base1 with
      | .ok (parsed, conf) =>
        let w3 := { w2 with store :=
            (w2.store.saveCurrentExtraction input.documentID parsed conf) }
        let w4 := { w3 with store := (w3.store.insertAudit input.documentID .extracted
            (.obj [("path", .str "base_1")])) }
        (.ok ⟨parsed, conf⟩, w4)
      | .error _ =>
        match callOpenAIWithRetry w2 (.repair base1) with
        | (.error e, w3) => (.error e, w3)
        | (.ok repair1, w3) =>
          let w4 := { w3 with store :=
              (w3.store.saveModelOutput input.documentID "REPAIR_ATTEMPT_1" repair1) }
          match parseAndNormalizeStr input.docType repair1 with
          | .ok (parsed, conf) =>
            let w5 := { w4 with store :=
                (w4.store.saveCurrentExtraction input.documentID parsed conf) }
            let w6 := { w5 with store := (w5.store.insertAudit input.documentID
                .extracted (.obj [("path", .str "repair_1")])) }
            (.ok ⟨parsed, conf⟩, w6)
          | .error _ =>
            match callOpenAIWithRetry w4 (.base input.docType input.documentText) with
            | (.error e, w5) => (.error e, w5)
            | (.ok base2, w5) =>
              let w6 := { w5 with store :=
                  (w5.store.saveModelOutput input.documentID "BASE_ATTEMPT_2" base2) }
              match parseAndNormalizeStr input.docType base2 with
              | .error parseErr => (.error (.ladderExhausted parseErr), w6)
              | .ok (parsed, conf) =>
                let w7 := { w6 with store :=
                    (w6.store.saveCurrentExtraction input.documentID parsed conf) }
                let w8 := { w7 with store := (w7.store.insertAudit input.documentID
                    .extracted (.obj [("path", .str "base_2")])) }
                (.ok ⟨parsed, conf⟩, w8)

/-- `ExtractFieldsWithOpenAIActivity`: return an existing non-empty
current extraction; otherwise run the extraction ladder. -/
def ExtractFieldsWithOpenAIActivity (w : World) (input : ExtractFieldsInput) :
    Except GoError ExtractFieldsOutput × World :=
  match w.store.getCurrentExtraction input.documentID with
  | some (existing, confidence) =>
    if existing ≠ "" then (.ok ⟨existing, confidence⟩, w) else extractLadder w input
  | none => extractLadder w input

/-- `ValidateFieldsActivity`: pure rule validation, no I/O. -/
def ValidateFieldsActivity (w : World) (input : ValidateFieldsInput) :
    Except GoError ValidateFieldsOutput × World :=
  match validateByRulesStr input.docType input.extractionJson with
  | .error e => (.error (.norm e), w)
  | .ok result => (.ok ⟨result.failedRules, result.confidence⟩, w)

/-- `CorrectFieldsWithOpenAIActivity`: one CORRECT-prompt LLM call, raw
output saved under `CORRECT_ATTEMPT_1`, then normalize and update the
current extraction. -/
def CorrectFieldsWithOpenAIActivity (w : World) (input : CorrectFieldsInput) :
    Except GoError CorrectFieldsOutput × World :=
  match callOpenAIWithRetry w
      (.correct input.docType input.documentText input.currentJson input.failedRules) with
  | (.error e, w1) => (.error e, w1)
  | (.ok modelOutput, w1) =>
    let w2 := { w1 with store :=
        (w1.store.saveModelOutput input.documentID "CORRECT_ATTEMPT_1" modelOutput) }
    match parseAndNormalizeStr input.docType modelOutput with
    | .error e => (.error (.norm e), w2)
    | .ok (normalized, confidence) =>
      let w3 := { w2 with store :=
          (w2.store.saveCurrentExtraction input.documentID normalized confidence) }
      (.ok ⟨normalized, confidence⟩, w3)

/-- `QueueReviewActivity`: transactional review upsert, then audit
`NEEDS_REVIEW`. -/
def QueueReviewActivity (w : World) (input : QueueReviewInput) :
    Except GoError Unit × World :=
  let w1 := { w with store :=
      (w.store.queueReview input.documentID input.failedRules input.currentJson) }
  let w2 := { w1 with store := (w1.store.insertAudit input.documentID .needsReview
      (.obj [("failed_rules", .arr (input.failedRules.map Json.str))])) }
  (.ok (), w2)

/-- `ResolveReviewActivity`. -/
def ResolveReviewActivity (w : World) (input : ResolveReviewInput) :
    Except GoError Unit × World :=
  (.ok (), { w with store := w.store.resolveReview input.documentID input.decision })

/-- `ApplyReviewerCorrectionActivity`: a normalization failure is reported
as the synthetic failed rule `reviewer.corrections_invalid_json` without
an error and without touching the store; otherwise the current extraction
is updated and the corrections re-validated. -/
def ApplyReviewerCorrectionActivity (w : World) (input : ApplyReviewerCorrectionInput) :
    Except GoError ApplyReviewerCorrectionOutput × World :=
  match parseAndNormalizeStr input.docType input.corrections with
  | .error _ => (.ok ⟨"", JNum.zero, ["reviewer.corrections_invalid_json"]⟩, w)
  | .ok (normalized, confidence) =>
    let w1 := { w with store :=
        (w.store.saveCurrentExtraction input.documentID normalized confidence) }
    match validateByRulesStr input.docType normalized with
    | .error e => (.error (.norm e), w1)
    | .ok validation => (.ok ⟨normalized, confidence, validation.failedRules⟩, w1)

/-- `PersistResultActivity`: save the final result as `COMPLETED`,
best-effort resolve-review `COMPLETED`, audit `COMPLETED`. -/
def PersistResultActivity (w : World) (input : PersistResultInput) :
    Except GoError Unit × World :=
  let w1 := { w with store := (w.store.saveFinalResult input.documentID
      input.finalJson input.confidence .completed none) }
  let w2 := { w1 with store := w1.store.resolveReview input.documentID "COMPLETED" }
  let w3 := { w2 with store := (w2.store.insertAudit input.documentID .completed
      (.obj [("confidence", .num input.confidence)])) }
  (.ok (), w3)

/-- `RejectDocumentActivity`: nil payload keeps `final_json`, confidence
drops to 0, the reason defaults to "rejected by reviewer". -/
def RejectDocumentActivity (w : World) (input : RejectDocumentInput) :
    Except GoError Unit × World :=
  let reason := if input.reason = "" then "rejected by reviewer" else input.reason
  let w1 := { w with store := (w.store.saveFinalResult input.documentID ""
      JNum.zero .rejected (some reason)) }
  let w2 := { w1 with store := w1.store.resolveReview input.documentID "REJECTED" }
  let w3 := { w2 with store := (w2.store.insertAudit input.documentID .rejected
      (.obj [("reason", .str reason)])) }
  (.ok (), w3)

/-! ### The workflow (`internal/temporal/workflows.go`)

The workflow is a function of the input and the (finite) list of review
decisions delivered on the `reviewDecision` signal channel; a run that is
still blocked in `signalChan.Receive` when the list is exhausted is
`suspended`. -/

structure WorkflowInput where
  documentID : String
  filename : String
  content : String
  deriving DecidableEq

/-- `ReviewDecisionSignal` (`signals.go`): the decision is the raw string
of `domain.ReviewDecisionType`. -/
structure ReviewDecisionSignal where
  decision : String
  corrections : String
  reviewer : String
  reason : String
  deriving DecidableEq

/-- The observable outcome of a workflow run. -/
inductive Outcome where
  | completed
  | rejected
  | failed (e : GoError)
  | suspended
  deriving DecidableEq

/-- The `persist:` tail of the workflow (lines 157–166). -/
def persistTail (w : World) (documentID : String) (extracted : ExtractFieldsOutput) :
    Outcome × World :=
  match PersistResultActivity w ⟨documentID, extracted.extractionJson,
      extracted.confidence⟩ with
  | (.error e, w1) => (.failed e, w1)
  | (.ok _, w1) => (.completed, w1)

/-- The review loop (lines 100–154): one iteration per received signal. -/
def reviewLoop (documentID docType : String) :
    World → ExtractFieldsOutput → ValidateFieldsOutput →
    List ReviewDecisionSignal → Outcome × World
  | w, _, _, [] => (.suspended, w)
  | w, extracted, validation, d :: ds =>
    if d.decision = "approve" then
      match ResolveReviewActivity w ⟨documentID, "APPROVED"⟩ with
      | (_, w1) => persistTail w1 documentID extracted
    else if d.decision = "reject" then
      match RejectDocumentActivity w ⟨documentID, d.reason⟩ with
      | (.error e, w1) => (.failed e, w1)
      | (.ok _, w1) => (.rejected, w1)
    else if d.decision = "correct" then
      match ApplyReviewerCorrectionActivity w ⟨documentID, docType, d.corrections⟩ with
      | (.error e, w1) => (.failed e, w1)
      | (.ok correctedByReviewer, w1) =>
        let extracted1 := if correctedByReviewer.correctedJson.length > 0 then
            (⟨correctedByReviewer.correctedJson, correctedByReviewer.confidence⟩ :
              ExtractFieldsOutput)
          else extracted
        let vconf := if correctedByReviewer.correctedJson.length > 0 then
            correctedByReviewer.confidence
          else validation.confidence
        let validation1 : ValidateFieldsOutput := ⟨correctedByReviewer.failedRules, vconf⟩
        if validation1.failedRules.isEmpty &&
            JNum.threshold075.ble validation1.confidence then
          match ResolveReviewActivity w1 ⟨documentID, "CORRECTED"⟩ with
          | (_, w2) => persistTail w2 documentID extracted1
        else
          match QueueReviewActivity w1 ⟨documentID, validation1.failedRules,
              extracted1.extractionJson⟩ with
          | (.error e, w2) => (.failed e, w2)
          | (.ok _, w2) => reviewLoop documentID docType w2 extracted1 validation1 ds
    else
      reviewLoop documentID docType w extracted validation ds

/-- The one correction pass (lines 69–88): run only when validation
failed or the confidence is below 0.75; a failing CorrectFields keeps the
prior extraction and validation, a successful one replaces them after
re-validation (whose failure fails the workflow). -/
def correctStep (w : World) (documentID docType documentText : String)
    (extracted : ExtractFieldsOutput) (validation : ValidateFieldsOutput) :
    Except GoError (ExtractFieldsOutput × ValidateFieldsOutput) × World :=
  if !validation.failedRules.isEmpty ||
      validation.confidence.blt JNum.threshold075 then
    match CorrectFieldsWithOpenAIActivity w ⟨documentID, docType, documentText,
        extracted.extractionJson, validation.failedRules⟩ with
    | (.error _, w1) => (.ok (extracted, validation), w1)
    | (.ok corrected, w1) =>
      match ValidateFieldsActivity w1 ⟨docType, corrected.correctedJson⟩ with
      | (.error e, w2) => (.error e, w2)
      | (.ok validation2, w2) =>
        (.ok (⟨corrected.correctedJson, corrected.confidence⟩, validation2), w2)
  else (.ok (extracted, validation), w)

/-- `DocumentIntakeWorkflow`. -/
def DocumentIntakeWorkflow (w : World) (input : WorkflowInput)
    (signals : List ReviewDecisionSignal) : Outcome × World :=
  match StoreDocumentActivity w ⟨input.documentID, input.filename, input.content⟩ with
  | (.error e, w1) => (.failed e, w1)
  | (.ok stored, w1) =>
    match DetectDocTypeActivity w1
        ⟨input.documentID, input.filename, stored.documentText⟩ with
    | (.error e, w2) => (.failed e, w2)
    | (.ok detected, w2) =>
      match ExtractFieldsWithOpenAIActivity w2
          ⟨input.documentID, detected.docType, stored.documentText⟩ with
      | (.error e, w3) => (.failed e, w3)
      | (.ok extracted0, w3) =>
        match ValidateFieldsActivity w3
            ⟨detected.docType, extracted0.extractionJson⟩ with
        | (.error e, w4) => (.failed e, w4)
        | (.ok validation0, w4) =>
          match correctStep w4 input.documentID detected.docType
              stored.documentText extracted0 validation0 with
          | (.error e, w5) => (.failed e, w5)
          | (.ok (extracted1, validation1), w5) =>
            if !validation1.failedRules.isEmpty ||
                validation1.confidence.blt JNum.threshold075 then
              match QueueReviewActivity w5 ⟨input.documentID,
                  validation1.failedRules, extracted1.extractionJson⟩ with
              | (.error e, w6) => (.failed e, w6)
              | (.ok _, w6) =>
                reviewLoop input.documentID detected.docType w6
                  extracted1 validation1 signals
            else persistTail w5 input.documentID extracted1

/-- The empty database. -/
def emptyStore : StoreState := ⟨[], [], [], []⟩

/-- A fresh world: empty stores, a given LLM oracle and retry budget. -/
def initialWorld (llm : List (Option String)) (maxRetry : ℤ) : World :=
  ⟨emptyStore, [], llm, [], maxRetry⟩

/-! ### Workflow-level invariants for the no-approve analysis -/

/-- The document row exists and carries the given doc type. -/
def DocRow (w : World) (id dt : String) : Prop :=
  ∃ rec, lookupRow w.store.docs id = some rec ∧ rec.docType = dt

/-- The loop invariant tying the in-flight validation output to the
in-flight extraction: the extraction payload is non-empty, and an empty
failed-rule list can only be reported when re-validating the payload
itself yields no failed rules. -/
def ReviewInv (dt : String) (ex : ExtractFieldsOutput) (v : ValidateFieldsOutput) : Prop :=
  ex.extractionJson ≠ "" ∧
  (v.failedRules = [] →
    ∃ r, validateByRulesStr dt ex.extractionJson = .ok r ∧ r.failedRules = [])

/-- The record inserted by a fresh `StoreDocumentActivity`. -/
def storedRec (input : WorkflowInput) : DocumentRecord :=
  ⟨input.documentID, input.filename, input.documentID ++ "/" ++ input.filename,
   input.content, "unknown", .stored, "", "", JNum.zero, none⟩

/-- The record after `DetectDocTypeActivity` classifies it. -/
def classifiedRec (input : WorkflowInput) : DocumentRecord :=
  { storedRec input with
    docType := detectDocType input.content input.filename, status := .classified }

/-- The world after a fresh `StoreDocumentActivity`. -/
def worldAfterStore (llm : List (Option String)) (mr : ℤ) (input : WorkflowInput) :
    World :=
  ⟨⟨[(input.documentID, storedRec input)], [],
    [(input.documentID, .stored,
      .obj [("object_key", .str (input.documentID ++ "/" ++ input.filename))])], []⟩,
   [(input.documentID, input.filename, input.content)], llm, [], mr⟩

/-- The world after a fresh `DetectDocTypeActivity`. -/
def worldAfterDetect (llm : List (Option String)) (mr : ℤ) (input : WorkflowInput) :
    World :=
  { worldAfterStore llm mr input with store :=
      ⟨[(input.documentID, classifiedRec input)], [],
       [(input.documentID, .stored,
         .obj [("object_key", .str (input.documentID ++ "/" ++ input.filename))]),
        (input.documentID, .classified,
         .obj [("doc_type", .str (detectDocType input.content input.filename))])], []⟩ }

/-! ### A concrete approved-but-invalid run and a concrete clean run -/

/-- An invoice whose serialization normalizes but fails validation: the
invoice date `"x"` is not parseable. -/
def cxInv : InvoiceExtraction :=
  ⟨some "S", some "I", some "x", none, JNum.one, none, JNum.one⟩

def cxJ : String := marshalInvoice cxInv

/-- The world after storing and classifying document `d1`. -/
def cxW2 : World :=
  ⟨⟨[("d1", ⟨"d1", "f", "d1/f", "x", "invoice", .classified, "", "", JNum.zero, none⟩)],
    [],
    [("d1", .stored, .obj [("object_key", .str "d1/f")]),
     ("d1", .classified, .obj [("doc_type", .str "invoice")])],
    []⟩,
   [("d1", "f", "x")], [some cxJ], [], 1⟩

/-- The world after the base-1 extraction of `cxJ`. -/
def cxW3 : World :=
  ⟨⟨[("d1", ⟨"d1", "f", "d1/f", "x", "invoice", .extracted, cxJ, "", JNum.one, none⟩)],
    [("d1", "BASE_ATTEMPT_1", cxJ)],
    [("d1", .stored, .obj [("object_key", .str "d1/f")]),
     ("d1", .classified, .obj [("doc_type", .str "invoice")]),
     ("d1", .extracted, .obj [("path", .str "base_1")])],
    []⟩,
   [("d1", "f", "x")], [], [.base "invoice" "x"], 1⟩

/-- The world after the failed correction call. -/
def cxW4 : World :=
  { cxW3 with llmRequests := [.base "invoice" "x",
      .correct "invoice" "x" cxJ ["invoice.invoice_date_parseable"]] }

/-- The world after queuing the review. -/
def cxW5 : World :=
  ⟨⟨[("d1", ⟨"d1", "f", "d1/f", "x", "invoice", .needsReview, cxJ, "",
      JNum.one, none⟩)],
    [("d1", "BASE_ATTEMPT_1", cxJ)],
    [("d1", .stored, .obj [("object_key", .str "d1/f")]),
     ("d1", .classified, .obj [("doc_type", .str "invoice")]),
     ("d1", .extracted, .obj [("path", .str "base_1")]),
     ("d1", .needsReview, .obj [("failed_rules",
        .arr [.str "invoice.invoice_date_parseable"])])],
    [("d1", ⟨["invoice.invoice_date_parseable"], cxJ, "PENDING"⟩)]⟩,
   [("d1", "f", "x")], [],
   [.base "invoice" "x",
    .correct "invoice" "x" cxJ ["invoice.invoice_date_parseable"]], 1⟩

/-- The final world of the approved run. -/
def cxW7 : World :=
  ⟨⟨[("d1", ⟨"d1", "f", "d1/f", "x", "invoice", .completed, cxJ, cxJ,
      JNum.one, none⟩)],
    [("d1", "BASE_ATTEMPT_1", cxJ)],
    [("d1", .stored, .obj [("object_key", .str "d1/f")]),
     ("d1", .classified, .obj [("doc_type", .str "invoice")]),
     ("d1", .extracted, .obj [("path", .str "base_1")]),
     ("d1", .needsReview, .obj [("failed_rules",
        .arr [.str "invoice.invoice_date_parseable"])]),
     ("d1", .completed, .obj [("confidence", .num JNum.one)])],
    [("d1", ⟨["invoice.invoice_date_parseable"], cxJ, "COMPLETED"⟩)]⟩,
   [("d1", "f", "x")], [],
   [.base "invoice" "x",
    .correct "invoice" "x" cxJ ["invoice.invoice_date_parseable"]], 1⟩

/-- A fully valid invoice for the clean run. -/
def okInv : InvoiceExtraction :=
  ⟨some "S", some "I", some "2024-01-02", none, JNum.one, none, JNum.one⟩

def okJ : String := marshalInvoice okInv

/-- The world after cleanly extracting document `d2`. -/
def okW3 : World :=
  ⟨⟨[("d2", ⟨"d2", "f", "d2/f", "x", "invoice", .extracted, okJ, "",
      JNum.one, none⟩)],
    [("d2", "BASE_ATTEMPT_1", okJ)],
    [("d2", .stored, .obj [("object_key", .str "d2/f")]),
     ("d2", .classified, .obj [("doc_type", .str "invoice")]),
     ("d2", .extracted, .obj [("path", .str "base_1")])],
    []⟩,
   [("d2", "f", "x")], [], [.base "invoice" "x"], 1⟩

/-- The final world of the clean run. -/
def okW5 : World :=
  ⟨⟨[("d2", ⟨"d2", "f", "d2/f", "x", "invoice", .completed, okJ, okJ,
      JNum.one, none⟩)],
    [("d2", "BASE_ATTEMPT_1", okJ)],
    [("d2", .stored, .obj [("object_key", .str "d2/f")]),
     ("d2", .classified, .obj [("doc_type", .str "invoice")]),
     ("d2", .extracted, .obj [("path", .str "base_1")]),
     ("d2", .completed, .obj [("confidence", .num JNum.one)])],
    []⟩,
   [("d2", "f", "x")], [], [.base "invoice" "x"], 1⟩

def okW2 : World :=
  ⟨⟨[("d2", ⟨"d2", "f", "d2/f", "x", "invoice", .classified, "", "", JNum.zero, none⟩)],
    [],
    [("d2", .stored, .obj [("object_key", .str "d2/f")]),
     ("d2", .classified, .obj [("doc_type", .str "invoice")])],
    []⟩,
   [("d2", "f", "x")], [some okJ], [], 1⟩

theorem jnumKey_lt_iff (a b : JNum) :
    ((jnumKey a b).1 < (jnumKey a b).2) ↔ a.toRat < b.toRat := by
  obtain ⟨ma, sa, ea⟩ := a
  obtain ⟨mb, sb, eb⟩ := b
  simp only [jnumKey, JNum.toRat]
  set k : ℤ := max (-ea) (max (-eb) 0) with hk
  have hka : 0 ≤ ea + k := by omega
  have hkb : 0 ≤ eb + k := by omega
  have hpow : ∀ (e : ℤ) (s : ℕ), 0 ≤ e + k →
      ((10 : ℚ) ^ ((e + k).toNat + s)) = (10 : ℚ) ^ e * 10 ^ (s : ℕ) * 10 ^ k := by
    intro e s he
    rw [pow_add, show ((10 : ℚ) ^ (e + k).toNat) = (10 : ℚ) ^ ((e + k).toNat : ℤ) from
      (zpow_natCast _ _).symm, Int.toNat_of_nonneg he,
      zpow_add₀ (by norm_num : (10 : ℚ) ≠ 0)]
    ring
  have hcast : (ma * 10 ^ ((ea + k).toNat + sb) < mb * 10 ^ ((eb + k).toNat + sa)) ↔
      ((ma * 10 ^ ((ea + k).toNat + sb) : ℤ) : ℚ) <
        ((mb * 10 ^ ((eb + k).toNat + sa) : ℤ) : ℚ) := Int.cast_lt.symm
  rw [hcast]
  push_cast
  rw [hpow ea sb hka, hpow eb sa hkb]
  rw [show (ma : ℚ) * ((10 : ℚ) ^ ea * 10 ^ sb * 10 ^ k) =
      ((ma : ℚ) / 10 ^ sa * 10 ^ ea) * (10 ^ sa * 10 ^ sb * 10 ^ k) from by
    field_simp
    ring]
  rw [show (mb : ℚ) * ((10 : ℚ) ^ eb * 10 ^ sa * 10 ^ k) =
      ((mb : ℚ) / 10 ^ sb * 10 ^ eb) * (10 ^ sa * 10 ^ sb * 10 ^ k) from by
    field_simp
    ring]
  exact mul_lt_mul_right (by positivity)

theorem jnumKey_le_iff (a b : JNum) :
    ((jnumKey a b).1 ≤ (jnumKey a b).2) ↔ a.toRat ≤ b.toRat := by
  obtain ⟨ma, sa, ea⟩ := a
  obtain ⟨mb, sb, eb⟩ := b
  simp only [jnumKey, JNum.toRat]
  set k : ℤ := max (-ea) (max (-eb) 0) with hk
  have hka : 0 ≤ ea + k := by omega
  have hkb : 0 ≤ eb + k := by omega
  have hpow : ∀ (e : ℤ) (s : ℕ), 0 ≤ e + k →
      ((10 : ℚ) ^ ((e + k).toNat + s)) = (10 : ℚ) ^ e * 10 ^ (s : ℕ) * 10 ^ k := by
    intro e s he
    rw [pow_add, show ((10 : ℚ) ^ (e + k).toNat) = (10 : ℚ) ^ ((e + k).toNat : ℤ) from
      (zpow_natCast _ _).symm, Int.toNat_of_nonneg he,
      zpow_add₀ (by norm_num : (10 : ℚ) ≠ 0)]
    ring
  have hcast : (ma * 10 ^ ((ea + k).toNat + sb) ≤ mb * 10 ^ ((eb + k).toNat + sa)) ↔
      ((ma * 10 ^ ((ea + k).toNat + sb) : ℤ) : ℚ) ≤
        ((mb * 10 ^ ((eb + k).toNat + sa) : ℤ) : ℚ) := Int.cast_le.symm
  rw [hcast]
  push_cast
  rw [hpow ea sb hka, hpow eb sa hkb]
  rw [show (ma : ℚ) * ((10 : ℚ) ^ ea * 10 ^ sb * 10 ^ k) =
      ((ma : ℚ) / 10 ^ sa * 10 ^ ea) * (10 ^ sa * 10 ^ sb * 10 ^ k) from by
    field_simp
    ring]
  rw [show (mb : ℚ) * ((10 : ℚ) ^ eb * 10 ^ sa * 10 ^ k) =
      ((mb : ℚ) / 10 ^ sb * 10 ^ eb) * (10 ^ sa * 10 ^ sb * 10 ^ k) from by
    field_simp
    ring]
  exact mul_le_mul_right (by positivity)

theorem JNum.blt_iff (a b : JNum) : a.blt b = true ↔ a.toRat < b.toRat := by
  rw [JNum.blt, decide_eq_true_iff]
  exact jnumKey_lt_iff a b

theorem JNum.ble_iff (a b : JNum) : a.ble b = true ↔ a.toRat ≤ b.toRat := by
  rw [JNum.ble, decide_eq_true_iff]
  exact jnumKey_le_iff a b

theorem digitChar_isDigit {d : ℕ} (hd : d < 10) : (digitChar d).isDigit = true := by
  interval_cases d <;> decide

theorem digitVal_digitChar {d : ℕ} (hd : d < 10) : digitVal (digitChar d) = d := by
  interval_cases d <;> decide

theorem digitChar_ne_zero {d : ℕ} (hd0 : 0 < d) (hd : d < 10) : digitChar d ≠ '0' := by
  interval_cases d <;> decide

theorem isDigit_ne_dash {c : Char} (h : c.isDigit = true) : c ≠ '-' := by
  intro he; subst he; simp at h

theorem natDigitsAux_congr : ∀ (f1 f2 n : ℕ), 0 < f1 → 0 < f2 → n < 10 ^ f1 → n < 10 ^ f2 →
    natDigitsAux f1 n = natDigitsAux f2 n := by
  intro f1
  induction f1 with
  | zero => intro f2 n h; omega
  | succ g1 ih =>
    intro f2 n _ hf2 hn1 hn2
    obtain ⟨g2, rfl⟩ : ∃ g2, f2 = g2 + 1 := ⟨f2 - 1, by omega⟩
    by_cases h10 : n < 10
    · simp [natDigitsAux, h10]
    · simp only [natDigitsAux, h10, if_false]
      congr 1
      have hg1 : 0 < g1 := by
        by_contra hc
        have : g1 = 0 := by omega
        subst this
        simp at hn1
        omega
      have hg2 : 0 < g2 := by
        by_contra hc
        have : g2 = 0 := by omega
        subst this
        simp at hn2
        omega
      apply ih g2 (n / 10) hg1 hg2
      · rw [Nat.div_lt_iff_lt_mul (by omega)]
        calc n < 10 ^ (g1 + 1) := hn1
          _ = 10 ^ g1 * 10 := pow_succ 10 g1
      · rw [Nat.div_lt_iff_lt_mul (by omega)]
        calc n < 10 ^ (g2 + 1) := hn2
          _ = 10 ^ g2 * 10 := pow_succ 10 g2

theorem n_lt_pow10 (n : ℕ) : n < 10 ^ (n + 1) :=
  lt_of_lt_of_le (Nat.lt_pow_self (by omega) n) (Nat.pow_le_pow_right (by omega) (by omega))

/-- The recursive unfolding of `natDigits`. -/
theorem natDigits_unfold (n : ℕ) :
    natDigits n = if n < 10 then [digitChar n]
      else natDigits (n / 10) ++ [digitChar (n % 10)] := by
  show natDigitsAux (n + 1) n = _
  by_cases h10 : n < 10
  · simp [natDigitsAux, h10]
  · simp only [natDigitsAux, h10, if_false]
    congr 1
    show natDigitsAux n (n / 10) = natDigitsAux (n / 10 + 1) (n / 10)
    apply natDigitsAux_congr
    · omega
    · omega
    · exact lt_of_le_of_lt (Nat.div_le_self _ _) (lt_of_lt_of_le
        (Nat.lt_pow_self (by omega) n) (le_refl _))
    · exact n_lt_pow10 (n / 10)

theorem natDigits_digits (n : ℕ) : ∀ c ∈ natDigits n, c.isDigit = true := by
  induction n using Nat.strong_induction_on with
  | _ n ih =>
    rw [natDigits_unfold]
    split
    · intro c hc
      simp only [List.mem_singleton] at hc
      subst hc
      exact digitChar_isDigit (by omega)
    · intro c hc
      rcases List.mem_append.mp hc with h | h
      · exact ih (n / 10) (Nat.div_lt_self (by omega) (by omega)) c h
      · simp only [List.mem_singleton] at h
        subst h
        exact digitChar_isDigit (Nat.mod_lt _ (by omega))

theorem natDigits_head_pos {n : ℕ} (hn : 0 < n) :
    ∃ c cs, natDigits n = c :: cs ∧ c.isDigit = true ∧ c ≠ '0' := by
  induction n using Nat.strong_induction_on with
  | _ n ih =>
    rw [natDigits_unfold]
    split
    · exact ⟨digitChar n, [], rfl, digitChar_isDigit (by omega), digitChar_ne_zero hn (by omega)⟩
    · obtain ⟨c, cs, heq, hdig, hne⟩ :=
        ih (n / 10) (Nat.div_lt_self (by omega) (by omega)) (by omega)
      exact ⟨c, cs ++ [digitChar (n % 10)], by rw [heq]; rfl, hdig, hne⟩

theorem natDigits_zero : natDigits 0 = ['0'] := by rfl

theorem foldl_digits_shift (a : ℕ) (ds : List Char) :
    ds.foldl (fun x c => 10 * x + digitVal c) a =
      a * 10 ^ ds.length + ds.foldl (fun x c => 10 * x + digitVal c) 0 := by
  induction ds generalizing a with
  | nil => simp
  | cons c cs ih =>
    simp only [List.foldl_cons, List.length_cons]
    rw [ih (10 * a + digitVal c), ih (10 * 0 + digitVal c)]
    ring

theorem digitsToNat_append (xs ys : List Char) :
    digitsToNat (xs ++ ys) = digitsToNat xs * 10 ^ ys.length + digitsToNat ys := by
  simp only [digitsToNat, List.foldl_append]
  exact foldl_digits_shift _ ys

theorem digitsToNat_singleton (c : Char) : digitsToNat [c] = digitVal c := by
  simp [digitsToNat]

theorem digitsToNat_natDigits (n : ℕ) : digitsToNat (natDigits n) = n := by
  induction n using Nat.strong_induction_on with
  | _ n ih =>
    rw [natDigits_unfold]
    split
    · rw [digitsToNat_singleton, digitVal_digitChar (by omega)]
    · rw [digitsToNat_append, ih (n / 10) (Nat.div_lt_self (by omega) (by omega)),
        digitsToNat_singleton, digitVal_digitChar (Nat.mod_lt _ (by omega))]
      simp only [List.length_singleton, pow_one]
      omega

theorem padDigits_length (k r : ℕ) : (padDigits k r).length = k := by
  induction k generalizing r with
  | zero => rfl
  | succ k ih => simp [padDigits, ih]

theorem padDigits_digits (k r : ℕ) : ∀ c ∈ padDigits k r, c.isDigit = true := by
  induction k generalizing r with
  | zero => intro c hc; simp [padDigits] at hc
  | succ k ih =>
    intro c hc
    rcases List.mem_append.mp hc with h | h
    · exact ih (r / 10) c h
    · simp only [List.mem_singleton] at h
      subst h
      exact digitChar_isDigit (Nat.mod_lt _ (by omega))

theorem digitsToNat_padDigits (k r : ℕ) : digitsToNat (padDigits k r) = r % 10 ^ k := by
  induction k generalizing r with
  | zero => simp [padDigits, digitsToNat, Nat.mod_one]
  | succ k ih =>
    rw [padDigits, digitsToNat_append, ih, digitsToNat_singleton,
      digitVal_digitChar (Nat.mod_lt _ (by omega))]
    simp only [List.length_singleton, pow_one]
    have h1 : 10 * (r / 10) + r % 10 = r := Nat.div_add_mod r 10
    have h2 : 10 ^ k * (r / 10 / 10 ^ k) + r / 10 % 10 ^ k = r / 10 :=
      Nat.div_add_mod _ _
    have hlt : r / 10 % 10 ^ k * 10 + r % 10 < 10 ^ (k + 1) := by
      have ha := Nat.mod_lt (r / 10) (show 0 < 10 ^ k from pow_pos (by omega) k)
      have hb := Nat.mod_lt r (show 0 < 10 by omega)
      rw [pow_succ]
      omega
    symm
    calc r % 10 ^ (k + 1)
        = (10 * (10 ^ k * (r / 10 / 10 ^ k) + r / 10 % 10 ^ k) + r % 10) % 10 ^ (k + 1) := by
          rw [h2, h1]
      _ = (r / 10 % 10 ^ k * 10 + r % 10 + 10 ^ (k + 1) * (r / 10 / 10 ^ k)) % 10 ^ (k + 1) := by
          ring_nf
      _ = (r / 10 % 10 ^ k * 10 + r % 10) % 10 ^ (k + 1) := by
          rw [Nat.add_mul_mod_self_left]
      _ = r / 10 % 10 ^ k * 10 + r % 10 := Nat.mod_eq_of_lt hlt

theorem takeDigits_append {ds rest : List Char} (hds : ∀ c ∈ ds, c.isDigit = true)
    (hrest : HeadNotDigit rest) : takeDigits (ds ++ rest) = (ds, rest) := by
  induction ds with
  | nil =>
    cases rest with
    | nil => rfl
    | cons c cs =>
      simp only [HeadNotDigit] at hrest
      simp [takeDigits, hrest]
  | cons c cs ih =>
    have hc : c.isDigit = true := hds c (List.mem_cons_self _ _)
    simp only [List.cons_append, takeDigits, hc, if_true]
    rw [List.append_eq, ih (fun x hx => hds x (List.mem_cons_of_mem _ hx))]

theorem headNotDigit_cons {c : Char} (h : c.isDigit = false) (cs : List Char) :
    HeadNotDigit (c :: cs) := h

theorem parseIntPart_natDigits (k : ℕ) (rest : List Char) (hrest : HeadNotDigit rest) :
    parseIntPart (natDigits k ++ rest) = some (natDigits k, rest) := by
  rcases Nat.eq_zero_or_pos k with hk | hk
  · subst hk
    rw [natDigits_zero]
    simp [parseIntPart]
  · obtain ⟨c, cs, heq, hdig, hne⟩ := natDigits_head_pos hk
    have hall := natDigits_digits k
    rw [heq] at hall ⊢
    simp only [List.cons_append, parseIntPart, hne, if_false, hdig, if_true]
    rw [takeDigits_append (fun x hx => hall x (List.mem_cons_of_mem _ hx)) hrest]

theorem parseFracPart_no_dot {rest : List Char} (h : HeadNotDot rest) :
    parseFracPart rest = some ([], rest) := by
  cases rest with
  | nil => rfl
  | cons c cs =>
    have hc : c ≠ '.' := h
    simp [parseFracPart, hc]

theorem parseFracPart_pad {s fp : ℕ} (hs : 0 < s) (rest : List Char)
    (hrest : HeadNotDigit rest) :
    parseFracPart ('.' :: (padDigits s fp ++ rest)) = some (padDigits s fp, rest) := by
  simp only [parseFracPart, if_pos rfl]
  rw [takeDigits_append (padDigits_digits s fp) hrest]
  have hne : padDigits s fp ≠ [] := by
    intro h
    have := padDigits_length s fp
    rw [h] at this
    simp at this
    omega
  simp [hne]

theorem parseExpPart_noE {rest : List Char} (h : HeadNotE rest) :
    parseExpPart rest = some (0, rest) := by
  cases rest with
  | nil => rfl
  | cons c cs =>
    have : ¬(c = 'e' ∨ c = 'E') := by
      rintro (h1 | h1) <;> simp [h1, HeadNotE] at h
    simp [parseExpPart, this]

theorem parseExpSigned_natDigits (k : ℕ) (hk : 0 < k) (rest : List Char)
    (hrest : HeadNotDigit rest) :
    parseExpSigned (natDigits k ++ rest) = some ((k : ℤ), rest) := by
  obtain ⟨c, cs, heq, hdig, _⟩ := natDigits_head_pos hk
  have hall := natDigits_digits k
  have hmins : c ≠ '-' := isDigit_ne_dash hdig
  have hplus : c ≠ '+' := by intro h; rw [h] at hdig; simp at hdig
  rw [heq] at hall ⊢
  simp only [List.cons_append, parseExpSigned, hmins, if_false, hplus]
  have ht : takeDigits (c :: (cs ++ rest)) = (c :: cs, rest) := by
    have := takeDigits_append hall hrest
    simpa using this
  simp only [ht]
  have hv : digitsToNat (c :: cs) = k := by rw [← heq, digitsToNat_natDigits]
  simp [hv]

theorem parseExpTail (ex : ℤ) (rest : List Char) (hrest : NumBoundary rest) :
    parseExpPart ((if ex = 0 then [] else
      'e' :: (if ex < 0 then '-' :: natDigits ex.natAbs else natDigits ex.natAbs)) ++ rest) =
      some (ex, rest) := by
  have hnd : HeadNotDigit rest := by cases rest with
    | nil => trivial
    | cons c cs => exact hrest.1
  by_cases h0 : ex = 0
  · simp only [h0, if_true, List.nil_append]
    have : HeadNotE rest := by cases rest with
      | nil => trivial
      | cons c cs => exact ⟨hrest.2.2.1, hrest.2.2.2⟩
    rw [parseExpPart_noE this]
  · simp only [h0, if_false]
    by_cases hneg : ex < 0
    · simp only [hneg, if_true]
      show parseExpPart ('e' :: ('-' :: (natDigits ex.natAbs ++ rest))) = _
      have ht : takeDigits (natDigits ex.natAbs ++ rest) = (natDigits ex.natAbs, rest) :=
        takeDigits_append (natDigits_digits _) hnd
      have hne : natDigits ex.natAbs ≠ [] := by
        obtain ⟨c, cs, heq, _, _⟩ := natDigits_head_pos (show 0 < ex.natAbs by omega)
        rw [heq]; simp
      simp only [parseExpPart, parseExpSigned, ht, hne, digitsToNat_natDigits]
      simp [abs_of_neg hneg]
    · simp only [hneg, if_false]
      show parseExpPart ('e' :: (natDigits ex.natAbs ++ rest)) = _
      have hps := parseExpSigned_natDigits ex.natAbs (by omega) rest hnd
      have hv : (ex.natAbs : ℤ) = ex := by omega
      simp [parseExpPart, hps, hv]

theorem parseNumBody_print (neg : Bool) (a s : ℕ) (ex : ℤ) (rest : List Char)
    (hb : NumBoundary rest) :
    parseNumBody neg ((if s = 0 then natDigits a
        else natDigits (a / 10 ^ s) ++ '.' :: padDigits s (a % 10 ^ s)) ++
      ((if ex = 0 then [] else
        'e' :: (if ex < 0 then '-' :: natDigits ex.natAbs else natDigits ex.natAbs)) ++ rest)) =
      some (⟨if neg then -(a : ℤ) else (a : ℤ), s, ex⟩, rest) := by
  have hEnd : HeadNotDigit ((if ex = 0 then [] else
      'e' :: (if ex < 0 then '-' :: natDigits ex.natAbs else natDigits ex.natAbs)) ++ rest) := by
    by_cases h0 : ex = 0
    · simp only [h0, if_true, List.nil_append]
      cases rest with
      | nil => trivial
      | cons c cs => exact hb.1
    · simp only [h0, if_false]
      exact (by decide : ('e' : Char).isDigit = false)
  have hEfrac : parseFracPart ((if ex = 0 then [] else
      'e' :: (if ex < 0 then '-' :: natDigits ex.natAbs else natDigits ex.natAbs)) ++ rest) =
      some ([], (if ex = 0 then [] else
        'e' :: (if ex < 0 then '-' :: natDigits ex.natAbs else natDigits ex.natAbs)) ++ rest) := by
    apply parseFracPart_no_dot
    by_cases h0 : ex = 0
    · simp only [h0, if_true, List.nil_append]
      cases rest with
      | nil => trivial
      | cons c cs => exact hb.2.1
    · simp only [h0, if_false]
      exact (by decide : ('e' : Char) ≠ '.')
  have hEexp := parseExpTail ex rest hb
  by_cases hs : s = 0
  · rw [if_pos hs, hs]
    simp only [parseNumBody]
    rw [parseIntPart_natDigits a _ hEnd]
    simp only [Option.some_bind, hEfrac, hEexp, Option.map_some', List.append_nil,
      digitsToNat_natDigits, List.length_nil]
  · rw [if_neg hs]
    simp only [List.append_assoc, List.cons_append, parseNumBody]
    rw [parseIntPart_natDigits (a / 10 ^ s) _ (headNotDigit_cons (by decide) _)]
    simp only [Option.some_bind]
    rw [parseFracPart_pad (by omega) _ hEnd]
    simp only [Option.some_bind, hEexp, Option.map_some']
    rw [digitsToNat_append, digitsToNat_natDigits, digitsToNat_padDigits, padDigits_length]
    have hmod : a % 10 ^ s % 10 ^ s = a % 10 ^ s := Nat.mod_mod_of_dvd _ dvd_rfl
    rw [hmod]
    have hdiv : a / 10 ^ s * 10 ^ s + a % 10 ^ s = a := by
      rw [mul_comm]
      exact Nat.div_add_mod a (10 ^ s)
    rw [hdiv]

/-- Parsing inverts printing for JSON number literals, whenever the remainder
cannot extend the literal. -/
theorem parseNumber_printNum (n : JNum) (rest : List Char) (hb : NumBoundary rest) :
    parseNumber (printNum n ++ rest) = some (n, rest) := by
  obtain ⟨m, s, ex⟩ := n
  have hprint : printNum ⟨m, s, ex⟩ ++ rest =
      (if m < 0 then ['-'] else []) ++ ((if s = 0 then natDigits m.natAbs
        else natDigits (m.natAbs / 10 ^ s) ++ '.' :: padDigits s (m.natAbs % 10 ^ s)) ++
      ((if ex = 0 then [] else
        'e' :: (if ex < 0 then '-' :: natDigits ex.natAbs else natDigits ex.natAbs)) ++ rest)) := by
    simp only [printNum, List.append_assoc]
  rw [hprint]
  by_cases hneg : m < 0
  · simp only [hneg, if_true, List.cons_append, List.nil_append]
    simp only [parseNumber, if_pos rfl]
    rw [parseNumBody_print true m.natAbs s ex rest hb]
    simp [abs_of_neg hneg]
  · simp only [hneg, if_false, List.nil_append]
    have hm : (m.natAbs : ℤ) = m := by omega
    have hBhead : ∃ c cs, (if s = 0 then natDigits m.natAbs
        else natDigits (m.natAbs / 10 ^ s) ++ '.' :: padDigits s (m.natAbs % 10 ^ s)) =
          c :: cs ∧ c.isDigit = true := by
      by_cases hs : s = 0
      · simp only [hs, if_true]
        rcases Nat.eq_zero_or_pos m.natAbs with h | h
        · rw [h, natDigits_zero]; exact ⟨'0', [], rfl, by decide⟩
        · obtain ⟨c, cs, heq, hd, _⟩ := natDigits_head_pos h
          exact ⟨c, cs, heq, hd⟩
      · simp only [hs, if_false]
        rcases Nat.eq_zero_or_pos (m.natAbs / 10 ^ s) with h | h
        · rw [h, natDigits_zero]; exact ⟨'0', _, rfl, by decide⟩
        · obtain ⟨c, cs, heq, hd, _⟩ := natDigits_head_pos h
          exact ⟨c, _, by rw [heq]; rfl, hd⟩
    obtain ⟨c, cs, hBeq, hcd⟩ := hBhead
    have hcore := parseNumBody_print false m.natAbs s ex rest hb
    rw [hBeq] at hcore ⊢
    simp only [List.cons_append] at hcore ⊢
    simp only [parseNumber, isDigit_ne_dash hcd, if_false]
    rw [hcore]
    simp [hm]

theorem unescapeU_shorter : ∀ {l : List Char} {c : Char} {r : List Char},
    unescapeU l = some (c, r) → r.length + 4 ≤ l.length := by
  intro l c r h
  match l with
  | [] => simp [unescapeU] at h
  | [a] => simp [unescapeU] at h
  | [a, b] => simp [unescapeU] at h
  | [a, b, d] => simp [unescapeU] at h
  | a :: b :: d :: e :: rest3 =>
    simp only [unescapeU] at h
    repeat' split at h
    all_goals first
      | exact Option.noConfusion h
      | (simp only [Option.some.injEq, Prod.mk.injEq] at h
         obtain ⟨h1, h2⟩ := h
         subst h2
         simp only [List.length_cons]
         omega)

theorem hexVal_hexDigitChar {d : ℕ} (hd : d < 16) : hexVal (hexDigitChar d) = some d := by
  interval_cases d <;> decide

theorem hex4_printHex4 {n : ℕ} (hn : n < 65536) :
    hex4 (hexDigitChar (n / 4096 % 16)) (hexDigitChar (n / 256 % 16))
      (hexDigitChar (n / 16 % 16)) (hexDigitChar (n % 16)) = some n := by
  simp only [hex4, hexVal_hexDigitChar (show n / 4096 % 16 < 16 from Nat.mod_lt _ (by omega)),
    hexVal_hexDigitChar (show n / 256 % 16 < 16 from Nat.mod_lt _ (by omega)),
    hexVal_hexDigitChar (show n / 16 % 16 < 16 from Nat.mod_lt _ (by omega)),
    hexVal_hexDigitChar (show n % 16 < 16 from Nat.mod_lt _ (by omega))]
  congr 1
  omega

theorem char_not_surrogate (c : Char) :
    isHighSurrogate c.toNat = false ∧ isLowSurrogate c.toNat = false := by
  have h := c.valid
  rcases h with h | ⟨h1, _⟩ <;>
    constructor <;>
      (simp only [isHighSurrogate, isLowSurrogate, decide_eq_false_iff_not, not_and, not_le,
        Char.toNat] at * <;> omega)

/-- A `\uXXXX` escape printed from a character decodes back to it. -/
theorem unescapeU_printHex4 (c : Char) (h65536 : c.toNat < 65536) (tail : List Char) :
    unescapeU (printHex4 c.toNat ++ tail) = some (c, tail) := by
  have hns := char_not_surrogate c
  simp only [printHex4, List.cons_append, List.nil_append, unescapeU,
    hex4_printHex4 h65536, hns.1, hns.2, Bool.false_eq_true, if_false, Char.ofNat_toNat]

/-- Each character of a string costs at least one printed character. -/
theorem printStringBody_length_ge (s : List Char) :
    s.length ≤ (printStringBody s).length := by
  induction s with
  | nil => simp [printStringBody]
  | cons c cs ih =>
    have h1 : 1 ≤ (escapeChar c).length := by
      simp only [escapeChar]
      repeat' split
      all_goals simp [printHex4]
    simp only [printStringBody, List.length_append, List.length_cons]
    omega

/-- Parsing inverts printing for string literal bodies, for any sufficient
fuel. -/
theorem parseStringBody_print (s : List Char) : ∀ (rest : List Char) (fuel : ℕ),
    s.length + 1 ≤ fuel →
    parseStringBody fuel (printStringBody s ++ ('"' :: rest)) = some (s, rest) := by
  induction s with
  | nil =>
    intro rest fuel hfuel
    obtain ⟨f, rfl⟩ : ∃ f, fuel = f + 1 := ⟨fuel - 1, by omega⟩
    simp [printStringBody, parseStringBody]
  | cons c cs ih =>
    intro rest fuel hfuel
    obtain ⟨f, rfl⟩ : ∃ f, fuel = f + 1 :=
      ⟨fuel - 1, by simp only [List.length_cons] at hfuel; omega⟩
    have hf : cs.length + 1 ≤ f := by simp only [List.length_cons] at hfuel; omega
    have ihf := ih rest f hf
    show parseStringBody (f + 1) ((escapeChar c ++ printStringBody cs) ++ ('"' :: rest)) = _
    rw [List.append_assoc]
    by_cases h1 : c = '"'
    · subst h1
      have he : escapeChar '"' = ['\\', '"'] := by decide
      simp only [he, List.cons_append, List.nil_append]
      simp [parseStringBody, ihf]
    by_cases h2 : c = '\\'
    · subst h2
      have he : escapeChar '\\' = ['\\', '\\'] := by decide
      simp only [he, List.cons_append, List.nil_append]
      simp [parseStringBody, ihf]
    by_cases h3 : c = '\n'
    · subst h3
      have he : escapeChar '\n' = ['\\', 'n'] := by decide
      simp only [he, List.cons_append, List.nil_append]
      simp [parseStringBody, ihf]
    by_cases h4 : c = '\r'
    · subst h4
      have he : escapeChar '\r' = ['\\', 'r'] := by decide
      simp only [he, List.cons_append, List.nil_append]
      simp [parseStringBody, ihf]
    by_cases h5 : c = '\t'
    · subst h5
      have he : escapeChar '\t' = ['\\', 't'] := by decide
      simp only [he, List.cons_append, List.nil_append]
      simp [parseStringBody, ihf]
    by_cases h6 : c.toNat < 32 ∨ c = '<' ∨ c = '>' ∨ c = '&' ∨ c.toNat = 8232 ∨ c.toNat = 8233
    · have h65536 : c.toNat < 65536 := by
        rcases h6 with h | h | h | h | h | h
        · omega
        · subst h; decide
        · subst h; decide
        · subst h; decide
        · omega
        · omega
      have hesc : escapeChar c = '\\' :: 'u' :: printHex4 c.toNat := by
        simp [escapeChar, h1, h2, h3, h4, h5, h6]
      rw [hesc]
      show parseStringBody (f + 1)
          ('\\' :: 'u' :: (printHex4 c.toNat ++ (printStringBody cs ++ '"' :: rest))) = _
      simp [parseStringBody, unescapeU_printHex4 c h65536, ihf]
    · have hesc : escapeChar c = [c] := by
        simp [escapeChar, h1, h2, h3, h4, h5, h6]
      rw [hesc]
      have h32 : ¬c.toNat < 32 := fun hlt => h6 (Or.inl hlt)
      simp only [List.singleton_append]
      simp [parseStringBody, h1, h2, h32, ihf]

/-- `parseStringBody_print` at the fuel the parser actually passes. -/
theorem parseStringBody_print_auto (s rest : List Char) :
    parseStringBody ((printStringBody s ++ ('"' :: rest)).length + 1)
      (printStringBody s ++ ('"' :: rest)) = some (s, rest) := by
  apply parseStringBody_print
  have := printStringBody_length_ge s
  simp only [List.length_append, List.length_cons]
  omega

theorem stringMk_data (s : String) : String.mk s.data = s := rfl

theorem skipWs_cons {c : Char} (h : isJsonWs c = false) (r : List Char) :
    skipWs (c :: r) = c :: r := by
  simp [skipWs, List.dropWhile_cons, h]

theorem printNum_head (n : JNum) :
    ∃ c cs, printNum n = c :: cs ∧ (c = '-' ∨ c.isDigit = true) := by
  obtain ⟨m, s, ex⟩ := n
  by_cases hneg : m < 0
  · refine ⟨'-', (if s = 0 then natDigits m.natAbs
      else natDigits (m.natAbs / 10 ^ s) ++ '.' :: padDigits s (m.natAbs % 10 ^ s)) ++
        (if ex = 0 then [] else
          'e' :: (if ex < 0 then '-' :: natDigits ex.natAbs else natDigits ex.natAbs)),
      ?_, Or.inl rfl⟩
    simp only [printNum, hneg, if_true, List.cons_append, List.nil_append]
  · have hBhead : ∃ c cs, (if s = 0 then natDigits m.natAbs
        else natDigits (m.natAbs / 10 ^ s) ++ '.' :: padDigits s (m.natAbs % 10 ^ s)) =
          c :: cs ∧ c.isDigit = true := by
      by_cases hs : s = 0
      · simp only [hs, if_true]
        rcases Nat.eq_zero_or_pos m.natAbs with h | h
        · rw [h, natDigits_zero]; exact ⟨'0', [], rfl, by decide⟩
        · obtain ⟨c, cs, heq, hd, _⟩ := natDigits_head_pos h
          exact ⟨c, cs, heq, hd⟩
      · simp only [hs, if_false]
        rcases Nat.eq_zero_or_pos (m.natAbs / 10 ^ s) with h | h
        · rw [h, natDigits_zero]; exact ⟨'0', _, rfl, by decide⟩
        · obtain ⟨c, cs, heq, hd, _⟩ := natDigits_head_pos h
          exact ⟨c, _, by rw [heq]; rfl, hd⟩
    obtain ⟨c, cs, heq, hd⟩ := hBhead
    refine ⟨c, cs ++ (if ex = 0 then [] else
      'e' :: (if ex < 0 then '-' :: natDigits ex.natAbs else natDigits ex.natAbs)),
      ?_, Or.inr hd⟩
    simp only [printNum, hneg, if_false, List.nil_append, heq, List.cons_append]

theorem isDigit_toNat {c : Char} (h : c.isDigit = true) : 48 ≤ c.toNat ∧ c.toNat ≤ 57 := by
  simp only [Char.isDigit, Bool.and_eq_true, decide_eq_true_eq] at h
  obtain ⟨h1, h2⟩ := h
  exact ⟨h1, h2⟩

/-- Printed scalars parse back to themselves before a member separator. -/
theorem parseValue_scalar (fuel : ℕ) (j : Json) (hj : IsScalar j) (rest : List Char)
    (hb : SepRest rest) :
    parseValue (fuel + 1) (printScalar j ++ rest) = some (j, rest) := by
  have hbNum : NumBoundary rest := by
    cases rest with
    | nil => trivial
    | cons c cs => rcases hb with h | h <;> subst h <;> exact ⟨by decide, by decide, by decide, by decide⟩
  cases j with
  | arr es => exact hj.elim
  | obj fs => exact hj.elim
  | null =>
    show parseValue (fuel + 1) ('n' :: 'u' :: 'l' :: 'l' :: rest) = _
    rw [parseValue]
    rw [skipWs_cons (by decide)]
    simp
  | bool b =>
    cases b with
    | true =>
      show parseValue (fuel + 1) ('t' :: 'r' :: 'u' :: 'e' :: rest) = _
      rw [parseValue, skipWs_cons (by decide)]
      simp
    | false =>
      show parseValue (fuel + 1) ('f' :: 'a' :: 'l' :: 's' :: 'e' :: rest) = _
      rw [parseValue, skipWs_cons (by decide)]
      simp
  | str s =>
    show parseValue (fuel + 1) (('"' :: (printStringBody s.data ++ ['"'])) ++ rest) = _
    have : ('"' :: (printStringBody s.data ++ ['"'])) ++ rest =
        '"' :: (printStringBody s.data ++ ('"' :: rest)) := by
      simp [List.append_assoc]
    rw [this, parseValue, skipWs_cons (by decide)]
    have hp := parseStringBody_print s.data rest
      ((printStringBody s.data ++ '"' :: rest).length + 1)
      (by have := printStringBody_length_ge s.data
          simp only [List.length_append, List.length_cons]
          omega)
    simp only [if_neg (show ¬('"' : Char) = 'n' by decide),
      if_neg (show ¬('"' : Char) = 't' by decide),
      if_neg (show ¬('"' : Char) = 'f' by decide),
      if_pos (rfl : ('"' : Char) = '"')]
    rw [hp]
    rfl
  | num n =>
    obtain ⟨c, cs, heq, hc⟩ := printNum_head n
    have hdig : c = '-' ∨ c.isDigit = true := hc
    have hnotws : isJsonWs c = false := by
      rcases hdig with h | h
      · subst h; decide
      · simp only [isJsonWs, Bool.or_eq_false_iff, decide_eq_false_iff_not]
        refine ⟨⟨⟨?_, ?_⟩, ?_⟩, ?_⟩ <;> (intro he; subst he; exact absurd h (by decide))
    have hno : c ≠ 'n' ∧ c ≠ 't' ∧ c ≠ 'f' ∧ c ≠ '"' ∧ c ≠ '[' ∧ c ≠ '{' := by
      rcases hdig with h | h
      · subst h
        exact ⟨by decide, by decide, by decide, by decide, by decide, by decide⟩
      · refine ⟨?_, ?_, ?_, ?_, ?_, ?_⟩ <;> (intro he; subst he; exact absurd h (by decide))
    obtain ⟨h1, h2, h3, h4, h5, h6⟩ := hno
    show parseValue (fuel + 1) (printNum n ++ rest) = _
    rw [heq]
    show parseValue (fuel + 1) (c :: (cs ++ rest)) = _
    rw [parseValue, skipWs_cons hnotws]
    simp only [h1, h2, h3, h4, h5, h6, if_false]
    have := parseNumber_printNum n rest hbNum
    rw [heq] at this
    simp only [List.cons_append] at this
    simp [this]

theorem printFields_length_ge (fields : List (String × Json)) :
    fields.length ≤ (printFields fields).length := by
  induction fields with
  | nil => simp [printFields]
  | cons p rest ih =>
    obtain ⟨k, v⟩ := p
    cases rest with
    | nil => simp [printFields, printString]
    | cons q rest2 =>
      simp only [printFields, List.length_append, List.length_cons] at *
      omega

theorem printFields_head (fields : List (String × Json)) (h : fields ≠ []) :
    ∃ t, printFields fields = '"' :: t := by
  match fields with
  | [(k, v)] => exact ⟨_, rfl⟩
  | (k, v) :: q :: rest2 => exact ⟨_, rfl⟩

/-- Printed members of a flat object of scalars parse back to the field
list, relative to any accumulator. -/
theorem parseMembers_print (fields : List (String × Json)) :
    (∀ p ∈ fields, IsScalar p.2) →
    fields ≠ [] →
    ∀ (acc : List (String × Json)) (rest : List Char) (fuel : ℕ),
      fields.length + 1 ≤ fuel →
      parseMembers fuel (printFields fields ++ ('}' :: rest)) acc =
        some (.obj (acc ++ fields), rest) := by
  induction fields with
  | nil =>
    intro _ hne
    exact absurd rfl hne
  | cons p rest' ih =>
    intro hsc _ acc rest fuel hfuel
    obtain ⟨k, v⟩ := p
    have hscv : IsScalar v := hsc (k, v) (List.mem_cons_self _ _)
    have hfl : 2 ≤ fuel := by simp only [List.length_cons] at hfuel; omega
    obtain ⟨f, rfl⟩ : ∃ f, fuel = f + 1 := ⟨fuel - 1, by omega⟩
    obtain ⟨f2, rfl⟩ : ∃ f2, f = f2 + 1 := ⟨f - 1, by omega⟩
    cases rest' with
    | nil =>
      have htext : printFields [(k, v)] ++ ('}' :: rest) =
          '"' :: (printStringBody k.data ++
            ('"' :: (':' :: (printScalar v ++ '}' :: rest)))) := by
        simp [printFields, printString, List.append_assoc]
      rw [htext, parseMembers]
      rw [skipWs_cons (by decide)]
      have hp := parseStringBody_print k.data (':' :: (printScalar v ++ '}' :: rest))
        ((printStringBody k.data ++ '"' :: ':' :: (printScalar v ++ '}' :: rest)).length + 1)
        (by have := printStringBody_length_ge k.data
            simp only [List.length_append, List.length_cons]
            omega)
      simp only [if_pos (rfl : ('"' : Char) = '"'), hp]
      rw [skipWs_cons (by decide)]
      simp only [if_pos (rfl : (':' : Char) = ':'),
        parseValue_scalar f2 v hscv ('}' :: rest) (Or.inr rfl)]
      rw [skipWs_cons (by decide)]
      simp [stringMk_data]
    | cons q rest2 =>
      have hsc2 : ∀ p ∈ q :: rest2, IsScalar p.2 :=
        fun p hp => hsc p (List.mem_cons_of_mem _ hp)
      have htext : printFields ((k, v) :: q :: rest2) ++ ('}' :: rest) =
          '"' :: (printStringBody k.data ++
            ('"' :: (':' :: (printScalar v ++ ',' ::
              (printFields (q :: rest2) ++ ('}' :: rest)))))) := by
        simp [printFields, printString, List.append_assoc]
      rw [htext, parseMembers]
      rw [skipWs_cons (by decide)]
      have hp := parseStringBody_print k.data
        (':' :: (printScalar v ++ ',' :: (printFields (q :: rest2) ++ ('}' :: rest))))
        ((printStringBody k.data ++
          '"' :: ':' :: (printScalar v ++ ',' :: (printFields (q :: rest2) ++ ('}' :: rest)))).length + 1)
        (by have := printStringBody_length_ge k.data
            simp only [List.length_append, List.length_cons]
            omega)
      simp only [if_pos (rfl : ('"' : Char) = '"'), hp]
      rw [skipWs_cons (by decide)]
      simp only [if_pos (rfl : (':' : Char) = ':'),
        parseValue_scalar f2 v hscv
          (',' :: (printFields (q :: rest2) ++ ('}' :: rest))) (Or.inl rfl)]
      rw [skipWs_cons (by decide)]
      simp only [if_pos (rfl : (',' : Char) = ','),
        ih hsc2 (List.cons_ne_nil _ _) (acc ++ [(String.mk k.data, v)]) rest (f2 + 1)
          (by simp only [List.length_cons] at hfuel ⊢; omega)]
      simp [stringMk_data, List.append_assoc]

/-- A printed flat object of scalars parses back to itself. -/
theorem parseValue_printObj (fields : List (String × Json)) (hne : fields ≠ [])
    (hsc : ∀ p ∈ fields, IsScalar p.2) (rest : List Char) :
    ∀ fuel : ℕ, fields.length + 2 ≤ fuel →
      parseValue fuel ('{' :: (printFields fields ++ ('}' :: rest))) =
        some (.obj fields, rest) := by
  intro fuel hfuel
  obtain ⟨f, rfl⟩ : ∃ f, fuel = f + 1 := ⟨fuel - 1, by omega⟩
  obtain ⟨t, ht⟩ := printFields_head fields hne
  rw [parseValue]
  rw [skipWs_cons (by decide)]
  simp only [if_neg (show ¬('{' : Char) = 'n' by decide),
    if_neg (show ¬('{' : Char) = 't' by decide),
    if_neg (show ¬('{' : Char) = 'f' by decide),
    if_neg (show ¬('{' : Char) = '"' by decide),
    if_neg (show ¬('{' : Char) = '[' by decide),
    if_pos (rfl : ('{' : Char) = '{')]
  rw [show printFields fields ++ ('}' :: rest) = '"' :: (t ++ ('}' :: rest)) by
    rw [ht]; rfl]
  rw [skipWs_cons (by decide)]
  simp only [if_neg (show ¬('"' : Char) = '}' by decide)]
  rw [show ('"' : Char) :: (t ++ ('}' :: rest)) = printFields fields ++ ('}' :: rest) by
    rw [ht]; rfl]
  exact parseMembers_print fields hsc hne [] rest f (by omega)

/-- `json.Unmarshal` of a printed flat object of scalars. -/
theorem jsonUnmarshal_printObj (fields : List (String × Json)) (hne : fields ≠ [])
    (hsc : ∀ p ∈ fields, IsScalar p.2) :
    jsonUnmarshal ('{' :: printFields fields ++ ['}']) = some (.obj fields) := by
  have hlen := printFields_length_ge fields
  show (match parseValue (('{' :: printFields fields ++ ['}']).length + 1)
      ('{' :: printFields fields ++ ['}']) with
    | none => none
    | some (v, rest) => if skipWs rest = [] then some v else none) = some (.obj fields)
  have hlen2 : ('{' :: printFields fields ++ ['}']).length + 1 =
      (printFields fields).length + 3 := by simp
  rw [hlen2]
  rw [show ('{' :: printFields fields ++ ['}']) =
    '{' :: (printFields fields ++ ('}' :: [])) from rfl]
  rw [parseValue_printObj fields hne hsc [] _ (by omega)]
  simp [skipWs]

/-! ### The normalizer fixes its own output (round-trip laws) -/

theorem isScalar_jsonStrPtr (s : Option String) : IsScalar (jsonStrPtr s) := by
  cases s <;> trivial

theorem decodeStrPtr_jsonStrPtr (f : String) (s : Option String) :
    decodeStrPtr f (jsonStrPtr s) = .ok s := by
  cases s <;> rfl

theorem payslipFields_ne_nil (v : PayslipExtraction) : payslipFields v ≠ [] := by
  cases v.superannuation <;> simp [payslipFields]

theorem invoiceFields_ne_nil (v : InvoiceExtraction) : invoiceFields v ≠ [] := by
  cases v.due_date <;> cases v.gst_amount <;> simp [invoiceFields]

theorem payslipFields_scalar (v : PayslipExtraction) :
    ∀ p ∈ payslipFields v, IsScalar p.2 := by
  obtain ⟨e1, e2, e3, e4, g, n, t, su, c⟩ := v
  intro p hp
  cases su <;>
    simp only [payslipFields, List.append_nil, List.cons_append, List.nil_append,
      List.mem_cons, List.not_mem_nil, or_false] at hp <;>
    (repeat' rcases hp with rfl | hp) <;>
    first
      | exact isScalar_jsonStrPtr _
      | trivial

theorem invoiceFields_scalar (v : InvoiceExtraction) :
    ∀ p ∈ invoiceFields v, IsScalar p.2 := by
  obtain ⟨s1, s2, s3, dd, ta, ga, c⟩ := v
  intro p hp
  cases dd <;> cases ga <;>
    simp only [invoiceFields, List.append_nil, List.cons_append, List.nil_append,
      List.mem_cons, List.not_mem_nil, or_false] at hp <;>
    (repeat' rcases hp with rfl | hp) <;>
    first
      | exact isScalar_jsonStrPtr _
      | trivial

theorem validateKeys_payslipFields (v : PayslipExtraction) :
    validateKeys (.obj (payslipFields v)) payslipAllowedKeys payslipRequiredKeys =
      .ok () := by
  obtain ⟨e1, e2, e3, e4, g, n, t, su, c⟩ := v
  cases su <;> rfl

theorem validateKeys_invoiceFields (v : InvoiceExtraction) :
    validateKeys (.obj (invoiceFields v)) invoiceAllowedKeys invoiceRequiredKeys =
      .ok () := by
  obtain ⟨s1, s2, s3, dd, ta, ga, c⟩ := v
  cases dd <;> cases ga <;> rfl

theorem strictDecode_payslipFields (v : PayslipExtraction) :
    strictDecodePayslipJson (.obj (payslipFields v)) = .ok v := by
  obtain ⟨e1, e2, e3, e4, g, n, t, su, c⟩ := v
  cases e1 <;> cases e2 <;> cases e3 <;> cases e4 <;> cases su <;> rfl

theorem strictDecode_invoiceFields (v : InvoiceExtraction) :
    strictDecodeInvoiceJson (.obj (invoiceFields v)) = .ok v := by
  obtain ⟨s1, s2, s3, dd, ta, ga, c⟩ := v
  cases s1 <;> cases s2 <;> cases s3 <;> cases dd <;> cases ga <;> rfl

theorem goTrimSpace_braced (mid : List Char) :
    goTrimSpace ('{' :: (mid ++ ['}'])) = '{' :: (mid ++ ['}']) := by
  have h1 : isGoSpace '{' = false := by decide
  have h2 : isGoSpace '}' = false := by decide
  simp [goTrimSpace, List.dropWhile_cons, h1, h2, List.reverse_append]

theorem jsonUnmarshal_marshalPayslip (v : PayslipExtraction) :
    jsonUnmarshal (goTrimSpace (marshalPayslip v).data) =
      some (.obj (payslipFields v)) := by
  have hdata : (marshalPayslip v).data = '{' :: (printFields (payslipFields v) ++ ['}']) := rfl
  rw [hdata, goTrimSpace_braced]
  exact jsonUnmarshal_printObj (payslipFields v) (payslipFields_ne_nil v)
    (payslipFields_scalar v)

theorem jsonUnmarshal_marshalInvoice (v : InvoiceExtraction) :
    jsonUnmarshal (goTrimSpace (marshalInvoice v).data) =
      some (.obj (invoiceFields v)) := by
  have hdata : (marshalInvoice v).data = '{' :: (printFields (invoiceFields v) ++ ['}']) := rfl
  rw [hdata, goTrimSpace_braced]
  exact jsonUnmarshal_printObj (invoiceFields v) (invoiceFields_ne_nil v)
    (invoiceFields_scalar v)

/-- `ParseAndNormalize` maps the canonical serialization of any payslip
value back to exactly those canonical bytes and that confidence. -/
theorem parseAndNormalize_marshalPayslip (v : PayslipExtraction) :
    ParseAndNormalize .payslip (marshalPayslip v) =
      .ok (marshalPayslip v, v.confidence) := by
  have hdata : (marshalPayslip v).data = '{' :: (printFields (payslipFields v) ++ ['}']) := rfl
  have htrim : goTrimSpace (marshalPayslip v).data =
      '{' :: (printFields (payslipFields v) ++ ['}']) := by
    rw [hdata]; exact goTrimSpace_braced _
  have hum := jsonUnmarshal_marshalPayslip v
  rw [htrim] at hum
  simp only [ParseAndNormalize, htrim, hum, validateKeys_payslipFields,
    strictDecode_payslipFields, reduceCtorEq, if_false]

/-- `ParseAndNormalize` maps the canonical serialization of any invoice
value back to exactly those canonical bytes and that confidence. -/
theorem parseAndNormalize_marshalInvoice (v : InvoiceExtraction) :
    ParseAndNormalize .invoice (marshalInvoice v) =
      .ok (marshalInvoice v, v.confidence) := by
  have hdata : (marshalInvoice v).data = '{' :: (printFields (invoiceFields v) ++ ['}']) := rfl
  have htrim : goTrimSpace (marshalInvoice v).data =
      '{' :: (printFields (invoiceFields v) ++ ['}']) := by
    rw [hdata]; exact goTrimSpace_braced _
  have hum := jsonUnmarshal_marshalInvoice v
  rw [htrim] at hum
  simp only [ParseAndNormalize, htrim, hum, validateKeys_invoiceFields,
    strictDecode_invoiceFields, reduceCtorEq, if_false]

/-- `ValidateByRules` on the canonical serialization of a payslip value
runs `ValidatePayslip` on exactly that value. -/
theorem validateByRules_marshalPayslip (v : PayslipExtraction) :
    ValidateByRules .payslip (marshalPayslip v) = .ok (ValidatePayslip v) := by
  have hdata : (marshalPayslip v).data = '{' :: (printFields (payslipFields v) ++ ['}']) := rfl
  have hum : jsonUnmarshal (marshalPayslip v).data = some (.obj (payslipFields v)) := by
    rw [hdata]
    exact jsonUnmarshal_printObj (payslipFields v) (payslipFields_ne_nil v)
      (payslipFields_scalar v)
  simp only [ValidateByRules, hum, strictDecode_payslipFields]

/-- `ValidateByRules` on the canonical serialization of an invoice value
runs `ValidateInvoice` on exactly that value. -/
theorem validateByRules_marshalInvoice (v : InvoiceExtraction) :
    ValidateByRules .invoice (marshalInvoice v) = .ok (ValidateInvoice v) := by
  have hdata : (marshalInvoice v).data = '{' :: (printFields (invoiceFields v) ++ ['}']) := rfl
  have hum : jsonUnmarshal (marshalInvoice v).data = some (.obj (invoiceFields v)) := by
    rw [hdata]
    exact jsonUnmarshal_printObj (invoiceFields v) (invoiceFields_ne_nil v)
      (invoiceFields_scalar v)
  simp only [ValidateByRules, hum, strictDecode_invoiceFields]

theorem toRat_zero : JNum.zero.toRat = 0 := by
  simp [JNum.toRat, JNum.zero]

theorem blt_zero_iff (a : JNum) : a.blt JNum.zero = true ↔ a.toRat < 0 := by
  rw [JNum.blt_iff, toRat_zero]

theorem JNum.blt_imp_ble {a b : JNum} (h : a.blt b = true) : a.ble b = true := by
  rw [JNum.ble_iff]
  exact le_of_lt ((JNum.blt_iff a b).mp h)

/-! ## Claims -/

/-- C7 (amended): the failed rule `invoice.amounts_non_negative` is NOT
unreachable — `ValidateInvoice` reports it exactly when `total_amount` is
negative (a value the normalizer accepts), and whenever it fires,
`invoice.total_amount_gt_zero` fires too, so the rule is redundant for the
pass/fail verdict but not a no-op on the reported rule list. -/
theorem C7_theorem (v : InvoiceExtraction) :
    ("invoice.amounts_non_negative" ∈ (ValidateInvoice v).failedRules ↔
      v.total_amount.toRat < 0) ∧
    ("invoice.amounts_non_negative" ∈ (ValidateInvoice v).failedRules →
      "invoice.total_amount_gt_zero" ∈ (ValidateInvoice v).failedRules) := by
  rw [← blt_zero_iff]
  simp only [ValidateInvoice, List.mem_append, List.mem_cons, List.not_mem_nil]
  repeat' split
  all_goals simp_all
  all_goals
    exact absurd (JNum.blt_imp_ble ‹v.total_amount.blt JNum.zero = true›)
      (by simp [‹v.total_amount.ble JNum.zero = false›])

/-- C7 counterexample: an invoice payload with `total_amount = -5` is
accepted verbatim by the normalizer, and `ValidateInvoice` on it reports
`invoice.amounts_non_negative` — the rule is reachable. -/
theorem C7_counterexample :
    ParseAndNormalize .invoice "\x7b\"supplier_name\":\"S\",\"invoice_number\":\"I-1\",\"invoice_date\":\"2025-01-20\",\"total_amount\":-5,\"confidence\":0.9\x7d" =
      .ok ("\x7b\"supplier_name\":\"S\",\"invoice_number\":\"I-1\",\"invoice_date\":\"2025-01-20\",\"total_amount\":-5,\"confidence\":0.9\x7d", ⟨9, 1, 0⟩) ∧
    ValidateByRules .invoice "\x7b\"supplier_name\":\"S\",\"invoice_number\":\"I-1\",\"invoice_date\":\"2025-01-20\",\"total_amount\":-5,\"confidence\":0.9\x7d" =
      .ok ⟨["invoice.total_amount_gt_zero", "invoice.amounts_non_negative"], ⟨9, 1, 0⟩⟩ :=
  ⟨rfl, rfl⟩

theorem contains_iff_mem (l : List String) (a : String) :
    l.contains a = true ↔ a ∈ l := by
  simp [List.contains_iff_exists_mem_beq]

theorem findUnknownKey_some_of_mem (allowed : List String) :
    ∀ (fs : List (String × Json)) (p : String × Json), p ∈ fs →
      allowed.contains p.1 = false →
      ∃ k, findUnknownKey allowed fs = some k ∧ allowed.contains k = false := by
  intro fs
  induction fs with
  | nil => intro p hp; exact absurd hp (List.not_mem_nil p)
  | cons q rest ih =>
    intro p hp hpc
    obtain ⟨k0, v0⟩ := q
    by_cases hc : allowed.contains k0 = true
    · have hpr : p ∈ rest := by
        rcases List.mem_cons.mp hp with rfl | h
        · rw [hpc] at hc; exact absurd hc (by simp)
        · exact h
      obtain ⟨k, hk, hkc⟩ := ih p hpr hpc
      refine ⟨k, ?_, hkc⟩
      simp only [findUnknownKey]
      rw [if_pos hc]
      exact hk
    · refine ⟨k0, ?_, by simpa using hc⟩
      simp only [findUnknownKey]
      rw [if_neg hc]

theorem findUnknownKey_none_of_all (allowed : List String) :
    ∀ fs : List (String × Json), (∀ p ∈ fs, allowed.contains p.1 = true) →
      findUnknownKey allowed fs = none := by
  intro fs
  induction fs with
  | nil => intro _; rfl
  | cons q rest ih =>
    intro h
    obtain ⟨k0, v0⟩ := q
    have hc := h (k0, v0) (List.mem_cons_self _ _)
    simp only [findUnknownKey, hc, if_true]
    exact ih fun p hp => h p (List.mem_cons_of_mem _ hp)

theorem findMissingKey_some_of_missing (fs : List (String × Json)) :
    ∀ (required : List String) (r : String), r ∈ required → hasKey fs r = false →
      ∃ k, findMissingKey fs required = some k ∧ hasKey fs k = false := by
  intro required
  induction required with
  | nil => intro r hr; exact absurd hr (List.not_mem_nil r)
  | cons r0 rest ih =>
    intro r hr hrk
    by_cases hc : hasKey fs r0 = true
    · have hrr : r ∈ rest := by
        rcases List.mem_cons.mp hr with rfl | h
        · rw [hrk] at hc; exact absurd hc (by simp)
        · exact h
      obtain ⟨k, hk, hkc⟩ := ih r hrr hrk
      refine ⟨k, ?_, hkc⟩
      simp only [findMissingKey]
      rw [if_pos hc]
      exact hk
    · refine ⟨r0, ?_, by simpa using hc⟩
      simp only [findMissingKey]
      rw [if_neg hc]

theorem jsonUnmarshal_nil : jsonUnmarshal [] = none := rfl

/-- C6: for both supported doc types, the normalizer fails (with an error,
never canonical bytes) on whitespace-only input, on any unknown top-level
key — carrying the sorted allowed-key set in the error —, on any missing
required key, and on trailing data after the JSON value. -/
theorem C6_theorem :
    (∀ raw : String, goTrimSpace raw.data = [] →
      ParseAndNormalize .payslip raw = .error .emptyOutput ∧
      ParseAndNormalize .invoice raw = .error .emptyOutput) ∧
    (∀ (raw : String) (fs : List (String × Json)) (p : String × Json), p ∈ fs →
      jsonUnmarshal (goTrimSpace raw.data) = some (.obj fs) →
      p.1 ∉ payslipAllowedKeys →
      ∃ k, k ∉ payslipAllowedKeys ∧
        ParseAndNormalize .payslip raw =
          .error (.unknownKey k (sortedKeys payslipAllowedKeys))) ∧
    (∀ (raw : String) (fs : List (String × Json)) (p : String × Json), p ∈ fs →
      jsonUnmarshal (goTrimSpace raw.data) = some (.obj fs) →
      p.1 ∉ invoiceAllowedKeys →
      ∃ k, k ∉ invoiceAllowedKeys ∧
        ParseAndNormalize .invoice raw =
          .error (.unknownKey k (sortedKeys invoiceAllowedKeys))) ∧
    (∀ (raw : String) (fs : List (String × Json)) (r : String),
      jsonUnmarshal (goTrimSpace raw.data) = some (.obj fs) →
      (∀ p ∈ fs, p.1 ∈ payslipAllowedKeys) →
      r ∈ payslipRequiredKeys → (∀ p ∈ fs, p.1 ≠ r) →
      ∃ k, ParseAndNormalize .payslip raw = .error (.missingKey k)) ∧
    (∀ (raw : String) (fs : List (String × Json)) (r : String),
      jsonUnmarshal (goTrimSpace raw.data) = some (.obj fs) →
      (∀ p ∈ fs, p.1 ∈ invoiceAllowedKeys) →
      r ∈ invoiceRequiredKeys → (∀ p ∈ fs, p.1 ≠ r) →
      ∃ k, ParseAndNormalize .invoice raw = .error (.missingKey k)) ∧
    (∀ (raw : String) (v : Json) (rest : List Char),
      parseValue ((goTrimSpace raw.data).length + 1) (goTrimSpace raw.data) =
        some (v, rest) →
      skipWs rest ≠ [] →
      ParseAndNormalize .payslip raw = .error .syntaxError ∧
      ParseAndNormalize .invoice raw = .error .syntaxError) := by
  have hnn : ∀ (raw : String) (j : Json),
      jsonUnmarshal (goTrimSpace raw.data) = some j → goTrimSpace raw.data ≠ [] := by
    intro raw j hum h0
    rw [h0, jsonUnmarshal_nil] at hum
    exact Option.noConfusion hum
  have hunk : ∀ (raw : String) (fs : List (String × Json)) (p : String × Json)
      (allowed required : List String), p ∈ fs →
      jsonUnmarshal (goTrimSpace raw.data) = some (.obj fs) →
      allowed.contains p.1 = false →
      ∃ k, allowed.contains k = false ∧
        validateKeys (.obj fs) allowed required = .error (.unknownKey k (sortedKeys allowed)) := by
    intro raw fs p allowed required hp hum hpc
    obtain ⟨k, hk, hkc⟩ := findUnknownKey_some_of_mem allowed fs p hp hpc
    exact ⟨k, hkc, by simp [validateKeys, objFieldsForMap, hk]⟩
  have hmiss : ∀ (fs : List (String × Json)) (allowed required : List String) (r : String),
      (∀ p ∈ fs, allowed.contains p.1 = true) →
      r ∈ required → hasKey fs r = false →
      ∃ k, validateKeys (.obj fs) allowed required = .error (.missingKey k) := by
    intro fs allowed required r hall hr hrk
    obtain ⟨k, hk, _⟩ := findMissingKey_some_of_missing fs required r hr hrk
    exact ⟨k, by simp [validateKeys, objFieldsForMap,
      findUnknownKey_none_of_all allowed fs hall, hk]⟩
  refine ⟨fun raw h => ⟨by simp [ParseAndNormalize, h], by simp [ParseAndNormalize, h]⟩,
    ?_, ?_, ?_, ?_, ?_⟩
  · intro raw fs p hp hum hpn
    obtain ⟨k, hkc, hvk⟩ := hunk raw fs p payslipAllowedKeys payslipRequiredKeys hp hum
      (by rw [← Bool.not_eq_true]; simpa [contains_iff_mem] using hpn)
    refine ⟨k, by simpa [contains_iff_mem] using hkc, ?_⟩
    simp [ParseAndNormalize, hnn raw _ hum, hum, hvk]
  · intro raw fs p hp hum hpn
    obtain ⟨k, hkc, hvk⟩ := hunk raw fs p invoiceAllowedKeys invoiceRequiredKeys hp hum
      (by rw [← Bool.not_eq_true]; simpa [contains_iff_mem] using hpn)
    refine ⟨k, by simpa [contains_iff_mem] using hkc, ?_⟩
    simp [ParseAndNormalize, hnn raw _ hum, hum, hvk]
  · intro raw fs r hum hall hr hnone
    obtain ⟨k, hvk⟩ := hmiss fs payslipAllowedKeys payslipRequiredKeys r
      (fun p hp => (contains_iff_mem _ _).mpr (hall p hp)) hr
      (by simp [hasKey, List.any_eq_true]; intro a b hab; exact hnone (a, b) hab)
    exact ⟨k, by simp [ParseAndNormalize, hnn raw _ hum, hum, hvk]⟩
  · intro raw fs r hum hall hr hnone
    obtain ⟨k, hvk⟩ := hmiss fs invoiceAllowedKeys invoiceRequiredKeys r
      (fun p hp => (contains_iff_mem _ _).mpr (hall p hp)) hr
      (by simp [hasKey, List.any_eq_true]; intro a b hab; exact hnone (a, b) hab)
    exact ⟨k, by simp [ParseAndNormalize, hnn raw _ hum, hum, hvk]⟩
  · intro raw v rest hpv hrest
    have htrim : goTrimSpace raw.data ≠ [] := by
      intro h0
      rw [h0] at hpv
      exact Option.noConfusion hpv
    have hum : jsonUnmarshal (goTrimSpace raw.data) = none := by
      simp [jsonUnmarshal, hpv, hrest]
    exact ⟨by simp [ParseAndNormalize, htrim, hum], by simp [ParseAndNormalize, htrim, hum]⟩

/-- C6 witness: the four failure modes at concrete inputs. -/
theorem C6_witness :
    ParseAndNormalize .payslip " " = .error .emptyOutput ∧
    (∃ k, k ∉ invoiceAllowedKeys ∧ ParseAndNormalize .invoice "\x7b\"foo\":1\x7d" =
      .error (.unknownKey k (sortedKeys invoiceAllowedKeys))) ∧
    (∃ k, ParseAndNormalize .payslip "\x7b\"confidence\":1\x7d" = .error (.missingKey k)) ∧
    ParseAndNormalize .invoice "1 2" = .error .syntaxError := by
  refine ⟨(C6_theorem.1 " " (by rfl)).1, ?_, ?_, ?_⟩
  · exact C6_theorem.2.2.1 "\x7b\"foo\":1\x7d" [("foo", .num ⟨1, 0, 0⟩)]
      ("foo", .num ⟨1, 0, 0⟩) (by simp) (by rfl) (by decide)
  · exact C6_theorem.2.2.2.1 "\x7b\"confidence\":1\x7d" [("confidence", .num ⟨1, 0, 0⟩)]
      "employee_name" (by rfl) (by intro p hp; fin_cases hp <;> decide)
      (by decide) (by intro p hp; fin_cases hp <;> decide)
  · exact (C6_theorem.2.2.2.2.2 "1 2" (.num ⟨1, 0, 0⟩) [' ', '2']
      (by rfl) (by decide)).2

theorem toRat_one : JNum.one.toRat = 1 := by
  simp [JNum.toRat, JNum.one]

/-- C10: the normalizer accepts `null` for every required string-typed key
and does not enforce the schema bounds on `confidence`: an out-of-range
confidence (here 7) is returned verbatim, and only the validator's
`confidence_range` rule flags it. -/
theorem C10_theorem :
    ParseAndNormalize .payslip "\x7b\"employee_name\":null,\"employer_name\":null,\"pay_period_start\":null,\"pay_period_end\":null,\"gross_pay\":1,\"net_pay\":1,\"tax_withheld\":0,\"confidence\":7\x7d" =
      .ok ("\x7b\"employee_name\":null,\"employer_name\":null,\"pay_period_start\":null,\"pay_period_end\":null,\"gross_pay\":1,\"net_pay\":1,\"tax_withheld\":0,\"confidence\":7\x7d",
        ⟨7, 0, 0⟩) ∧
    (∀ v : PayslipExtraction, 1 < v.confidence.toRat →
      ParseAndNormalize .payslip (marshalPayslip v) = .ok (marshalPayslip v, v.confidence) ∧
      "payslip.confidence_range" ∈ (ValidatePayslip v).failedRules) := by
  constructor
  · rfl
  · intro v hv
    have hb : JNum.one.blt v.confidence = true := by
      rw [JNum.blt_iff, toRat_one]; exact hv
    exact ⟨parseAndNormalize_marshalPayslip v, by simp [ValidatePayslip, hb]⟩

/-- C10 witness: a payslip value with confidence 7 round-trips through the
normalizer with its out-of-range confidence intact, and the validator
flags `payslip.confidence_range`. -/
theorem C10_witness :
    ParseAndNormalize .payslip (marshalPayslip
        ⟨none, none, none, none, JNum.one, JNum.one, JNum.zero, none, ⟨7, 0, 0⟩⟩) =
      .ok (marshalPayslip
        ⟨none, none, none, none, JNum.one, JNum.one, JNum.zero, none, ⟨7, 0, 0⟩⟩,
        ⟨7, 0, 0⟩) ∧
    "payslip.confidence_range" ∈ (ValidatePayslip
      ⟨none, none, none, none, JNum.one, JNum.one, JNum.zero, none, ⟨7, 0, 0⟩⟩).failedRules :=
  C10_theorem.2 ⟨none, none, none, none, JNum.one, JNum.one, JNum.zero, none, ⟨7, 0, 0⟩⟩
    (by norm_num [JNum.toRat])

/-- C9: round-trip law — for every payslip or invoice variant value, the
normalizer maps its canonical serialization to exactly those bytes and
that value's confidence. -/
theorem C9_theorem :
    (∀ v : PayslipExtraction,
      ParseAndNormalize .payslip (marshalPayslip v) =
        .ok (marshalPayslip v, v.confidence)) ∧
    (∀ v : InvoiceExtraction,
      ParseAndNormalize .invoice (marshalInvoice v) =
        .ok (marshalInvoice v, v.confidence)) :=
  ⟨parseAndNormalize_marshalPayslip, parseAndNormalize_marshalInvoice⟩

theorem marshalPayslip_ne_empty (v : PayslipExtraction) : marshalPayslip v ≠ "" := by
  intro h
  have h2 := congrArg String.data h
  simp [marshalPayslip] at h2

theorem marshalInvoice_ne_empty (v : InvoiceExtraction) : marshalInvoice v ≠ "" := by
  intro h
  have h2 := congrArg String.data h
  simp [marshalInvoice] at h2

/-- `ParseAndNormalize .payslip` only ever succeeds with the canonical
serialization of a decoded value and its confidence. -/
theorem parseAndNormalize_payslip_ok_inv (raw s : String) (c : JNum)
    (h : ParseAndNormalize .payslip raw = .ok (s, c)) :
    ∃ v : PayslipExtraction, s = marshalPayslip v ∧ c = v.confidence := by
  simp only [ParseAndNormalize] at h
  repeat' split at h
  all_goals first
    | exact Except.noConfusion h
    | (simp only [Except.ok.injEq, Prod.mk.injEq] at h
       exact ⟨_, h.1.symm, h.2.symm⟩)

theorem parseAndNormalize_invoice_ok_inv (raw s : String) (c : JNum)
    (h : ParseAndNormalize .invoice raw = .ok (s, c)) :
    ∃ v : InvoiceExtraction, s = marshalInvoice v ∧ c = v.confidence := by
  simp only [ParseAndNormalize] at h
  repeat' split at h
  all_goals first
    | exact Except.noConfusion h
    | (simp only [Except.ok.injEq, Prod.mk.injEq] at h
       exact ⟨_, h.1.symm, h.2.symm⟩)

/-- Anything the normalizer emits is non-empty and re-validates without an
error, with the validator passing the same confidence through. -/
theorem validate_of_normalized (dt raw s : String) (c : JNum)
    (h : parseAndNormalizeStr dt raw = .ok (s, c)) :
    s ≠ "" ∧ ∃ r, validateByRulesStr dt s = .ok r ∧ r.confidence = c := by
  unfold parseAndNormalizeStr at h
  split at h
  · exact Except.noConfusion h
  · split at h
    · obtain ⟨v, rfl, rfl⟩ := parseAndNormalize_payslip_ok_inv raw s c h
      subst ‹dt = "payslip"›
      exact ⟨marshalPayslip_ne_empty v, ValidatePayslip v,
        by simp [validateByRulesStr, validateByRules_marshalPayslip], rfl⟩
    · split at h
      · obtain ⟨v, rfl, rfl⟩ := parseAndNormalize_invoice_ok_inv raw s c h
        subst ‹dt = "invoice"›
        exact ⟨marshalInvoice_ne_empty v, ValidateInvoice v,
          by simp [validateByRulesStr, validateByRules_marshalInvoice], rfl⟩
      · exact Except.noConfusion h

theorem parseAndNormalizeStr_marshalPayslip (v : PayslipExtraction) :
    parseAndNormalizeStr "payslip" (marshalPayslip v) =
      .ok (marshalPayslip v, v.confidence) := by
  have htr : goTrimSpace (marshalPayslip v).data =
      '{' :: (printFields (payslipFields v) ++ ['}']) := goTrimSpace_braced _
  unfold parseAndNormalizeStr
  rw [if_neg (by rw [htr]; exact List.cons_ne_nil _ _), if_pos rfl]
  exact parseAndNormalize_marshalPayslip v

theorem parseAndNormalizeStr_marshalInvoice (v : InvoiceExtraction) :
    parseAndNormalizeStr "invoice" (marshalInvoice v) =
      .ok (marshalInvoice v, v.confidence) := by
  have htr : goTrimSpace (marshalInvoice v).data =
      '{' :: (printFields (invoiceFields v) ++ ['}']) := goTrimSpace_braced _
  unfold parseAndNormalizeStr
  rw [if_neg (by rw [htr]; exact List.cons_ne_nil _ _),
    if_neg (by decide), if_pos rfl]
  exact parseAndNormalize_marshalInvoice v

/-- `ApplyReviewerCorrectionActivity` on corrections that fail to
normalize: the synthetic failed rule, no error, no store write. -/
theorem applyReviewerCorrection_invalid (w : World)
    (input : ApplyReviewerCorrectionInput) (e : NormError)
    (h : parseAndNormalizeStr input.docType input.corrections = .error e) :
    ApplyReviewerCorrectionActivity w input =
      (.ok ⟨"", JNum.zero, ["reviewer.corrections_invalid_json"]⟩, w) := by
  simp [ApplyReviewerCorrectionActivity, h]

/-- `ApplyReviewerCorrectionActivity` on corrections that normalize: the
current extraction is replaced and the re-validation result returned. -/
theorem applyReviewerCorrection_ok (w : World)
    (input : ApplyReviewerCorrectionInput) (normalized : String) (confidence : JNum)
    (h : parseAndNormalizeStr input.docType input.corrections = .ok (normalized, confidence)) :
    ∃ r, validateByRulesStr input.docType normalized = .ok r ∧
      ApplyReviewerCorrectionActivity w input =
        (.ok ⟨normalized, confidence, r.failedRules⟩,
          { w with store :=
              w.store.saveCurrentExtraction input.documentID normalized confidence }) := by
  obtain ⟨-, r, hr, -⟩ := validate_of_normalized _ _ _ _ h
  exact ⟨r, hr, by simp [ApplyReviewerCorrectionActivity, h, hr]⟩

/-- C5: `ApplyReviewerCorrection` reports corrections that fail to
normalize as the synthetic failed rule `reviewer.corrections_invalid_json`
without an error, leaving the world (in particular the stored current
extraction) untouched; corrections that normalize are written as the new
current extraction and the activity returns their re-validation result. -/
theorem C5_theorem :
    (∀ (w : World) (input : ApplyReviewerCorrectionInput) (e : NormError),
      parseAndNormalizeStr input.docType input.corrections = .error e →
      ApplyReviewerCorrectionActivity w input =
        (.ok ⟨"", JNum.zero, ["reviewer.corrections_invalid_json"]⟩, w)) ∧
    (∀ (w : World) (input : ApplyReviewerCorrectionInput)
        (normalized : String) (confidence : JNum),
      parseAndNormalizeStr input.docType input.corrections = .ok (normalized, confidence) →
      ∃ r, validateByRulesStr input.docType normalized = .ok r ∧
        ApplyReviewerCorrectionActivity w input =
          (.ok ⟨normalized, confidence, r.failedRules⟩,
            { w with store :=
                w.store.saveCurrentExtraction input.documentID normalized confidence })) :=
  ⟨applyReviewerCorrection_invalid, applyReviewerCorrection_ok⟩

/-- C5 witness: invalid corrections (`"oops"`) produce the synthetic rule
and no store write; canonical corrections are applied and re-validated. -/
theorem C5_witness :
    ApplyReviewerCorrectionActivity (initialWorld [] 1) ⟨"d1", "payslip", "oops"⟩ =
      (.ok ⟨"", JNum.zero, ["reviewer.corrections_invalid_json"]⟩, initialWorld [] 1) ∧
    (∃ r, validateByRulesStr "payslip"
        (marshalPayslip ⟨none, none, none, none, JNum.one, JNum.one, JNum.zero,
          none, JNum.one⟩) = .ok r ∧
      ApplyReviewerCorrectionActivity (initialWorld [] 1)
          ⟨"d1", "payslip",
            marshalPayslip ⟨none, none, none, none, JNum.one, JNum.one, JNum.zero,
              none, JNum.one⟩⟩ =
        (.ok ⟨marshalPayslip ⟨none, none, none, none, JNum.one, JNum.one, JNum.zero,
              none, JNum.one⟩, JNum.one, r.failedRules⟩,
          { initialWorld [] 1 with store :=
              ((initialWorld [] 1).store.saveCurrentExtraction "d1"
                (marshalPayslip ⟨none, none, none, none, JNum.one, JNum.one, JNum.zero,
                  none, JNum.one⟩) JNum.one) })) := by
  constructor
  · exact C5_theorem.1 (initialWorld [] 1) ⟨"d1", "payslip", "oops"⟩ .syntaxError (by rfl)
  · exact C5_theorem.2 (initialWorld [] 1)
      ⟨"d1", "payslip", marshalPayslip ⟨none, none, none, none, JNum.one, JNum.one,
        JNum.zero, none, JNum.one⟩⟩
      (marshalPayslip ⟨none, none, none, none, JNum.one, JNum.one, JNum.zero,
        none, JNum.one⟩) JNum.one (by rfl)

theorem toRat_threshold075 : JNum.threshold075.toRat = 3 / 4 := by
  norm_num [JNum.toRat, JNum.threshold075]

theorem JNum.blt_eq_false_iff (a b : JNum) : a.blt b = false ↔ ¬ a.toRat < b.toRat := by
  constructor
  · intro h hlt
    rw [(JNum.blt_iff a b).mpr hlt] at h
    exact Bool.noConfusion h
  · intro h
    cases hb : a.blt b
    · rfl
    · exact absurd ((JNum.blt_iff a b).mp hb) h

/-- With an empty failed-rule list and confidence not below the threshold,
the correction pass is skipped entirely. -/
theorem correctStep_noop (w : World) (documentID docType documentText : String)
    (extracted : ExtractFieldsOutput) (validation : ValidateFieldsOutput)
    (hr : validation.failedRules = [])
    (hc : validation.confidence.blt JNum.threshold075 = false) :
    correctStep w documentID docType documentText extracted validation =
      (.ok (extracted, validation), w) := by
  simp [correctStep, hr, hc]

theorem string_length_pos_of_ne (s : String) (h : s ≠ "") : s.length > 0 := by
  cases s with
  | mk data =>
    cases data with
    | nil => exact absurd rfl h
    | cons c cs => simp [String.length]

/-- C4: confidence exactly 0.75 passes every threshold decision.  With no
failed rules and confidence exactly 0.75, (1) the correction pass does not
run, (2) the workflow goes straight from validation to persistence —
neither CorrectFields nor QueueReview executes —, and (3) after a
reviewer `correct` whose corrections validate cleanly at confidence
exactly 0.75, the review resolves `CORRECTED` and persists instead of
re-queueing. -/
theorem C4_theorem :
    (∀ (w : World) (documentID docType documentText : String)
        (extracted : ExtractFieldsOutput) (validation : ValidateFieldsOutput),
      validation.failedRules = [] → validation.confidence.toRat = 3 / 4 →
      correctStep w documentID docType documentText extracted validation =
        (.ok (extracted, validation), w)) ∧
    (∀ (w : World) (input : WorkflowInput) (signals : List ReviewDecisionSignal)
        (stored : StoreDocumentOutput) (detected : DetectDocTypeOutput)
        (extracted : ExtractFieldsOutput) (validation : ValidateFieldsOutput)
        (w1 w2 w3 : World),
      StoreDocumentActivity w ⟨input.documentID, input.filename, input.content⟩ =
        (.ok stored, w1) →
      DetectDocTypeActivity w1 ⟨input.documentID, input.filename, stored.documentText⟩ =
        (.ok detected, w2) →
      ExtractFieldsWithOpenAIActivity w2
          ⟨input.documentID, detected.docType, stored.documentText⟩ =
        (.ok extracted, w3) →
      ValidateFieldsActivity w3 ⟨detected.docType, extracted.extractionJson⟩ =
        (.ok validation, w3) →
      validation.failedRules = [] → validation.confidence.toRat = 3 / 4 →
      DocumentIntakeWorkflow w input signals =
        persistTail w3 input.documentID extracted) ∧
    (∀ (w w1 : World) (documentID docType : String)
        (extracted : ExtractFieldsOutput) (validation : ValidateFieldsOutput)
        (d : ReviewDecisionSignal) (ds : List ReviewDecisionSignal)
        (out : ApplyReviewerCorrectionOutput),
      d.decision = "correct" →
      ApplyReviewerCorrectionActivity w ⟨documentID, docType, d.corrections⟩ =
        (.ok out, w1) →
      out.failedRules = [] → out.confidence.toRat = 3 / 4 → out.correctedJson ≠ "" →
      reviewLoop documentID docType w extracted validation (d :: ds) =
        persistTail ((ResolveReviewActivity w1 ⟨documentID, "CORRECTED"⟩).2)
          documentID ⟨out.correctedJson, out.confidence⟩) := by
  have hblt : ∀ c : JNum, c.toRat = 3 / 4 → c.blt JNum.threshold075 = false := by
    intro c hc
    exact (JNum.blt_eq_false_iff c JNum.threshold075).mpr
      (by rw [hc, toRat_threshold075]; exact lt_irrefl _)
  have hble : ∀ c : JNum, c.toRat = 3 / 4 → JNum.threshold075.ble c = true := by
    intro c hc
    exact (JNum.ble_iff JNum.threshold075 c).mpr (by rw [hc, toRat_threshold075])
  refine ⟨?_, ?_, ?_⟩
  · intro w documentID docType documentText extracted validation hr hc
    exact correctStep_noop w documentID docType documentText extracted validation hr
      (hblt _ hc)
  · intro w input signals stored detected extracted validation w1 w2 w3
      h1 h2 h3 h4 hr hc
    simp only [DocumentIntakeWorkflow, h1, h2, h3, h4,
      correctStep_noop w3 input.documentID detected.docType stored.documentText
        extracted validation hr (hblt _ hc),
      hr, hblt _ hc, List.isEmpty_nil, Bool.not_true, Bool.or_self, Bool.false_eq_true,
      if_false]
  · intro w w1 documentID docType extracted validation d ds out hd happ hr hc hne
    have hlen : out.correctedJson.length > 0 := string_length_pos_of_ne _ hne
    simp only [reviewLoop, hd]
    simp [happ, hr, hlen, hble _ hc, ResolveReviewActivity]

/-- C4 witness: the no-op of the correction pass and the `CORRECTED`
resolution at confidence exactly 0.75, on concrete inputs. -/
theorem C4_witness :
    correctStep (initialWorld [] 1) "d1" "payslip" "t"
        ⟨"x", ⟨75, 2, 0⟩⟩ ⟨[], ⟨75, 2, 0⟩⟩ =
      (.ok (⟨"x", ⟨75, 2, 0⟩⟩, ⟨[], ⟨75, 2, 0⟩⟩), initialWorld [] 1) ∧
    reviewLoop "d1" "payslip" (initialWorld [] 1) ⟨"x", ⟨75, 2, 0⟩⟩ ⟨["r"], ⟨75, 2, 0⟩⟩
        [⟨"correct", marshalPayslip ⟨some "A", some "B", some "2024-01-01", some "2024-01-14", ⟨2, 0, 0⟩, ⟨1, 0, 0⟩, JNum.zero, none, ⟨75, 2, 0⟩⟩, "rev", ""⟩] =
      persistTail ((ResolveReviewActivity
          { initialWorld [] 1 with store :=
              ((initialWorld [] 1).store.saveCurrentExtraction "d1"
                (marshalPayslip ⟨some "A", some "B", some "2024-01-01", some "2024-01-14", ⟨2, 0, 0⟩, ⟨1, 0, 0⟩, JNum.zero, none, ⟨75, 2, 0⟩⟩) ⟨75, 2, 0⟩) }
          ⟨"d1", "CORRECTED"⟩).2)
        "d1" ⟨marshalPayslip ⟨some "A", some "B", some "2024-01-01", some "2024-01-14", ⟨2, 0, 0⟩, ⟨1, 0, 0⟩, JNum.zero, none, ⟨75, 2, 0⟩⟩, ⟨75, 2, 0⟩⟩ := by
  constructor
  · exact C4_theorem.1 (initialWorld [] 1) "d1" "payslip" "t"
      ⟨"x", ⟨75, 2, 0⟩⟩ ⟨[], ⟨75, 2, 0⟩⟩ rfl (by norm_num [JNum.toRat])
  · obtain ⟨r, hr, hact⟩ := applyReviewerCorrection_ok (initialWorld [] 1)
      ⟨"d1", "payslip", marshalPayslip ⟨some "A", some "B", some "2024-01-01", some "2024-01-14", ⟨2, 0, 0⟩, ⟨1, 0, 0⟩, JNum.zero, none, ⟨75, 2, 0⟩⟩⟩ (marshalPayslip ⟨some "A", some "B", some "2024-01-01", some "2024-01-14", ⟨2, 0, 0⟩, ⟨1, 0, 0⟩, JNum.zero, none, ⟨75, 2, 0⟩⟩) ⟨75, 2, 0⟩
      (parseAndNormalizeStr_marshalPayslip ⟨some "A", some "B", some "2024-01-01", some "2024-01-14", ⟨2, 0, 0⟩, ⟨1, 0, 0⟩, JNum.zero, none, ⟨75, 2, 0⟩⟩)
    have hrv : r = ValidatePayslip ⟨some "A", some "B", some "2024-01-01", some "2024-01-14", ⟨2, 0, 0⟩, ⟨1, 0, 0⟩, JNum.zero, none, ⟨75, 2, 0⟩⟩ := by
      have h2 : validateByRulesStr "payslip" (marshalPayslip ⟨some "A", some "B", some "2024-01-01", some "2024-01-14", ⟨2, 0, 0⟩, ⟨1, 0, 0⟩, JNum.zero, none, ⟨75, 2, 0⟩⟩) =
          .ok (ValidatePayslip ⟨some "A", some "B", some "2024-01-01", some "2024-01-14", ⟨2, 0, 0⟩, ⟨1, 0, 0⟩, JNum.zero, none, ⟨75, 2, 0⟩⟩) := by
        simp [validateByRulesStr, validateByRules_marshalPayslip]
      rw [h2] at hr
      exact (Except.ok.inj hr).symm
    have hfr : r.failedRules = [] := by rw [hrv]; rfl
    rw [hfr] at hact
    exact C4_theorem.2.2 (initialWorld [] 1)
      { initialWorld [] 1 with store :=
          ((initialWorld [] 1).store.saveCurrentExtraction "d1"
            (marshalPayslip ⟨some "A", some "B", some "2024-01-01", some "2024-01-14", ⟨2, 0, 0⟩, ⟨1, 0, 0⟩, JNum.zero, none, ⟨75, 2, 0⟩⟩) ⟨75, 2, 0⟩) }
      "d1" "payslip" ⟨"x", ⟨75, 2, 0⟩⟩ ⟨["r"], ⟨75, 2, 0⟩⟩
      ⟨"correct", marshalPayslip ⟨some "A", some "B", some "2024-01-01", some "2024-01-14", ⟨2, 0, 0⟩, ⟨1, 0, 0⟩, JNum.zero, none, ⟨75, 2, 0⟩⟩, "rev", ""⟩ []
      ⟨marshalPayslip ⟨some "A", some "B", some "2024-01-01", some "2024-01-14", ⟨2, 0, 0⟩, ⟨1, 0, 0⟩, JNum.zero, none, ⟨75, 2, 0⟩⟩, ⟨75, 2, 0⟩, []⟩
      rfl hact (by rfl) (by norm_num [JNum.toRat]) (marshalPayslip_ne_empty _)

theorem lookupRow_updateRow_self {α : Type} (l : List (String × α)) (id : String)
    (f : α → α) : lookupRow (updateRow l id f) id = (lookupRow l id).map f := by
  induction l with
  | nil => rfl
  | cons p rest ih =>
    obtain ⟨k, v⟩ := p
    by_cases hk : k = id
    · simp [updateRow, lookupRow, hk]
    · simp [updateRow, lookupRow, hk, ih]

theorem lookupRow_append_single_none {α : Type} (l : List (String × α)) (id : String)
    (v : α) (h : lookupRow l id = none) :
    lookupRow (l ++ [(id, v)]) id = some v := by
  induction l with
  | nil => simp [lookupRow]
  | cons p rest ih =>
    obtain ⟨k, w⟩ := p
    by_cases hk : k = id
    · simp [lookupRow, hk] at h
    · simp only [lookupRow, hk, if_false, List.cons_append] at h ⊢
      exact ih h

theorem retryLoop_store : ∀ (n : ℕ) (w : World),
    (retryLoop w n).2.store = w.store ∧ (retryLoop w n).2.blobPuts = w.blobPuts := by
  intro n
  induction n with
  | zero => intro w; exact ⟨rfl, rfl⟩
  | succ n ih =>
    intro w
    unfold retryLoop completeJSON
    cases hllm : w.llm with
    | nil => exact ih w
    | cons r rest =>
      cases r with
      | none => exact ih { w with llm := rest }
      | some out => exact ⟨rfl, rfl⟩

theorem callOpenAIWithRetry_store (w : World) (p : Prompt) :
    (callOpenAIWithRetry w p).2.store = w.store ∧
    (callOpenAIWithRetry w p).2.blobPuts = w.blobPuts := by
  unfold callOpenAIWithRetry
  exact retryLoop_store _ _

theorem objectKey_ne_empty (a b : String) : a ++ "/" ++ b ≠ "" := by
  intro h
  have h2 := congrArg String.data h
  simp [String.data_append] at h2

/-- A stored non-empty current extraction short-circuits the extract
activity. -/
theorem extract_shortcircuit (w : World) (input : ExtractFieldsInput)
    (parsed : String) (conf : JNum) (hne : parsed ≠ "")
    (hget : w.store.getCurrentExtraction input.documentID = some (parsed, conf)) :
    ExtractFieldsWithOpenAIActivity w input = (.ok ⟨parsed, conf⟩, w) := by
  simp only [ExtractFieldsWithOpenAIActivity, hget]
  rw [if_pos hne]

/-- `callOpenAIWithRetry` leaves the document rows untouched. -/
theorem callOpenAIWithRetry_docs (w : World) (p : Prompt) :
    (callOpenAIWithRetry w p).2.store.docs = w.store.docs := by
  rw [(callOpenAIWithRetry_store w p).1]

/-- A successful ladder run returns a normalizer output and records it as
the document's current extraction. -/
theorem extractLadder_ok (w : World) (input : ExtractFieldsInput)
    (out : ExtractFieldsOutput) (w1 : World)
    (hrun : extractLadder w input = (.ok out, w1)) :
    (∃ raw, parseAndNormalizeStr input.docType raw =
      .ok (out.extractionJson, out.confidence)) ∧
    w1.store.docs = updateRow w.store.docs input.documentID
      (fun d => { d with
        currentJson := out.extractionJson,
        confidence := out.confidence, status := .extracted }) := by
  unfold extractLadder at hrun
  split at hrun
  case h_1 => exact absurd hrun (by simp)
  case h_2 base1 w2 heq1 =>
    have hd2 : w2.store.docs = w.store.docs := by
      have h := callOpenAIWithRetry_docs w (.base input.docType input.documentText)
      rw [heq1] at h
      exact h
    split at hrun
    case h_1 parsed conf heqp =>
      simp only [Prod.mk.injEq, Except.ok.injEq] at hrun
      obtain ⟨hout, hw1⟩ := hrun
      refine ⟨⟨base1, by rw [← hout]; exact heqp⟩, ?_⟩
      rw [← hw1, ← hout]
      simp [StoreState.insertAudit, StoreState.saveCurrentExtraction,
        StoreState.saveModelOutput, hd2]
    case h_2 e1 heqp1 =>
      (try simp only [] at hrun)
      split at hrun
      case h_1 => exact absurd hrun (by simp)
      case h_2 repair1 w3 heq2 =>
        have hd3 : w3.store.docs = w.store.docs := by
          have h := callOpenAIWithRetry_docs
            { w2 with store := (w2.store.saveModelOutput input.documentID
                "BASE_ATTEMPT_1" base1) } (.repair base1)
          rw [heq2] at h
          rw [h]
          simpa [StoreState.saveModelOutput] using hd2
        split at hrun
        case h_1 parsed conf heqp =>
          simp only [Prod.mk.injEq, Except.ok.injEq] at hrun
          obtain ⟨hout, hw1⟩ := hrun
          refine ⟨⟨repair1, by rw [← hout]; exact heqp⟩, ?_⟩
          rw [← hw1, ← hout]
          simp [StoreState.insertAudit, StoreState.saveCurrentExtraction,
            StoreState.saveModelOutput, hd3]
        case h_2 e2 heqp2 =>
          (try simp only [] at hrun)
          split at hrun
          case h_1 => exact absurd hrun (by simp)
          case h_2 base2 w5 heq3 =>
            have hd5 : w5.store.docs = w.store.docs := by
              have h := callOpenAIWithRetry_docs
                { w3 with store := (w3.store.saveModelOutput input.documentID
                    "REPAIR_ATTEMPT_1" repair1) } (.base input.docType input.documentText)
              rw [heq3] at h
              rw [h]
              simpa [StoreState.saveModelOutput] using hd3
            split at hrun
            case h_1 e3 heqp3 => exact absurd hrun (by simp)
            case h_2 parsed conf heqp =>
              simp only [Prod.mk.injEq, Except.ok.injEq] at hrun
              obtain ⟨hout, hw1⟩ := hrun
              refine ⟨⟨base2, by rw [← hout]; exact heqp⟩, ?_⟩
              rw [← hw1, ← hout]
              simp [StoreState.insertAudit, StoreState.saveCurrentExtraction,
                StoreState.saveModelOutput, hd5]

/-- Replaying the extract activity right after a successful fresh run
short-circuits on the saved extraction and changes nothing. -/
theorem extractLadder_replay (w : World) (input : ExtractFieldsInput)
    (out : ExtractFieldsOutput) (w1 : World) (rec : DocumentRecord)
    (hrec : w.store.getDocument input.documentID = some rec)
    (hrun : extractLadder w input = (.ok out, w1)) :
    ExtractFieldsWithOpenAIActivity w1 input = (.ok out, w1) := by
  obtain ⟨⟨raw, hpn⟩, hdocs⟩ := extractLadder_ok w input out w1 hrun
  have hne : out.extractionJson ≠ "" := (validate_of_normalized _ _ _ _ hpn).1
  have hget : w1.store.getCurrentExtraction input.documentID =
      some (out.extractionJson, out.confidence) := by
    show (match lookupRow w1.store.docs input.documentID with
      | none => none
      | some d => some (d.currentJson, d.confidence)) = _
    rw [hdocs, lookupRow_updateRow_self,
      show lookupRow w.store.docs input.documentID = some rec from hrec]
    rfl
  obtain ⟨ej, c⟩ := out
  exact extract_shortcircuit w1 input ej c hne hget

/-- C2 (amended): replay idempotence holds for StoreDocument (non-empty
content), DetectDocType and ExtractFields (once the document row exists)
— a second execution after a success leaves the world untouched — and
trivially for the I/O-free ValidateFields; ResolveReview, CorrectFields
and ApplyReviewerCorrection never write audit rows or blobs at all.  It
fails for QueueReview, PersistResult and RejectDocument: every execution
appends one audit row unconditionally, so a replay adds a second one.
StoreDocument also re-puts the blob when the stored raw text is empty. -/
theorem C2_theorem :
    (∀ (w : World) (input : StoreDocumentInput) (out : StoreDocumentOutput) (w1 : World),
      input.content ≠ "" →
      StoreDocumentActivity w input = (.ok out, w1) →
      ∃ out2, StoreDocumentActivity w1 input = (.ok out2, w1)) ∧
    (∀ (w : World) (input : DetectDocTypeInput) (out : DetectDocTypeOutput) (w1 : World),
      (∃ rec, w.store.getDocument input.documentID = some rec) →
      DetectDocTypeActivity w input = (.ok out, w1) →
      DetectDocTypeActivity w1 input = (.ok out, w1)) ∧
    (∀ (w : World) (input : ExtractFieldsInput) (out : ExtractFieldsOutput) (w1 : World),
      (∃ rec, w.store.getDocument input.documentID = some rec) →
      ExtractFieldsWithOpenAIActivity w input = (.ok out, w1) →
      ExtractFieldsWithOpenAIActivity w1 input = (.ok out, w1)) ∧
    (∀ (w : World) (input : ValidateFieldsInput),
      (ValidateFieldsActivity w input).2 = w) ∧
    (∀ (w : World) (input : ResolveReviewInput),
      ((ResolveReviewActivity w input).2.store.auditLog = w.store.auditLog ∧
       (ResolveReviewActivity w input).2.blobPuts = w.blobPuts)) ∧
    (∀ (w : World) (input : CorrectFieldsInput),
      ((CorrectFieldsWithOpenAIActivity w input).2.store.auditLog = w.store.auditLog ∧
       (CorrectFieldsWithOpenAIActivity w input).2.blobPuts = w.blobPuts)) ∧
    (∀ (w : World) (input : ApplyReviewerCorrectionInput),
      ((ApplyReviewerCorrectionActivity w input).2.store.auditLog = w.store.auditLog ∧
       (ApplyReviewerCorrectionActivity w input).2.blobPuts = w.blobPuts)) ∧
    (∀ (w : World) (input : QueueReviewInput),
      (QueueReviewActivity w input).2.store.auditLog.length =
        w.store.auditLog.length + 1) ∧
    (∀ (w : World) (input : PersistResultInput),
      (PersistResultActivity w input).2.store.auditLog.length =
        w.store.auditLog.length + 1) ∧
    (∀ (w : World) (input : RejectDocumentInput),
      (RejectDocumentActivity w input).2.store.auditLog.length =
        w.store.auditLog.length + 1) := by
  refine ⟨?_, ?_, ?_, ?_, ?_, ?_, ?_, ?_, ?_, ?_⟩
  · -- StoreDocument
    intro w input out w1 hc hrun
    simp only [StoreDocumentActivity] at hrun ⊢
    split at hrun
    case h_1 existing heq =>
      split at hrun
      case isTrue hcond =>
        simp only [Prod.mk.injEq, Except.ok.injEq] at hrun
        obtain ⟨hout, hw1⟩ := hrun
        subst hw1
        simp only [heq]
        rw [if_pos hcond]
        exact ⟨_, rfl⟩
      case isFalse hcond =>
        simp only [Prod.mk.injEq, Except.ok.injEq] at hrun
        obtain ⟨hout, hw1⟩ := hrun
        have hdocs : w1.store.docs = updateRow w.store.docs input.documentID
            (fun _ => { existing with
              filename := input.filename,
              objectKey := if existing.objectKey = "" then
                input.documentID ++ "/" ++ input.filename else existing.objectKey,
              rawText := if existing.rawText = "" then input.content else existing.rawText,
              docType := if existing.docType = "unknown" then "unknown" else existing.docType,
              status := .stored }) := by
          rw [← hw1]
          simp [StoreState.insertAudit, StoreState.upsertDocument,
            show lookupRow w.store.docs input.documentID = some existing from heq]
        have hget1 : w1.store.getDocument input.documentID = some
            { existing with
              filename := input.filename,
              objectKey := if existing.objectKey = "" then
                input.documentID ++ "/" ++ input.filename else existing.objectKey,
              rawText := if existing.rawText = "" then input.content else existing.rawText,
              docType := if existing.docType = "unknown" then "unknown" else existing.docType,
              status := .stored } := by
          show lookupRow w1.store.docs input.documentID = _
          rw [hdocs, lookupRow_updateRow_self]
          rw [show lookupRow w.store.docs input.documentID = some existing from heq]
          rfl
        simp only [hget1]
        rw [if_pos ?_]
        · exact ⟨_, rfl⟩
        · constructor
          · split
            · exact objectKey_ne_empty _ _
            · assumption
          · split
            · exact hc
            · assumption
    case h_2 heq =>
      simp only [Prod.mk.injEq, Except.ok.injEq] at hrun
      obtain ⟨hout, hw1⟩ := hrun
      have hget1 : w1.store.getDocument input.documentID = some
          ⟨input.documentID, input.filename, input.documentID ++ "/" ++ input.filename,
           input.content, "unknown", .stored, "", "", JNum.zero, none⟩ := by
        rw [← hw1]
        show lookupRow _ input.documentID = _
        simp only [StoreState.insertAudit, StoreState.upsertDocument,
          show lookupRow w.store.docs input.documentID = none from heq]
        exact lookupRow_append_single_none _ _ _ heq
      simp only [hget1]
      rw [if_pos ⟨objectKey_ne_empty _ _, hc⟩]
      exact ⟨_, rfl⟩
  · -- DetectDocType
    intro w input out w1 hrow hrun
    obtain ⟨rec, hrec⟩ := hrow
    simp only [DetectDocTypeActivity] at hrun ⊢
    split at hrun
    case h_1 existing heq =>
      split at hrun
      case isTrue hcond =>
        simp only [Prod.mk.injEq, Except.ok.injEq] at hrun
        obtain ⟨hout, hw1⟩ := hrun
        subst hw1
        simp only [heq]
        rw [if_pos hcond]
        rw [hout]
      case isFalse hcond =>
        simp only [Prod.mk.injEq, Except.ok.injEq] at hrun
        obtain ⟨hout, hw1⟩ := hrun
        have hget1 : w1.store.getDocument input.documentID = some
            { existing with
              docType := detectDocType input.documentText input.filename,
              status := .classified } := by
          rw [← hw1]
          show lookupRow _ input.documentID = _
          simp only [StoreState.insertAudit, StoreState.updateDocumentClassification]
          rw [lookupRow_updateRow_self,
            show lookupRow w.store.docs input.documentID = some existing from heq]
          rfl
        have hne1 : detectDocType input.documentText input.filename ≠ "" := by
          unfold detectDocType
          simp only []
          split
          · decide
          · split <;> decide
        have hne2 : detectDocType input.documentText input.filename ≠ "unknown" := by
          unfold detectDocType
          simp only []
          split
          · decide
          · split <;> decide
        simp only [hget1]
        rw [if_pos ⟨hne1, hne2⟩]
        rw [hout]
    case h_2 heq =>
      rw [show w.store.getDocument input.documentID =
        lookupRow w.store.docs input.documentID from rfl] at heq
      rw [show w.store.getDocument input.documentID =
        lookupRow w.store.docs input.documentID from rfl] at hrec
      rw [heq] at hrec
      exact Option.noConfusion hrec
  · -- ExtractFields
    intro w input out w1 hrow hrun
    obtain ⟨rec, hrec⟩ := hrow
    simp only [ExtractFieldsWithOpenAIActivity] at hrun ⊢
    split at hrun
    case h_1 existing confidence heq =>
      split at hrun
      case isTrue hcond =>
        simp only [Prod.mk.injEq, Except.ok.injEq] at hrun
        obtain ⟨hout, hw1⟩ := hrun
        subst hw1
        simp only [heq]
        rw [if_pos hcond]
        rw [hout]
      case isFalse hcond =>
        exact extractLadder_replay w input out w1 rec hrec hrun
    case h_2 heq =>
      rw [show w.store.getCurrentExtraction input.documentID =
        (match lookupRow w.store.docs input.documentID with
          | none => none
          | some d => some (d.currentJson, d.confidence)) from rfl] at heq
      rw [show w.store.getDocument input.documentID =
        lookupRow w.store.docs input.documentID from rfl] at hrec
      rw [hrec] at heq
      exact Option.noConfusion heq
  · intro w input
    simp only [ValidateFieldsActivity]
    split <;> rfl
  · intro w input
    exact ⟨rfl, rfl⟩
  · -- CorrectFields
    intro w input
    simp only [CorrectFieldsWithOpenAIActivity]
    split
    case h_1 e w2 heq =>
      have h := callOpenAIWithRetry_store w
        (.correct input.docType input.documentText input.currentJson input.failedRules)
      rw [heq] at h
      exact ⟨congrArg StoreState.auditLog h.1, h.2⟩
    case h_2 modelOutput w2 heq =>
      have h := callOpenAIWithRetry_store w
        (.correct input.docType input.documentText input.currentJson input.failedRules)
      rw [heq] at h
      have haud : w2.store.auditLog = w.store.auditLog := congrArg StoreState.auditLog h.1
      split
      · exact ⟨haud, h.2⟩
      · exact ⟨haud, h.2⟩
  · -- ApplyReviewerCorrection
    intro w input
    simp only [ApplyReviewerCorrectionActivity]
    split
    · exact ⟨rfl, rfl⟩
    · split <;> exact ⟨rfl, rfl⟩
  · intro w input
    simp [QueueReviewActivity, StoreState.insertAudit, StoreState.queueReview]
    split <;> rfl
  · intro w input
    simp [PersistResultActivity, StoreState.insertAudit, StoreState.resolveReview,
      StoreState.saveFinalResult]
  · intro w input
    simp [RejectDocumentActivity, StoreState.insertAudit, StoreState.resolveReview,
      StoreState.saveFinalResult]

/-- C2 counterexample: replaying `QueueReview` with identical inputs after
a prior successful execution appends a second audit row, and replaying
`StoreDocument` on an empty document re-puts the blob — the activities are
not idempotent in the spec's sense. -/
theorem C2_counterexample :
    (QueueReviewActivity (initialWorld [] 1) ⟨"d1", ["r"], "x"⟩).1 = .ok () ∧
    ((QueueReviewActivity ((QueueReviewActivity (initialWorld [] 1)
        ⟨"d1", ["r"], "x"⟩).2) ⟨"d1", ["r"], "x"⟩).2).store.auditLog.length =
      ((QueueReviewActivity (initialWorld [] 1)
        ⟨"d1", ["r"], "x"⟩).2).store.auditLog.length + 1 ∧
    (StoreDocumentActivity (initialWorld [] 1) ⟨"d2", "f", ""⟩).1 =
      .ok ⟨"d2/f", ""⟩ ∧
    ((StoreDocumentActivity ((StoreDocumentActivity (initialWorld [] 1)
        ⟨"d2", "f", ""⟩).2) ⟨"d2", "f", ""⟩).2).blobPuts.length =
      ((StoreDocumentActivity (initialWorld [] 1)
        ⟨"d2", "f", ""⟩).2).blobPuts.length + 1 :=
  ⟨rfl, rfl, rfl, rfl⟩

/-- C2 witness: a concrete `StoreDocument` replay that changes nothing,
and a concrete `QueueReview` execution that appends one audit row. -/
theorem C2_witness :
    (∃ out2, StoreDocumentActivity
        ⟨⟨[("d1", ⟨"d1", "f.txt", "d1/f.txt", "hello", "unknown", .stored, "", "",
            JNum.zero, none⟩)], [],
          [("d1", .stored, .obj [("object_key", .str "d1/f.txt")])], []⟩,
         [("d1", "f.txt", "hello")], [], [], 1⟩
        ⟨"d1", "f.txt", "hello"⟩ =
      (.ok out2,
        ⟨⟨[("d1", ⟨"d1", "f.txt", "d1/f.txt", "hello", "unknown", .stored, "", "",
            JNum.zero, none⟩)], [],
          [("d1", .stored, .obj [("object_key", .str "d1/f.txt")])], []⟩,
         [("d1", "f.txt", "hello")], [], [], 1⟩)) ∧
    (QueueReviewActivity (initialWorld [] 1) ⟨"d1", ["r"], "x"⟩).2.store.auditLog.length =
      (initialWorld [] 1).store.auditLog.length + 1 := by
  constructor
  · exact C2_theorem.1 (initialWorld [] 1) ⟨"d1", "f.txt", "hello"⟩
      ⟨"d1/f.txt", "hello"⟩
      ⟨⟨[("d1", ⟨"d1", "f.txt", "d1/f.txt", "hello", "unknown", .stored, "", "",
          JNum.zero, none⟩)], [],
        [("d1", .stored, .obj [("object_key", .str "d1/f.txt")])], []⟩,
       [("d1", "f.txt", "hello")], [], [], 1⟩
      (by decide) (by rfl)
  · exact C2_theorem.2.2.2.2.2.2.2.1 (initialWorld [] 1) ⟨"d1", ["r"], "x"⟩

theorem retryLoop_requests : ∀ (n : ℕ) (w : World),
    (retryLoop w n).2.llmRequests = w.llmRequests := by
  intro n
  induction n with
  | zero => intro w; rfl
  | succ n ih =>
    intro w
    unfold retryLoop completeJSON
    cases hllm : w.llm with
    | nil => exact ih w
    | cons r rest =>
      cases r with
      | none => exact ih { w with llm := rest }
      | some out => rfl

theorem retryLoop_error : ∀ (n : ℕ) (w : World) (e : GoError),
    (retryLoop w n).1 = .error e → e = .openaiRetryExhausted := by
  intro n
  induction n with
  | zero =>
    intro w e h
    simp only [retryLoop] at h
    exact (Except.error.inj h).symm
  | succ n ih =>
    intro w e h
    unfold retryLoop completeJSON at h
    cases hllm : w.llm with
    | nil =>
      rw [hllm] at h
      exact ih _ _ h
    | cons r rest =>
      rw [hllm] at h
      cases r with
      | none => exact ih _ _ h
      | some out => exact absurd h (by simp)

theorem callOpenAIWithRetry_requests (w : World) (p : Prompt) :
    (callOpenAIWithRetry w p).2.llmRequests = w.llmRequests ++ [p] := by
  unfold callOpenAIWithRetry
  rw [retryLoop_requests]

theorem callOpenAIWithRetry_error (w : World) (p : Prompt) (e : GoError)
    (h : (callOpenAIWithRetry w p).1 = .error e) : e = .openaiRetryExhausted := by
  unfold callOpenAIWithRetry at h
  exact retryLoop_error _ _ _ h

/-- C3: the extract activity returns an existing non-empty current
extraction with no LLM call; otherwise it runs at most three LLM calls in
the fixed order base, repair(base1), base, persists each raw output under
its phase tag (`BASE_ATTEMPT_1`, `REPAIR_ATTEMPT_1`, `BASE_ATTEMPT_2`)
before attempting normalization — the rows survive even when the run ends
in an error —, returns at the first successful normalization, and fails
with the ladder-exhausted error wrapping the last parse error only after
all three normalizations fail. -/
theorem C3_theorem :
    (∀ (w : World) (input : ExtractFieldsInput) (existing : String) (confidence : JNum),
      w.store.getCurrentExtraction input.documentID = some (existing, confidence) →
      existing ≠ "" →
      ExtractFieldsWithOpenAIActivity w input = (.ok ⟨existing, confidence⟩, w)) ∧
    (∀ (w : World) (input : ExtractFieldsInput),
      (w.store.getCurrentExtraction input.documentID = none ∨
        ∃ c, w.store.getCurrentExtraction input.documentID = some ("", c)) →
      ∃ outs : List String,
        outs.length ≤ 3 ∧
        (ExtractFieldsWithOpenAIActivity w input).2.store.attempts =
          w.store.attempts ++
            (List.zip ["BASE_ATTEMPT_1", "REPAIR_ATTEMPT_1", "BASE_ATTEMPT_2"] outs).map
              (fun p => (input.documentID, p.1, p.2)) ∧
        (∃ n : ℕ, outs.length ≤ n ∧ n ≤ outs.length + 1 ∧ n ≤ 3 ∧
          (ExtractFieldsWithOpenAIActivity w input).2.llmRequests =
            w.llmRequests ++
              (List.take n [.base input.docType input.documentText,
                .repair (outs.headD ""), .base input.docType input.documentText])) ∧
        (∀ o ∈ outs.dropLast, ∃ e, parseAndNormalizeStr input.docType o = .error e) ∧
        (match (ExtractFieldsWithOpenAIActivity w input).1 with
         | .ok out => ∃ last, outs.getLast? = some last ∧
             parseAndNormalizeStr input.docType last =
               .ok (out.extractionJson, out.confidence)
         | .error (.ladderExhausted e) => outs.length = 3 ∧
             ∃ last, outs.getLast? = some last ∧
               parseAndNormalizeStr input.docType last = .error e
         | .error .openaiRetryExhausted =>
             ∀ o ∈ outs, ∃ e, parseAndNormalizeStr input.docType o = .error e
         | .error (.norm _) => False)) := by
  constructor
  · intro w input existing confidence hget hne
    exact extract_shortcircuit w input existing confidence hne hget
  · intro w input hfresh
    have hact : ExtractFieldsWithOpenAIActivity w input = extractLadder w input := by
      rcases hfresh with h | ⟨c, h⟩
      · simp only [ExtractFieldsWithOpenAIActivity, h]
      · simp only [ExtractFieldsWithOpenAIActivity, h]
        rw [if_neg (by simp)]
    rcases h1 : callOpenAIWithRetry w (.base input.docType input.documentText) with ⟨r1, wa⟩
    have hwa : wa.store = w.store ∧ wa.llmRequests =
        w.llmRequests ++ [.base input.docType input.documentText] := by
      have hs := (callOpenAIWithRetry_store w (.base input.docType input.documentText)).1
      have hr := callOpenAIWithRetry_requests w (.base input.docType input.documentText)
      rw [h1] at hs hr
      exact ⟨hs, hr⟩
    rcases r1 with e1 | base1
    · -- transport failure on the first base call
      have he1 : e1 = .openaiRetryExhausted := by
        have := callOpenAIWithRetry_error w (.base input.docType input.documentText) e1
        rw [h1] at this
        exact this rfl
      have hlad : extractLadder w input = (.error e1, wa) := by
        unfold extractLadder
        rw [h1]
      refine ⟨[], by simp, ?_, ⟨1, by simp, by simp, by simp, ?_⟩, by simp, ?_⟩
      · rw [hact, hlad]
        simp [hwa.1]
      · rw [hact, hlad]
        simp [hwa.2]
      · rw [hact, hlad, he1]
        simp
    · rcases hp1 : parseAndNormalizeStr input.docType base1 with e1 | pc1
      · -- base1 fails to normalize: repair call
        rcases h2 : callOpenAIWithRetry
            { wa with store := (wa.store.saveModelOutput input.documentID
              "BASE_ATTEMPT_1" base1) } (.repair base1) with ⟨r2, wb⟩
        have hwb : wb.store = (wa.store.saveModelOutput input.documentID
            "BASE_ATTEMPT_1" base1) ∧
            wb.llmRequests = w.llmRequests ++
              [.base input.docType input.documentText, .repair base1] := by
          have hs := (callOpenAIWithRetry_store
            { wa with store := (wa.store.saveModelOutput input.documentID
              "BASE_ATTEMPT_1" base1) } (.repair base1)).1
          have hr := callOpenAIWithRetry_requests
            { wa with store := (wa.store.saveModelOutput input.documentID
              "BASE_ATTEMPT_1" base1) } (.repair base1)
          rw [h2] at hs hr
          refine ⟨hs, ?_⟩
          rw [hr]
          show wa.llmRequests ++ [Prompt.repair base1] = _
          rw [hwa.2, List.append_assoc]
          rfl
        rcases r2 with e2 | repair1
        · -- transport failure on the repair call
          have he2 : e2 = .openaiRetryExhausted := by
            have := callOpenAIWithRetry_error
              { wa with store := (wa.store.saveModelOutput input.documentID
                "BASE_ATTEMPT_1" base1) } (.repair base1) e2
            rw [h2] at this
            exact this rfl
          have hlad : extractLadder w input = (.error e2, wb) := by
            unfold extractLadder
            rw [h1]
            simp only [hp1, h2]
          refine ⟨[base1], by simp, ?_, ⟨2, by simp, by simp, by simp, ?_⟩,
            by simp, ?_⟩
          · rw [hact, hlad]
            simp [hwb.1, StoreState.saveModelOutput, hwa.1]
          · rw [hact, hlad]
            rw [hwb.2]
            rfl
          · rw [hact, hlad, he2]
            intro o ho
            simp only [List.mem_singleton] at ho
            exact ⟨e1, ho ▸ hp1⟩
        · rcases hp2 : parseAndNormalizeStr input.docType repair1 with e2 | pc2
          · -- repair1 fails to normalize: second base call
            rcases h3 : callOpenAIWithRetry
                { wb with store := (wb.store.saveModelOutput input.documentID
                  "REPAIR_ATTEMPT_1" repair1) }
                (.base input.docType input.documentText) with ⟨r3, wc⟩
            have hwc : wc.store = (wb.store.saveModelOutput input.documentID
                "REPAIR_ATTEMPT_1" repair1) ∧
                wc.llmRequests = w.llmRequests ++
                  [.base input.docType input.documentText, .repair base1,
                    .base input.docType input.documentText] := by
              have hs := (callOpenAIWithRetry_store
                { wb with store := (wb.store.saveModelOutput input.documentID
                  "REPAIR_ATTEMPT_1" repair1) }
                (.base input.docType input.documentText)).1
              have hr := callOpenAIWithRetry_requests
                { wb with store := (wb.store.saveModelOutput input.documentID
                  "REPAIR_ATTEMPT_1" repair1) }
                (.base input.docType input.documentText)
              rw [h3] at hs hr
              refine ⟨hs, ?_⟩
              rw [hr]
              show wb.llmRequests ++ [Prompt.base input.docType input.documentText] = _
              rw [hwb.2, List.append_assoc]
              rfl
            rcases r3 with e3 | base2
            · have he3 : e3 = .openaiRetryExhausted := by
                have := callOpenAIWithRetry_error
                  { wb with store := (wb.store.saveModelOutput input.documentID
                    "REPAIR_ATTEMPT_1" repair1) }
                  (.base input.docType input.documentText) e3
                rw [h3] at this
                exact this rfl
              have hlad : extractLadder w input = (.error e3, wc) := by
                unfold extractLadder
                rw [h1]
                simp only [hp1, h2, hp2, h3]
              refine ⟨[base1, repair1], by simp, ?_, ⟨3, by simp, by simp, by simp, ?_⟩,
                ?_, ?_⟩
              · rw [hact, hlad]
                simp [hwc.1, StoreState.saveModelOutput, hwb.1, hwa.1]
              · rw [hact, hlad]
                rw [hwc.2]
                rfl
              · intro o ho
                simp only [List.dropLast, List.mem_singleton] at ho
                exact ⟨e1, ho ▸ hp1⟩
              · rw [hact, hlad, he3]
                intro o ho
                simp only [List.mem_cons, List.mem_singleton, List.not_mem_nil,
                  or_false] at ho
                rcases ho with rfl | rfl
                · exact ⟨e1, hp1⟩
                · exact ⟨e2, hp2⟩
            · rcases hp3 : parseAndNormalizeStr input.docType base2 with e3 | pc3
              · -- the whole ladder is exhausted
                have hlad : extractLadder w input = (.error (.ladderExhausted e3),
                    { wc with store := (wc.store.saveModelOutput input.documentID
                      "BASE_ATTEMPT_2" base2) }) := by
                  unfold extractLadder
                  rw [h1]
                  simp only [hp1, h2, hp2, h3, hp3]
                refine ⟨[base1, repair1, base2], by simp, ?_,
                  ⟨3, by simp, by simp, by simp, ?_⟩, ?_, ?_⟩
                · rw [hact, hlad]
                  simp [StoreState.saveModelOutput, hwc.1, hwb.1, hwa.1]
                · rw [hact, hlad]
                  show wc.llmRequests = _
                  rw [hwc.2]
                  rfl
                · intro o ho
                  simp only [List.dropLast, List.mem_cons, List.mem_singleton,
                    List.not_mem_nil, or_false] at ho
                  rcases ho with rfl | rfl
                  · exact ⟨e1, hp1⟩
                  · exact ⟨e2, hp2⟩
                · rw [hact, hlad]
                  exact ⟨rfl, base2, rfl, hp3⟩
              · -- base2 normalizes
                obtain ⟨parsed, conf⟩ := pc3
                have hlad : extractLadder w input = (.ok ⟨parsed, conf⟩,
                    { wc with store := ((((wc.store.saveModelOutput input.documentID
                        "BASE_ATTEMPT_2" base2).saveCurrentExtraction input.documentID
                        parsed conf).insertAudit input.documentID .extracted
                        (.obj [("path", .str "base_2")]))) }) := by
                  unfold extractLadder
                  rw [h1]
                  simp only [hp1, h2, hp2, h3, hp3]
                refine ⟨[base1, repair1, base2], by simp, ?_,
                  ⟨3, by simp, by simp, by simp, ?_⟩, ?_, ?_⟩
                · rw [hact, hlad]
                  simp [StoreState.saveModelOutput, StoreState.saveCurrentExtraction,
                    StoreState.insertAudit, hwc.1, hwb.1, hwa.1]
                · rw [hact, hlad]
                  show wc.llmRequests = _
                  rw [hwc.2]
                  rfl
                · intro o ho
                  simp only [List.dropLast, List.mem_cons, List.mem_singleton,
                    List.not_mem_nil, or_false] at ho
                  rcases ho with rfl | rfl
                  · exact ⟨e1, hp1⟩
                  · exact ⟨e2, hp2⟩
                · rw [hact, hlad]
                  exact ⟨base2, rfl, hp3⟩
          · -- repair1 normalizes
            obtain ⟨parsed, conf⟩ := pc2
            have hlad : extractLadder w input = (.ok ⟨parsed, conf⟩,
                { wb with store := ((((wb.store.saveModelOutput input.documentID
                    "REPAIR_ATTEMPT_1" repair1).saveCurrentExtraction input.documentID
                    parsed conf).insertAudit input.documentID .extracted
                    (.obj [("path", .str "repair_1")]))) }) := by
              unfold extractLadder
              rw [h1]
              simp only [hp1, h2, hp2]
            refine ⟨[base1, repair1], by simp, ?_, ⟨2, by simp, by simp, by simp, ?_⟩,
              ?_, ?_⟩
            · rw [hact, hlad]
              simp [StoreState.saveModelOutput, StoreState.saveCurrentExtraction,
                StoreState.insertAudit, hwb.1, hwa.1]
            · rw [hact, hlad]
              show wb.llmRequests = _
              rw [hwb.2]
              rfl
            · intro o ho
              simp only [List.dropLast, List.mem_singleton] at ho
              exact ⟨e1, ho ▸ hp1⟩
            · rw [hact, hlad]
              exact ⟨repair1, rfl, hp2⟩
      · -- base1 normalizes
        obtain ⟨parsed, conf⟩ := pc1
        have hlad : extractLadder w input = (.ok ⟨parsed, conf⟩,
            { wa with store := ((((wa.store.saveModelOutput input.documentID
                "BASE_ATTEMPT_1" base1).saveCurrentExtraction input.documentID
                parsed conf).insertAudit input.documentID .extracted
                (.obj [("path", .str "base_1")]))) }) := by
          unfold extractLadder
          rw [h1]
          simp only [hp1]
        refine ⟨[base1], by simp, ?_, ⟨1, by simp, by simp, by simp, ?_⟩,
          by simp, ?_⟩
        · rw [hact, hlad]
          simp [StoreState.saveModelOutput, StoreState.saveCurrentExtraction,
            StoreState.insertAudit, hwa.1]
        · rw [hact, hlad]
          show wa.llmRequests = _
          rw [hwa.2]
          rfl
        · rw [hact, hlad]
          exact ⟨base1, rfl, hp1⟩

/-- C3 witness: the fresh-extraction characterization instantiated on an
empty store. -/
theorem C3_witness :
    ∃ outs : List String,
      outs.length ≤ 3 ∧
      (ExtractFieldsWithOpenAIActivity (initialWorld [] 1)
          ⟨"d1", "payslip", "t"⟩).2.store.attempts =
        (initialWorld [] 1).store.attempts ++
          (List.zip ["BASE_ATTEMPT_1", "REPAIR_ATTEMPT_1", "BASE_ATTEMPT_2"] outs).map
            (fun p => ("d1", p.1, p.2)) ∧
      (∃ n : ℕ, outs.length ≤ n ∧ n ≤ outs.length + 1 ∧ n ≤ 3 ∧
        (ExtractFieldsWithOpenAIActivity (initialWorld [] 1)
            ⟨"d1", "payslip", "t"⟩).2.llmRequests =
          (initialWorld [] 1).llmRequests ++
            (List.take n [.base "payslip" "t", .repair (outs.headD ""),
              .base "payslip" "t"])) ∧
      (∀ o ∈ outs.dropLast, ∃ e, parseAndNormalizeStr "payslip" o = .error e) ∧
      (match (ExtractFieldsWithOpenAIActivity (initialWorld [] 1)
          ⟨"d1", "payslip", "t"⟩).1 with
       | .ok out => ∃ last, outs.getLast? = some last ∧
           parseAndNormalizeStr "payslip" last =
             .ok (out.extractionJson, out.confidence)
       | .error (.ladderExhausted e) => outs.length = 3 ∧
           ∃ last, outs.getLast? = some last ∧
             parseAndNormalizeStr "payslip" last = .error e
       | .error .openaiRetryExhausted =>
           ∀ o ∈ outs, ∃ e, parseAndNormalizeStr "payslip" o = .error e
       | .error (.norm _) => False) :=
  C3_theorem.2 (initialWorld [] 1) ⟨"d1", "payslip", "t"⟩ (Or.inl rfl)

/-- A failed ladder run leaves the document rows untouched. -/
theorem extractLadder_error_docs (w : World) (input : ExtractFieldsInput)
    (e : GoError) (w1 : World)
    (hrun : extractLadder w input = (.error e, w1)) :
    w1.store.docs = w.store.docs := by
  unfold extractLadder at hrun
  split at hrun
  case h_1 e1 wa heq1 =>
    simp only [Prod.mk.injEq] at hrun
    rw [← hrun.2]
    have h := callOpenAIWithRetry_docs w (.base input.docType input.documentText)
    rw [heq1] at h
    exact h
  case h_2 base1 wa heq1 =>
    have hda : wa.store.docs = w.store.docs := by
      have h := callOpenAIWithRetry_docs w (.base input.docType input.documentText)
      rw [heq1] at h
      exact h
    split at hrun
    case h_1 => exact absurd hrun (by simp)
    case h_2 e1 hp1 =>
      (try simp only [] at hrun)
      split at hrun
      case h_1 e2 wb heq2 =>
        simp only [Prod.mk.injEq] at hrun
        rw [← hrun.2]
        have h := callOpenAIWithRetry_docs
          { wa with store := (wa.store.saveModelOutput input.documentID
            "BASE_ATTEMPT_1" base1) } (.repair base1)
        rw [heq2] at h
        rw [h]
        exact hda
      case h_2 repair1 wb heq2 =>
        have hdb : wb.store.docs = w.store.docs := by
          have h := callOpenAIWithRetry_docs
            { wa with store := (wa.store.saveModelOutput input.documentID
              "BASE_ATTEMPT_1" base1) } (.repair base1)
          rw [heq2] at h
          rw [h]
          exact hda
        split at hrun
        case h_1 => exact absurd hrun (by simp)
        case h_2 e2 hp2 =>
          (try simp only [] at hrun)
          split at hrun
          case h_1 e3 wc heq3 =>
            simp only [Prod.mk.injEq] at hrun
            rw [← hrun.2]
            have h := callOpenAIWithRetry_docs
              { wb with store := (wb.store.saveModelOutput input.documentID
                "REPAIR_ATTEMPT_1" repair1) } (.base input.docType input.documentText)
            rw [heq3] at h
            rw [h]
            exact hdb
          case h_2 base2 wc heq3 =>
            have hdc : wc.store.docs = w.store.docs := by
              have h := callOpenAIWithRetry_docs
                { wb with store := (wb.store.saveModelOutput input.documentID
                  "REPAIR_ATTEMPT_1" repair1) } (.base input.docType input.documentText)
              rw [heq3] at h
              rw [h]
              exact hdb
            split at hrun
            case h_1 e3 hp3 =>
              simp only [Prod.mk.injEq] at hrun
              rw [← hrun.2]
              exact hdc
            case h_2 => exact absurd hrun (by simp)

/-- An extract-activity error can only come from the ladder, whose error
paths never touch the document rows. -/
theorem extractFields_error_docs (w : World) (input : ExtractFieldsInput)
    (e : GoError) (w1 : World)
    (hrun : ExtractFieldsWithOpenAIActivity w input = (.error e, w1)) :
    w1.store.docs = w.store.docs := by
  simp only [ExtractFieldsWithOpenAIActivity] at hrun
  split at hrun
  case h_1 existing confidence heq =>
    split at hrun
    · exact absurd hrun (by simp)
    · exact extractLadder_error_docs w input e w1 hrun
  case h_2 heq => exact extractLadder_error_docs w input e w1 hrun

/-- C8 (amended): when all three normalizations fail the extract activity
fails with `ladderExhausted` wrapping the LAST parse error (all three raw
outputs being persisted); an extract-activity error fails the whole
workflow with that very error; and the document row is left untouched by
the failure — its status stays whatever it was (`CLASSIFIED` in the
pipeline), never `FAILED`, which no component ever writes. -/
theorem C8_theorem :
    (∀ (w : World) (input : ExtractFieldsInput) (e : GoError) (w1 : World),
      extractLadder w input = (.error e, w1) →
      e = .openaiRetryExhausted ∨
      ∃ base1 repair1 base2 e1 e2 e3,
        e = .ladderExhausted e3 ∧
        parseAndNormalizeStr input.docType base1 = .error e1 ∧
        parseAndNormalizeStr input.docType repair1 = .error e2 ∧
        parseAndNormalizeStr input.docType base2 = .error e3 ∧
        w1.store.attempts = w.store.attempts ++
          [(input.documentID, "BASE_ATTEMPT_1", base1),
           (input.documentID, "REPAIR_ATTEMPT_1", repair1),
           (input.documentID, "BASE_ATTEMPT_2", base2)]) ∧
    (∀ (w : World) (input : WorkflowInput) (signals : List ReviewDecisionSignal)
        (stored : StoreDocumentOutput) (detected : DetectDocTypeOutput)
        (e : GoError) (w1 w2 w3 : World),
      StoreDocumentActivity w ⟨input.documentID, input.filename, input.content⟩ =
        (.ok stored, w1) →
      DetectDocTypeActivity w1 ⟨input.documentID, input.filename, stored.documentText⟩ =
        (.ok detected, w2) →
      ExtractFieldsWithOpenAIActivity w2
          ⟨input.documentID, detected.docType, stored.documentText⟩ =
        (.error e, w3) →
      DocumentIntakeWorkflow w input signals = (.failed e, w3)) ∧
    (∀ (w : World) (input : ExtractFieldsInput) (e : GoError) (w1 : World)
        (rec : DocumentRecord),
      ExtractFieldsWithOpenAIActivity w input = (.error e, w1) →
      w.store.getDocument input.documentID = some rec →
      w1.store.getDocument input.documentID = some rec) := by
  refine ⟨?_, ?_, ?_⟩
  · intro w input e w1 hrun
    unfold extractLadder at hrun
    split at hrun
    case h_1 e1 wa heq1 =>
      simp only [Prod.mk.injEq, Except.error.injEq] at hrun
      left
      have h := callOpenAIWithRetry_error w (.base input.docType input.documentText) e1
      rw [heq1] at h
      rw [← hrun.1]
      exact h rfl
    case h_2 base1 wa heq1 =>
      have hda : wa.store.attempts = w.store.attempts := by
        have h := (callOpenAIWithRetry_store w (.base input.docType input.documentText)).1
        rw [heq1] at h
        rw [h]
      split at hrun
      case h_1 => exact absurd hrun (by simp)
      case h_2 e1 hp1 =>
        (try simp only [] at hrun)
        split at hrun
        case h_1 e2 wb heq2 =>
          simp only [Prod.mk.injEq, Except.error.injEq] at hrun
          left
          have h := callOpenAIWithRetry_error
            { wa with store := (wa.store.saveModelOutput input.documentID
              "BASE_ATTEMPT_1" base1) } (.repair base1) e2
          rw [heq2] at h
          rw [← hrun.1]
          exact h rfl
        case h_2 repair1 wb heq2 =>
          have hdb : wb.store.attempts = w.store.attempts ++
              [(input.documentID, "BASE_ATTEMPT_1", base1)] := by
            have h := (callOpenAIWithRetry_store
              { wa with store := (wa.store.saveModelOutput input.documentID
                "BASE_ATTEMPT_1" base1) } (.repair base1)).1
            rw [heq2] at h
            rw [h]
            simp [StoreState.saveModelOutput, hda]
          split at hrun
          case h_1 => exact absurd hrun (by simp)
          case h_2 e2 hp2 =>
            (try simp only [] at hrun)
            split at hrun
            case h_1 e3 wc heq3 =>
              simp only [Prod.mk.injEq, Except.error.injEq] at hrun
              left
              have h := callOpenAIWithRetry_error
                { wb with store := (wb.store.saveModelOutput input.documentID
                  "REPAIR_ATTEMPT_1" repair1) } (.base input.docType input.documentText) e3
              rw [heq3] at h
              rw [← hrun.1]
              exact h rfl
            case h_2 base2 wc heq3 =>
              have hdc : wc.store.attempts = w.store.attempts ++
                  [(input.documentID, "BASE_ATTEMPT_1", base1),
                   (input.documentID, "REPAIR_ATTEMPT_1", repair1)] := by
                have h := (callOpenAIWithRetry_store
                  { wb with store := (wb.store.saveModelOutput input.documentID
                    "REPAIR_ATTEMPT_1" repair1) }
                  (.base input.docType input.documentText)).1
                rw [heq3] at h
                rw [h]
                simp [StoreState.saveModelOutput, hdb]
              split at hrun
              case h_1 e3 hp3 =>
                simp only [Prod.mk.injEq, Except.error.injEq] at hrun
                right
                refine ⟨base1, repair1, base2, e1, e2, e3, hrun.1.symm, hp1, hp2, hp3, ?_⟩
                rw [← hrun.2]
                simp [StoreState.saveModelOutput, hdc]
              case h_2 => exact absurd hrun (by simp)
  · intro w input signals stored detected e w1 w2 w3 h1 h2 h3
    simp only [DocumentIntakeWorkflow, h1, h2, h3]
  · intro w input e w1 rec hrun hrec
    have hd := extractFields_error_docs w input e w1 hrun
    show lookupRow w1.store.docs input.documentID = some rec
    rw [hd]
    exact hrec

/-- C8 counterexample: when the ladder is exhausted the workflow fails
with the wrapped last parse error, but the stored document never reaches
the `FAILED` status — it stays `CLASSIFIED`. -/
theorem C8_counterexample :
    (DocumentIntakeWorkflow (initialWorld [some "bad", some "bad", some "bad"] 1)
      ⟨"d1", "f", "x"⟩ []).1 = .failed (.ladderExhausted .syntaxError) ∧
    ((DocumentIntakeWorkflow (initialWorld [some "bad", some "bad", some "bad"] 1)
      ⟨"d1", "f", "x"⟩ []).2.store.getDocument "d1").map DocumentRecord.status =
      some .classified :=
  ⟨rfl, rfl⟩

theorem lookupRow_singleton {α : Type} (k : String) (v : α) :
    lookupRow [(k, v)] k = some v := by
  simp [lookupRow]

theorem updateRow_singleton {α : Type} (k : String) (v : α) (f : α → α) :
    updateRow [(k, v)] k f = [(k, f v)] := by
  simp [updateRow]

theorem lookupRow_updateRow_other {α : Type} (l : List (String × α)) (k id : String)
    (f : α → α) (hne : k ≠ id) : lookupRow (updateRow l k f) id = lookupRow l id := by
  induction l with
  | nil => rfl
  | cons p rest ih =>
    obtain ⟨k1, v⟩ := p
    by_cases hk : k1 = k
    · subst hk
      have : k1 ≠ id := hne
      simp [updateRow, lookupRow, this]
    · simp only [updateRow, hk, if_false, lookupRow]
      by_cases h1 : k1 = id
      · simp [h1]
      · simp [h1, ih]

/-- Rewriting any row with a doc-type-preserving update keeps `DocRow`. -/
theorem docRow_updateRow (w w1 : World) (k id dt : String)
    (f : DocumentRecord → DocumentRecord)
    (h : w1.store.docs = updateRow w.store.docs k f)
    (hf : ∀ rec, (f rec).docType = rec.docType) :
    DocRow w id dt → DocRow w1 id dt := by
  rintro ⟨rec, hrec, hdt⟩
  by_cases hk : k = id
  · subst hk
    exact ⟨f rec, by rw [h, lookupRow_updateRow_self, hrec]; rfl,
      by rw [hf]; exact hdt⟩
  · exact ⟨rec, by rw [h, lookupRow_updateRow_other _ _ _ _ hk]; exact hrec, hdt⟩

theorem docRow_eq (w w1 : World) (id dt : String)
    (h : w1.store.docs = w.store.docs) : DocRow w id dt → DocRow w1 id dt := by
  rintro ⟨rec, hrec, hdt⟩
  exact ⟨rec, by rw [h]; exact hrec, hdt⟩

/-- `ValidateFieldsActivity` never touches the world, and a success comes
from a successful `ValidateByRules` whose fields it copies. -/
theorem validateFields_ok_inv (w : World) (input : ValidateFieldsInput)
    (out : ValidateFieldsOutput) (w1 : World)
    (hrun : ValidateFieldsActivity w input = (.ok out, w1)) :
    w1 = w ∧ ∃ r, validateByRulesStr input.docType input.extractionJson = .ok r ∧
      out = ⟨r.failedRules, r.confidence⟩ := by
  unfold ValidateFieldsActivity at hrun
  split at hrun
  case h_1 => exact absurd hrun (by simp)
  case h_2 r hr =>
    simp only [Prod.mk.injEq, Except.ok.injEq] at hrun
    exact ⟨hrun.2.symm, r, hr, hrun.1.symm⟩

/-- A successful `CorrectFields` output is a normalizer output. -/
theorem correctFields_ok (w : World) (input : CorrectFieldsInput)
    (out : CorrectFieldsOutput) (w1 : World)
    (hrun : CorrectFieldsWithOpenAIActivity w input = (.ok out, w1)) :
    ∃ raw, parseAndNormalizeStr input.docType raw =
      .ok (out.correctedJson, out.confidence) := by
  unfold CorrectFieldsWithOpenAIActivity at hrun
  split at hrun
  case h_1 => exact absurd hrun (by simp)
  case h_2 modelOutput wa heq =>
    (try simp only [] at hrun)
    split at hrun
    case h_1 e hp => exact absurd hrun (by simp)
    case h_2 normalized confidence hp =>
      simp only [Prod.mk.injEq, Except.ok.injEq] at hrun
      refine ⟨modelOutput, ?_⟩
      rw [hp]
      rw [show normalized = out.correctedJson from congrArg CorrectFieldsOutput.correctedJson hrun.1,
        show confidence = out.confidence from congrArg CorrectFieldsOutput.confidence hrun.1]

/-- `CorrectFields` preserves `DocRow`: it either leaves the rows alone or
rewrites the current extraction, which keeps the doc type. -/
theorem correctFields_docRow (w : World) (input : CorrectFieldsInput) (id dt : String)
    (h : DocRow w id dt) :
    DocRow (CorrectFieldsWithOpenAIActivity w input).2 id dt := by
  unfold CorrectFieldsWithOpenAIActivity
  split
  case h_1 e wa heq =>
    refine docRow_eq w wa id dt ?_ h
    have hd := callOpenAIWithRetry_docs w
      (.correct input.docType input.documentText input.currentJson input.failedRules)
    rw [heq] at hd
    exact hd
  case h_2 modelOutput wa heq =>
    have hd1 : wa.store.docs = w.store.docs := by
      have hd := callOpenAIWithRetry_docs w
        (.correct input.docType input.documentText input.currentJson input.failedRules)
      rw [heq] at hd
      exact hd
    split
    case h_1 e hp =>
      exact docRow_eq w _ id dt (by simpa [StoreState.saveModelOutput] using hd1) h
    case h_2 normalized confidence hp =>
      refine docRow_updateRow w _ input.documentID id dt
        (fun d => { d with
          currentJson := normalized, confidence := confidence,
          status := .extracted }) ?_ (fun rec => rfl) h
      simp [StoreState.saveCurrentExtraction, StoreState.saveModelOutput, hd1]

/-- `QueueReviewActivity` only rewrites the document status. -/
theorem queueReview_docs (w : World) (input : QueueReviewInput) :
    (QueueReviewActivity w input).2.store.docs =
      updateRow w.store.docs input.documentID
        (fun d => { d with status := .needsReview }) := by
  unfold QueueReviewActivity StoreState.queueReview
  cases hl : lookupRow w.store.reviews input.documentID <;>
    simp [hl, StoreState.insertAudit]

theorem queueReview_docRow (w : World) (input : QueueReviewInput) (id dt : String)
    (h : DocRow w id dt) : DocRow (QueueReviewActivity w input).2 id dt :=
  docRow_updateRow w _ input.documentID id dt _ (queueReview_docs w input)
    (fun _ => rfl) h

/-- `persistTail`: with a present row and a non-empty payload the tail
completes and the row becomes `COMPLETED` with the payload as its final
JSON, keeping the doc type. -/
theorem persistTail_spec (w : World) (id dt : String) (ex : ExtractFieldsOutput)
    (hrow : DocRow w id dt) (hne : ex.extractionJson ≠ "") :
    (persistTail w id ex).1 = .completed ∧
    ∃ rec, (persistTail w id ex).2.store.getDocument id = some rec ∧
      rec.status = .completed ∧ rec.docType = dt ∧
      rec.finalJson = ex.extractionJson := by
  obtain ⟨rec, hrec, hdt⟩ := hrow
  refine ⟨rfl, ?_⟩
  refine ⟨{ rec with
    finalJson := ex.extractionJson, confidence := ex.confidence,
    status := .completed, rejectedReason := none }, ?_, rfl, hdt, rfl⟩
  show lookupRow (persistTail w id ex).2.store.docs id = _
  have hdocs : (persistTail w id ex).2.store.docs =
      updateRow w.store.docs id (fun d =>
        { d with
          finalJson := if ex.extractionJson = "" then d.finalJson
            else ex.extractionJson,
          confidence := ex.confidence, status := .completed,
          rejectedReason := none }) := by
    simp [persistTail, PersistResultActivity, StoreState.saveFinalResult,
      StoreState.resolveReview, StoreState.insertAudit]
  rw [hdocs, lookupRow_updateRow_self, hrec]
  simp [hne]

/-- Unfolding a `reject` iteration of the review loop. -/
theorem reviewLoop_reject (id dt : String) (w : World) (ex : ExtractFieldsOutput)
    (v : ValidateFieldsOutput) (d : ReviewDecisionSignal)
    (ds : List ReviewDecisionSignal) (hd : d.decision = "reject") :
    reviewLoop id dt w ex v (d :: ds) =
      (.rejected, (RejectDocumentActivity w ⟨id, d.reason⟩).2) := by
  have hda : d.decision ≠ "approve" := by rw [hd]; decide
  simp only [reviewLoop]
  rw [if_neg hda, if_pos hd]
  rfl

/-- Unfolding an iteration on an unrecognized decision. -/
theorem reviewLoop_other (id dt : String) (w : World) (ex : ExtractFieldsOutput)
    (v : ValidateFieldsOutput) (d : ReviewDecisionSignal)
    (ds : List ReviewDecisionSignal) (hda : d.decision ≠ "approve")
    (hdr : d.decision ≠ "reject") (hdc : d.decision ≠ "correct") :
    reviewLoop id dt w ex v (d :: ds) = reviewLoop id dt w ex v ds := by
  simp only [reviewLoop]
  rw [if_neg hda, if_neg hdr, if_neg hdc]

/-- Unfolding a `correct` iteration, with the activity result abstract. -/
theorem reviewLoop_correct_step (id dt : String) (w wa : World)
    (ex : ExtractFieldsOutput) (v : ValidateFieldsOutput)
    (d : ReviewDecisionSignal) (ds : List ReviewDecisionSignal)
    (hd : d.decision = "correct") (out : ApplyReviewerCorrectionOutput)
    (hact : ApplyReviewerCorrectionActivity w ⟨id, dt, d.corrections⟩ = (.ok out, wa)) :
    reviewLoop id dt w ex v (d :: ds) =
      (let extracted1 := if out.correctedJson.length > 0 then
          (⟨out.correctedJson, out.confidence⟩ : ExtractFieldsOutput) else ex
       let vconf := if out.correctedJson.length > 0 then out.confidence
          else v.confidence
       let validation1 : ValidateFieldsOutput := ⟨out.failedRules, vconf⟩
       if validation1.failedRules.isEmpty &&
          JNum.threshold075.ble validation1.confidence then
         persistTail (ResolveReviewActivity wa ⟨id, "CORRECTED"⟩).2 id extracted1
       else
         reviewLoop id dt (QueueReviewActivity wa ⟨id, validation1.failedRules,
           extracted1.extractionJson⟩).2 extracted1 validation1 ds) := by
  have hda : d.decision ≠ "approve" := by rw [hd]; decide
  have hdr : d.decision ≠ "reject" := by rw [hd]; decide
  simp only [reviewLoop]
  rw [if_neg hda, if_neg hdr, if_pos hd, hact]
  rfl

/-- A `correct` iteration whose corrections fail to normalize re-queues
the prior extraction under the synthetic rule. -/
theorem reviewLoop_correct_invalid (id dt : String) (w : World)
    (ex : ExtractFieldsOutput) (v : ValidateFieldsOutput)
    (d : ReviewDecisionSignal) (ds : List ReviewDecisionSignal)
    (hd : d.decision = "correct") (e : NormError)
    (hpn : parseAndNormalizeStr dt d.corrections = .error e) :
    reviewLoop id dt w ex v (d :: ds) =
      reviewLoop id dt
        (QueueReviewActivity w ⟨id, ["reviewer.corrections_invalid_json"],
          ex.extractionJson⟩).2
        ex ⟨["reviewer.corrections_invalid_json"], v.confidence⟩ ds := by
  rw [reviewLoop_correct_step id dt w w ex v d ds hd _
    (applyReviewerCorrection_invalid w ⟨id, dt, d.corrections⟩ e hpn)]
  rfl

/-- A `correct` iteration whose corrections normalize to a non-empty
payload replaces the extraction and branches on the fresh validation. -/
theorem reviewLoop_correct_valid (id dt : String) (w wa : World)
    (ex : ExtractFieldsOutput) (v : ValidateFieldsOutput)
    (d : ReviewDecisionSignal) (ds : List ReviewDecisionSignal)
    (hd : d.decision = "correct") (nj : String) (c : JNum) (fr : List String)
    (hact : ApplyReviewerCorrectionActivity w ⟨id, dt, d.corrections⟩ =
      (.ok ⟨nj, c, fr⟩, wa))
    (hlen : nj.length > 0) :
    reviewLoop id dt w ex v (d :: ds) =
      (if fr.isEmpty && JNum.threshold075.ble c then
        persistTail (ResolveReviewActivity wa ⟨id, "CORRECTED"⟩).2 id ⟨nj, c⟩
      else
        reviewLoop id dt (QueueReviewActivity wa ⟨id, fr, nj⟩).2 ⟨nj, c⟩ ⟨fr, c⟩ ds) := by
  rw [reviewLoop_correct_step id dt w wa ex v d ds hd ⟨nj, c, fr⟩ hact]
  simp only [if_pos hlen]

/-- Running `correctStep` on a state satisfying the loop invariant
preserves it, along with the document row. -/
theorem correctStep_inv (w : World) (id dt text : String)
    (ex : ExtractFieldsOutput) (v : ValidateFieldsOutput)
    (exv : ExtractFieldsOutput × ValidateFieldsOutput) (w1 : World)
    (hinv : ReviewInv dt ex v)
    (hrun : correctStep w id dt text ex v = (.ok exv, w1)) :
    ReviewInv dt exv.1 exv.2 ∧ (∀ rid rdt, DocRow w rid rdt → DocRow w1 rid rdt) := by
  unfold correctStep at hrun
  split at hrun
  · split at hrun
    case h_1 e wa heq =>
      simp only [Prod.mk.injEq, Except.ok.injEq] at hrun
      obtain ⟨hexv, hw⟩ := hrun
      subst hw
      refine ⟨by rw [← hexv]; exact hinv, ?_⟩
      intro rid rdt hrow
      have hpres := correctFields_docRow w
        ⟨id, dt, text, ex.extractionJson, v.failedRules⟩ rid rdt hrow
      rw [heq] at hpres
      exact hpres
    case h_2 corrected wa heq =>
      (try simp only [] at hrun)
      split at hrun
      case h_1 => exact absurd hrun (by simp)
      case h_2 validation2 wb heq2 =>
        simp only [Prod.mk.injEq, Except.ok.injEq] at hrun
        obtain ⟨hexv, hw⟩ := hrun
        obtain ⟨hwb, r2, hr2, hv2⟩ := validateFields_ok_inv wa
          ⟨dt, corrected.correctedJson⟩ validation2 wb heq2
        obtain ⟨raw, hpn⟩ := correctFields_ok w
          ⟨id, dt, text, ex.extractionJson, v.failedRules⟩ corrected wa heq
        have hne : corrected.correctedJson ≠ "" :=
          (validate_of_normalized dt raw _ _ hpn).1
        subst hw
        constructor
        · rw [← hexv]
          refine ⟨hne, ?_⟩
          intro hfr
          rw [hv2] at hfr
          exact ⟨r2, hr2, hfr⟩
        · intro rid rdt hrow
          rw [hwb]
          have hpres := correctFields_docRow w
            ⟨id, dt, text, ex.extractionJson, v.failedRules⟩ rid rdt hrow
          rw [heq] at hpres
          exact hpres
  · simp only [Prod.mk.injEq, Except.ok.injEq] at hrun
    obtain ⟨hexv, hw⟩ := hrun
    subst hw
    exact ⟨by rw [← hexv]; exact hinv, fun _ _ hr => hr⟩

/-- The review loop without any `approve` decision: a `completed` outcome
can only come from a `correct` iteration that passed re-validation, so the
persisted final JSON re-validates cleanly. -/
theorem reviewLoop_no_approve (id dt : String) (signals : List ReviewDecisionSignal) :
    ∀ (w : World) (ex : ExtractFieldsOutput) (v : ValidateFieldsOutput),
    (∀ d ∈ signals, d.decision ≠ "approve") →
    DocRow w id dt → ReviewInv dt ex v →
    ∀ (oc : Outcome) (w1 : World), reviewLoop id dt w ex v signals = (oc, w1) →
    oc = .completed →
    ∃ rec, w1.store.getDocument id = some rec ∧ rec.status = .completed ∧
      rec.finalJson ≠ "" ∧
      ∃ r, validateByRulesStr rec.docType rec.finalJson = .ok r ∧
        r.failedRules = [] := by
  induction signals with
  | nil =>
    intro w ex v hna hrow hinv oc w1 hrun hoc
    simp only [reviewLoop, Prod.mk.injEq] at hrun
    exact absurd (hrun.1.trans hoc) (by simp)
  | cons d ds ih =>
    intro w ex v hna hrow hinv oc w1 hrun hoc
    have hda : d.decision ≠ "approve" := hna d (List.mem_cons_self d ds)
    have hna2 : ∀ s ∈ ds, s.decision ≠ "approve" :=
      fun s hs => hna s (List.mem_cons_of_mem d hs)
    by_cases hdr : d.decision = "reject"
    · rw [reviewLoop_reject id dt w ex v d ds hdr] at hrun
      simp only [Prod.mk.injEq] at hrun
      exact absurd (hrun.1.trans hoc) (by simp)
    · by_cases hdc : d.decision = "correct"
      · cases hpn : parseAndNormalizeStr dt d.corrections with
        | error e =>
          rw [reviewLoop_correct_invalid id dt w ex v d ds hdc e hpn] at hrun
          refine ih _ ex ⟨["reviewer.corrections_invalid_json"], v.confidence⟩
            hna2 ?_ ?_ oc w1 hrun hoc
          · exact queueReview_docRow w _ id dt hrow
          · exact ⟨hinv.1, by intro hfr; exact absurd hfr (by simp)⟩
        | ok p =>
          obtain ⟨nj, c⟩ := p
          obtain ⟨r1, hr1, hact⟩ := applyReviewerCorrection_ok w
            ⟨id, dt, d.corrections⟩ nj c hpn
          have hne : nj ≠ "" := (validate_of_normalized dt d.corrections nj c hpn).1
          have hlen : nj.length > 0 := string_length_pos_of_ne nj hne
          rw [reviewLoop_correct_valid id dt w _ ex v d ds hdc nj c
            r1.failedRules hact hlen] at hrun
          have hrowa : DocRow
              ({ w with store := w.store.saveCurrentExtraction id nj c }) id dt := by
            refine docRow_updateRow w _ id id dt
              (fun d => { d with
                currentJson := nj, confidence := c, status := .extracted })
              ?_ (fun rec => rfl) hrow
            simp [StoreState.saveCurrentExtraction]
          split at hrun
          next hg =>
            rw [Bool.and_eq_true] at hg
            have hfr : r1.failedRules = [] := List.isEmpty_iff.mp hg.1
            have hrowr : DocRow ((ResolveReviewActivity
                ({ w with store := w.store.saveCurrentExtraction id nj c })
                ⟨id, "CORRECTED"⟩).2) id dt :=
              docRow_eq _ _ id dt rfl hrowa
            obtain ⟨hoc2, rec, hrec, hst, hdt2, hfj⟩ :=
              persistTail_spec _ id dt (⟨nj, c⟩ : ExtractFieldsOutput) hrowr hne
            refine ⟨rec, ?_, hst, ?_, r1, ?_, hfr⟩
            · rw [show w1 = (persistTail (ResolveReviewActivity
                  ({ w with store := w.store.saveCurrentExtraction id nj c })
                  ⟨id, "CORRECTED"⟩).2 id (⟨nj, c⟩ : ExtractFieldsOutput)).2 from
                  (congrArg Prod.snd hrun).symm]
              exact hrec
            · rw [hfj]; exact hne
            · rw [hdt2, hfj]; exact hr1
          next hg =>
            refine ih _ (⟨nj, c⟩ : ExtractFieldsOutput)
              (⟨r1.failedRules, c⟩ : ValidateFieldsOutput)
              hna2 ?_ ?_ oc w1 hrun hoc
            · exact queueReview_docRow _ _ id dt hrowa
            · exact ⟨hne, fun hfr => ⟨r1, hr1, hfr⟩⟩
      · rw [reviewLoop_other id dt w ex v d ds hda hdr hdc] at hrun
        exact ih w ex v hna2 hrow hinv oc w1 hrun hoc

/-- A fresh `StoreDocumentActivity` run from the empty database. -/
theorem stage_store (llm : List (Option String)) (mr : ℤ) (input : WorkflowInput) :
    StoreDocumentActivity (initialWorld llm mr)
        ⟨input.documentID, input.filename, input.content⟩ =
      (.ok ⟨input.documentID ++ "/" ++ input.filename, input.content⟩,
        worldAfterStore llm mr input) := rfl

/-- `DetectDocTypeActivity` on the freshly stored document. -/
theorem stage_detect (llm : List (Option String)) (mr : ℤ) (input : WorkflowInput) :
    DetectDocTypeActivity (worldAfterStore llm mr input)
        ⟨input.documentID, input.filename, input.content⟩ =
      (.ok ⟨detectDocType input.content input.filename⟩,
        worldAfterDetect llm mr input) := by
  have hget : (worldAfterStore llm mr input).store.getDocument input.documentID =
      some (storedRec input) := by
    simp [worldAfterStore, StoreState.getDocument, lookupRow_singleton]
  unfold DetectDocTypeActivity
  simp only [hget]
  rw [if_neg (by simp [storedRec])]
  simp [worldAfterStore, worldAfterDetect, StoreState.updateDocumentClassification,
    StoreState.insertAudit, updateRow_singleton, classifiedRec, storedRec]

/-- The freshly classified document has no current extraction, so the
extract activity runs the ladder. -/
theorem stage_extract (llm : List (Option String)) (mr : ℤ) (input : WorkflowInput) :
    ExtractFieldsWithOpenAIActivity (worldAfterDetect llm mr input)
        ⟨input.documentID, detectDocType input.content input.filename,
          input.content⟩ =
      extractLadder (worldAfterDetect llm mr input)
        ⟨input.documentID, detectDocType input.content input.filename,
          input.content⟩ := by
  have hget : (worldAfterDetect llm mr input).store.getCurrentExtraction
      input.documentID = some ("", JNum.zero) := by
    simp [worldAfterDetect, StoreState.getCurrentExtraction, lookupRow_singleton,
      classifiedRec, storedRec]
  unfold ExtractFieldsWithOpenAIActivity
  simp only [hget]
  rw [if_neg (by simp)]

/-- C1 (amended): on a fresh document, when no delivered review decision
is `approve`, a `COMPLETED` workflow outcome implies the persisted
document's final JSON is non-empty and re-validates with an empty
failed-rule list.  The unamended claim — that this holds for every
completed run — is refuted by `C1_counterexample`: the `approve` branch
persists whatever the current extraction is, without re-validating it. -/
theorem C1_theorem :
    ∀ (llm : List (Option String)) (mr : ℤ) (input : WorkflowInput)
      (signals : List ReviewDecisionSignal),
    (∀ d ∈ signals, d.decision ≠ "approve") →
    ∀ (oc : Outcome) (w1 : World),
    DocumentIntakeWorkflow (initialWorld llm mr) input signals = (oc, w1) →
    oc = .completed →
    ∃ rec, w1.store.getDocument input.documentID = some rec ∧
      rec.status = .completed ∧ rec.finalJson ≠ "" ∧
      ∃ r, validateByRulesStr rec.docType rec.finalJson = .ok r ∧
        r.failedRules = [] := by
  intro llm mr input signals hna oc w1 hrun hoc
  unfold DocumentIntakeWorkflow at hrun
  rw [stage_store llm mr input] at hrun
  (try simp only [] at hrun)
  rw [stage_detect llm mr input] at hrun
  (try simp only [] at hrun)
  rw [stage_extract llm mr input] at hrun
  split at hrun
  case h_1 e w3 heq =>
    simp only [Prod.mk.injEq] at hrun
    exact absurd (hrun.1.trans hoc) (by simp)
  case h_2 extracted0 w3 heq =>
    split at hrun
    case h_1 e w4 heq4 =>
      simp only [Prod.mk.injEq] at hrun
      exact absurd (hrun.1.trans hoc) (by simp)
    case h_2 validation0 w4 heq4 =>
      obtain ⟨⟨raw, hpn⟩, hdocs3⟩ := extractLadder_ok _ _ _ _ heq
      obtain ⟨hne0, r0, hr0, hc0⟩ := validate_of_normalized _ raw _ _ hpn
      obtain ⟨hw4, rv, hrv, hv0⟩ := validateFields_ok_inv _ _ _ _ heq4
      subst hw4
      have hrow3 : DocRow w4 input.documentID
          (detectDocType input.content input.filename) := by
        refine ⟨{ classifiedRec input with
          currentJson := extracted0.extractionJson,
          confidence := extracted0.confidence, status := .extracted }, ?_, rfl⟩
        rw [hdocs3]
        show lookupRow (updateRow [(input.documentID, classifiedRec input)]
          input.documentID _) input.documentID = some _
        rw [updateRow_singleton, lookupRow_singleton]
      have hinv0 : ReviewInv (detectDocType input.content input.filename)
          extracted0 validation0 := by
        refine ⟨hne0, ?_⟩
        intro hfr
        rw [hv0] at hfr
        exact ⟨rv, hrv, hfr⟩
      split at hrun
      case h_1 e w5 heq5 =>
        simp only [Prod.mk.injEq] at hrun
        exact absurd (hrun.1.trans hoc) (by simp)
      case h_2 extracted1 validation1 w5 heq5 =>
        obtain ⟨hinv1, hpres⟩ := correctStep_inv w4 input.documentID
          (detectDocType input.content input.filename) input.content
          extracted0 validation0 (extracted1, validation1) w5 hinv0 heq5
        have hrow5 := hpres input.documentID
          (detectDocType input.content input.filename) hrow3
        split at hrun
        case isTrue hg =>
          split at hrun
          case h_1 e w6 heqQ => simp [QueueReviewActivity] at heqQ
          case h_2 u w6 heqQ =>
            have hrow6 : DocRow w6 input.documentID
                (detectDocType input.content input.filename) := by
              have h := queueReview_docRow w5
                ⟨input.documentID, validation1.failedRules,
                  extracted1.extractionJson⟩ input.documentID
                (detectDocType input.content input.filename) hrow5
              rw [heqQ] at h
              exact h
            exact reviewLoop_no_approve input.documentID
              (detectDocType input.content input.filename) signals w6
              extracted1 validation1 hna hrow6 hinv1 oc w1 hrun hoc
        case isFalse hg =>
          have hb : (!validation1.failedRules.isEmpty ||
              validation1.confidence.blt JNum.threshold075) = false := by
            cases hcond : (!validation1.failedRules.isEmpty ||
              validation1.confidence.blt JNum.threshold075)
            · rfl
            · exact absurd hcond hg
          rw [Bool.or_eq_false_iff] at hb
          have hfr : validation1.failedRules = [] :=
            List.isEmpty_iff.mp (by simpa using hb.1)
          obtain ⟨r1, hr1, hfr1⟩ := hinv1.2 hfr
          obtain ⟨hoc2, rec, hrec, hst, hdt2, hfj⟩ :=
            persistTail_spec w5 input.documentID
              (detectDocType input.content input.filename) extracted1 hrow5 hinv1.1
          refine ⟨rec, ?_, hst, ?_, r1, ?_, hfr1⟩
          · rw [show w1 = (persistTail w5 input.documentID extracted1).2 from
              (congrArg Prod.snd hrun).symm]
            exact hrec
          · rw [hfj]; exact hinv1.1
          · rw [hdt2, hfj]; exact hr1

theorem cx_vbr : validateByRulesStr "invoice" cxJ =
    .ok ⟨["invoice.invoice_date_parseable"], JNum.one⟩ := by
  unfold validateByRulesStr
  rw [if_neg (by decide), if_pos rfl]
  simp only [cxJ]
  rw [validateByRules_marshalInvoice cxInv]
  rfl

/-- The approved run, step by step. -/
theorem cx_run :
    DocumentIntakeWorkflow (initialWorld [some cxJ] 1) ⟨"d1", "f", "x"⟩
      [⟨"approve", "", "", ""⟩] = (.completed, cxW7) := by
  have hpn : parseAndNormalizeStr "invoice" cxJ = .ok (cxJ, JNum.one) :=
    parseAndNormalizeStr_marshalInvoice cxInv
  have hlad : extractLadder cxW2 ⟨"d1", "invoice", "x"⟩ =
      (.ok ⟨cxJ, JNum.one⟩, cxW3) := by
    unfold extractLadder
    have hcall : callOpenAIWithRetry cxW2 (.base "invoice" "x") =
        (.ok cxJ, { cxW2 with llm := [], llmRequests := [.base "invoice" "x"] }) := rfl
    simp only [hcall]
    simp only [hpn]
    rfl
  have hstore : StoreDocumentActivity (initialWorld [some cxJ] 1) ⟨"d1", "f", "x"⟩ =
      (.ok ⟨"d1/f", "x"⟩, worldAfterStore [some cxJ] 1 ⟨"d1", "f", "x"⟩) := rfl
  have hdet : DetectDocTypeActivity (worldAfterStore [some cxJ] 1 ⟨"d1", "f", "x"⟩)
      ⟨"d1", "f", "x"⟩ = (.ok ⟨"invoice"⟩, cxW2) := rfl
  have hext : ExtractFieldsWithOpenAIActivity cxW2 ⟨"d1", "invoice", "x"⟩ =
      (.ok ⟨cxJ, JNum.one⟩, cxW3) := by
    have hget : cxW2.store.getCurrentExtraction "d1" = some ("", JNum.zero) := rfl
    unfold ExtractFieldsWithOpenAIActivity
    simp only [hget]
    rw [if_neg (by simp)]
    exact hlad
  have hvalA : ValidateFieldsActivity cxW3 ⟨"invoice", cxJ⟩ =
      (.ok ⟨["invoice.invoice_date_parseable"], JNum.one⟩, cxW3) := by
    unfold ValidateFieldsActivity
    simp only [cx_vbr]
  have hcf : CorrectFieldsWithOpenAIActivity cxW3
      ⟨"d1", "invoice", "x", cxJ, ["invoice.invoice_date_parseable"]⟩ =
      (.error .openaiRetryExhausted, cxW4) := rfl
  have hcs : correctStep cxW3 "d1" "invoice" "x" ⟨cxJ, JNum.one⟩
      ⟨["invoice.invoice_date_parseable"], JNum.one⟩ =
      (.ok (⟨cxJ, JNum.one⟩, ⟨["invoice.invoice_date_parseable"], JNum.one⟩),
        cxW4) := by
    unfold correctStep
    rw [if_pos (by decide)]
    simp only [hcf]
  have hq : QueueReviewActivity cxW4
      ⟨"d1", ["invoice.invoice_date_parseable"], cxJ⟩ = (.ok (), cxW5) := rfl
  have hloop : reviewLoop "d1" "invoice" cxW5 ⟨cxJ, JNum.one⟩
      ⟨["invoice.invoice_date_parseable"], JNum.one⟩ [⟨"approve", "", "", ""⟩] =
      (.completed, cxW7) := by
    simp only [reviewLoop, if_true]
    rfl
  unfold DocumentIntakeWorkflow
  simp only [hstore]
  simp only [hdet]
  simp only [hext]
  simp only [hvalA]
  simp only [hcs]
  rw [if_pos (by decide)]
  simp only [hq]
  exact hloop

/-- C1 counterexample: an `approve` decision persists the current
extraction unvalidated — the run completes, the document row is
`COMPLETED`, and its final JSON still fails `invoice.invoice_date_parseable`. -/
theorem C1_counterexample :
    (DocumentIntakeWorkflow (initialWorld [some cxJ] 1) ⟨"d1", "f", "x"⟩
      [⟨"approve", "", "", ""⟩]).1 = .completed ∧
    ((DocumentIntakeWorkflow (initialWorld [some cxJ] 1) ⟨"d1", "f", "x"⟩
      [⟨"approve", "", "", ""⟩]).2.store.getDocument "d1").map
        (fun r => (r.status, r.finalJson)) = some (.completed, cxJ) ∧
    validateByRulesStr "invoice" cxJ =
      .ok ⟨["invoice.invoice_date_parseable"], JNum.one⟩ := by
  refine ⟨?_, ?_, cx_vbr⟩
  · rw [cx_run]
  · rw [cx_run]
    rfl

theorem ok_vbr : validateByRulesStr "invoice" okJ = .ok ⟨[], JNum.one⟩ := by
  unfold validateByRulesStr
  rw [if_neg (by decide), if_pos rfl]
  simp only [okJ]
  rw [validateByRules_marshalInvoice okInv]
  rfl

/-- The clean run, step by step. -/
theorem ok_run :
    DocumentIntakeWorkflow (initialWorld [some okJ] 1) ⟨"d2", "f", "x"⟩ [] =
      (.completed, okW5) := by
  have hpn : parseAndNormalizeStr "invoice" okJ = .ok (okJ, JNum.one) :=
    parseAndNormalizeStr_marshalInvoice okInv
  have hlad : extractLadder okW2 ⟨"d2", "invoice", "x"⟩ =
      (.ok ⟨okJ, JNum.one⟩, okW3) := by
    unfold extractLadder
    have hcall : callOpenAIWithRetry okW2 (.base "invoice" "x") =
        (.ok okJ, { okW2 with llm := [], llmRequests := [.base "invoice" "x"] }) := rfl
    simp only [hcall]
    simp only [hpn]
    rfl
  have hstore : StoreDocumentActivity (initialWorld [some okJ] 1) ⟨"d2", "f", "x"⟩ =
      (.ok ⟨"d2/f", "x"⟩, worldAfterStore [some okJ] 1 ⟨"d2", "f", "x"⟩) := rfl
  have hdet : DetectDocTypeActivity (worldAfterStore [some okJ] 1 ⟨"d2", "f", "x"⟩)
      ⟨"d2", "f", "x"⟩ = (.ok ⟨"invoice"⟩, okW2) := rfl
  have hext : ExtractFieldsWithOpenAIActivity okW2 ⟨"d2", "invoice", "x"⟩ =
      (.ok ⟨okJ, JNum.one⟩, okW3) := by
    have hget : okW2.store.getCurrentExtraction "d2" = some ("", JNum.zero) := rfl
    unfold ExtractFieldsWithOpenAIActivity
    simp only [hget]
    rw [if_neg (by simp)]
    exact hlad
  have hvalA : ValidateFieldsActivity okW3 ⟨"invoice", okJ⟩ =
      (.ok ⟨[], JNum.one⟩, okW3) := by
    unfold ValidateFieldsActivity
    simp only [ok_vbr]
  have hcs : correctStep okW3 "d2" "invoice" "x" ⟨okJ, JNum.one⟩
      ⟨[], JNum.one⟩ = (.ok (⟨okJ, JNum.one⟩, ⟨[], JNum.one⟩), okW3) := by
    unfold correctStep
    rw [if_neg (by decide)]
  unfold DocumentIntakeWorkflow
  simp only [hstore]
  simp only [hdet]
  simp only [hext]
  simp only [hvalA]
  simp only [hcs]
  rw [if_neg (by decide)]
  rfl

/-- C1 witness: the amended theorem applied to the clean `d2` run with no
signals — the persisted record is `COMPLETED` and its final JSON
re-validates with no failed rules. -/
theorem C1_witness :
    (∀ d ∈ ([] : List ReviewDecisionSignal), d.decision ≠ "approve") ∧
    (∃ rec, okW5.store.getDocument "d2" = some rec ∧
      rec.status = .completed ∧ rec.finalJson ≠ "" ∧
      ∃ r, validateByRulesStr rec.docType rec.finalJson = .ok r ∧
        r.failedRules = []) :=
  ⟨fun d hd => absurd hd (List.not_mem_nil d),
   C1_theorem [some okJ] 1 ⟨"d2", "f", "x"⟩ []
     (fun d hd => absurd hd (List.not_mem_nil d)) .completed okW5 ok_run rfl⟩

end TemporalLLM
